import Mathlib

/-!
# Shader-program matching of the renderer (`src/src/gl/renderer.cpp`)

A shallow embedding of the code that gates and selects shader programs:

* `Renderer::ConditionSingle::ConditionSingle` (the parser of one `check` line),
* `Renderer::ConditionSingle::getIndex` and `Renderer::ConditionSingle::eval`,
* `Renderer::ConditionGroup::eval`,
* `Renderer::Program::load` (the loader of a program file),
* `Renderer::updateShaders` (the load of the registry),
* `Renderer::setupProgram` (the selection of a program for a drawable).

Strings (`QString`) are lists of characters; the Qt string primitives the code
calls (`trimmed`, `indexOf`, `left`, `right`, `mid`, `startsWith`, ...) are
modelled next to the code that uses them.
-/

namespace Renderer

/-! ## Qt string primitives -/

/-- A `QString`, as the list of its characters. -/
abbrev QString := List Char

namespace QString

/-- Model of `QChar::isSpace`: the ASCII white space, NEL, NBSP and the Unicode
separator categories Zs, Zl and Zp. -/
def isSpace (c : Char) : Bool :=
  let n := c.toNat
  n == 0x20 || (0x09 ≤ n && n ≤ 0x0d) || n == 0x85 || n == 0xa0 || n == 0x1680
    || (0x2000 ≤ n && n ≤ 0x200a) || n == 0x2028 || n == 0x2029 || n == 0x202f
    || n == 0x205f || n == 0x3000

/-- Model of `QString::trimmed`: white space removed from both ends. -/
def trimmed (s : QString) : QString :=
  (((s.dropWhile isSpace).reverse).dropWhile isSpace).reverse

/-- Model of `QString::startsWith`. -/
def startsWith (s p : QString) : Bool := p.isPrefixOf s

/-- Model of `QString::endsWith`. -/
def endsWith (s p : QString) : Bool := p.reverse.isPrefixOf s.reverse

/-- First position at which `needle` occurs in `s`, if any. -/
def find? (s needle : QString) : Option Nat :=
  match s with
  | [] => if needle.isEmpty then some 0 else none
  | c :: t =>
    if needle.isPrefixOf (c :: t) then some 0
    else (find? t needle).map (· + 1)

/-- Model of `QString::indexOf`: the first position of `needle`, or `-1`. -/
def indexOf (s needle : QString) : Int :=
  match find? s needle with
  | some p => (p : Int)
  | none => -1

/-- Model of `QString::length`, an `int`. -/
def len (s : QString) : Int := (s.length : Int)

/-- Model of `QString::left(n)`: the whole string when `n` is negative or not
smaller than the size. -/
def left (s : QString) (n : Int) : QString :=
  if n < 0 ∨ len s ≤ n then s else s.take n.toNat

/-- Model of `QString::right(n)`: the whole string when `n` is negative or not
smaller than the size. -/
def right (s : QString) (n : Int) : QString :=
  if n < 0 ∨ len s ≤ n then s else s.drop (len s - n).toNat

/-- Model of `QString::mid(position, n)` for a non-negative `position`: empty
when `position` is past the end, the rest of the string when `n` is negative or
exceeds what is left. -/
def mid (s : QString) (position : Nat) (n : Int) : QString :=
  if s.length < position then []
  else if n < 0 ∨ len s - position < n then s.drop position
  else (s.drop position).take n.toNat

/-- Model of `QString::remove(0, n)`: the first `n` characters removed. -/
def remove0 (s : QString) (n : Nat) : QString := s.drop n

/-- Model of `QString::contains`. -/
def contains (s needle : QString) : Bool := (find? s needle).isSome

/-- Worker of `removeAll`: `skip` counts the characters of an occurrence that
are still to be dropped. -/
def removeAllAux (needle : QString) : QString → Nat → QString
  | [], _ => []
  | _ :: t, skip + 1 => removeAllAux needle t skip
  | c :: t, 0 =>
    if needle.isPrefixOf (c :: t) then removeAllAux needle t (needle.length - 1)
    else c :: removeAllAux needle t 0

/-- Model of `QString::remove(const QString &)`: every occurrence of a
non-empty `needle` removed, scanning from the left. -/
def removeAll (s needle : QString) : QString :=
  if needle.isEmpty then s else removeAllAux needle s 0

/-- Worker of `split`: `cur` holds the characters of the current part. -/
def splitAux (sep : Char) : QString → QString → List QString
  | [], cur => [cur]
  | c :: t, cur => if c = sep then cur :: splitAux sep t [] else splitAux sep t (cur ++ [c])

/-- Model of `QString::split` for a one-character separator (empty parts are
kept, as with the default `Qt::KeepEmptyParts`). -/
def split (s : QString) (sep : Char) : List QString := splitAux sep s []

end QString

open QString

/-! ## Condition expressions: the parser -/

/-- The comparison kinds, `Renderer::ConditionSingle::Type`. -/
inductive CompType
  | NONE | EQ | NE | LE | GE | LT | GT | AND | NAND
  deriving DecidableEq, Repr

open CompType

/-- The table `Renderer::ConditionSingle::compStrs`, in the order of its
initialiser list. It is a `QHash`, so the order in which it is enumerated is
not this one in general: the parser below takes the enumeration as an
argument. -/
def compStrs : List (CompType × QString) :=
  [ (EQ, " == ".toList), (NE, " != ".toList), (LE, " <= ".toList), (GE, " >= ".toList),
    (LT, " < ".toList), (GT, " > ".toList), (AND, " & ".toList), (NAND, " !& ".toList) ]

/-- A condition expression, the data members of `Renderer::ConditionSingle`. -/
structure ConditionSingle where
  left : QString
  comp : CompType
  right : QString
  invert : Bool
  deriving DecidableEq, Repr

/-- The `while ( i.hasNext() )` loop of the constructor over the enumeration
`tbl` of `compStrs`: the first entry whose token is found at a position `> 0`,
with that position; `none` when the loop runs off the end of the table. -/
def scanTokens (line : QString) : List (CompType × QString) → Option (Int × CompType × QString)
  | [] => none
  | (k, v) :: rest =>
    let pos := indexOf line v
    if pos > 0 then some (pos, k, v) else scanTokens line rest

/-- The quote stripping of the constructor:
`if ( right.startsWith( "\"" ) && right.endsWith( "\"" ) ) right = right.mid( 1, right.length() - 2 )`. -/
def stripQuotes (r : QString) : QString :=
  if startsWith r [Char.ofNat 34] && endsWith r [Char.ofNat 34] then mid r 1 (len r - 2) else r

/-- The constructor `Renderer::ConditionSingle::ConditionSingle( line, neg )`,
with `tbl` the order in which the hash `compStrs` is enumerated. -/
def ConditionSingle.parse (tbl : List (CompType × QString)) (line : QString) (neg : Bool) :
    ConditionSingle :=
  match scanTokens line tbl with
  | some (pos, k, v) =>
    { left := trimmed (QString.left line pos)
      comp := k
      right := stripQuotes (trimmed (QString.right line (len line - pos - len v)))
      invert := neg }
  | none => { left := line, comp := NONE, right := [], invert := neg }

/-- The `check` branch of `Renderer::Program::load` for one line of the file:
the line is trimmed, and when it starts with neither `shaders` nor
`checkgroup` but with `check`, the keyword and an optional `not ` are removed
and the rest is handed to the `ConditionSingle` constructor. `none` when the
line is dispatched to another branch. -/
def loadCheck (tbl : List (CompType × QString)) (raw : QString) : Option ConditionSingle :=
  let line := trimmed raw
  if startsWith line "shaders".toList then none
  else if startsWith line "checkgroup".toList then none
  else if startsWith line "check".toList then
    let line := trimmed (remove0 line 5)
    if startsWith line "not ".toList then
      some (ConditionSingle.parse tbl (trimmed (remove0 line 4)) true)
    else
      some (ConditionSingle.parse tbl line false)
  else none

/-! ## Condition expressions: evaluation -/

/-- A `QModelIndex`: `none` is the invalid index `QModelIndex()`. -/
abbrev QModelIndex := Option Nat

/-- `QModelIndex::isValid`. -/
def QModelIndex.isValid (i : QModelIndex) : Bool := i.isSome

/-- A `float`, as its bit pattern. -/
abbrev FloatBits := Nat

/-- What `ConditionSingle::eval` reads of a `NifItem`: the kind tests it makes,
in the order it makes them, and the typed value accessors. -/
structure NifItem where
  isString : Bool
  isCount : Bool
  isFloat : Bool
  isFileVersion : Bool
  isBSVertexDesc : Bool
  getValueAsString : QString
  getCountValue : Nat
  getFloatValue : FloatBits
  getFileVersionValue : Nat
  getVertexDescFlags : Nat
  deriving DecidableEq, Repr

/-- The attribute snapshot: the `const` interface of `NifModel` that the
condition code consults. -/
structure NifModel where
  getHeaderIndex : QModelIndex
  getIndex : QModelIndex → QString → QModelIndex
  blockInherits : QModelIndex → QString → Bool
  getItem : QModelIndex → Option NifItem

/-- What `ConditionSingle::eval` calls and `renderer.cpp` does not define: Qt's
conversions of the literal (`toULongLong( nullptr, 0 )`, `toUInt( nullptr, 0 )`,
`(float) toDouble()`) and the member template `compare` of `renderer.h`, at the
four types it is used at; `compare` reads the member `comp`, its first
argument here. -/
structure Externals where
  toULongLong : QString → Nat
  toUInt : QString → Nat
  toFloat : QString → FloatBits
  compareString : CompType → QString → QString → Bool
  compareCount : CompType → Nat → Nat → Bool
  compareFloat : CompType → FloatBits → FloatBits → Bool
  compareUInt : CompType → Nat → Nat → Bool

/-- The `for ( QModelIndex iBlock : iBlocks )` loop of `getIndex`. -/
def findBlock (nif : NifModel) (blkid childid : QString) : List QModelIndex → QModelIndex
  | [] => none
  | iBlock :: rest =>
    if nif.blockInherits iBlock blkid then
      if childid.isEmpty then iBlock else nif.getIndex iBlock childid
    else findBlock nif blkid childid rest

/-- The method `Renderer::ConditionSingle::getIndex( nif, iBlocks, blkid )`. -/
def getIndex (nif : NifModel) (iBlocks : List QModelIndex) (blkid : QString) : QModelIndex :=
  if startsWith blkid "HEADER/".toList then
    let blk := removeAll blkid "HEADER/".toList
    if contains blk "/".toList then
      let blks := split blk '/'
      nif.getIndex (nif.getIndex nif.getHeaderIndex (blks.getD 0 [])) (blks.getD 1 [])
    else
      nif.getIndex nif.getHeaderIndex blk
  else
    let pos := indexOf blkid "/".toList
    if pos > 0 then
      findBlock nif (QString.left blkid pos) (QString.right blkid (len blkid - pos - 1)) iBlocks
    else
      findBlock nif blkid [] iBlocks

/-- The tail of `ConditionSingle::eval` once the item is at hand: the chain of
kind tests, each comparing at the item's type and XORing with `invert`, and
the final `return false`. -/
def evalItem (X : Externals) (c : ConditionSingle) (item : NifItem) : Bool :=
  if item.isString then
    xor (X.compareString c.comp item.getValueAsString c.right) c.invert
  else if item.isCount then
    xor (X.compareCount c.comp item.getCountValue (X.toULongLong c.right)) c.invert
  else if item.isFloat then
    xor (X.compareFloat c.comp item.getFloatValue (X.toFloat c.right)) c.invert
  else if item.isFileVersion then
    xor (X.compareUInt c.comp item.getFileVersionValue (X.toUInt c.right)) c.invert
  else if item.isBSVertexDesc then
    xor (X.compareUInt c.comp (item.getVertexDescFlags % 2 ^ 32) (X.toUInt c.right)) c.invert
  else false

/-- The method `Renderer::ConditionSingle::eval( nif, iBlocks )`. -/
def ConditionSingle.eval (X : Externals) (c : ConditionSingle) (nif : NifModel)
    (iBlocks : List QModelIndex) : Bool :=
  let iLeft := getIndex nif iBlocks c.left
  if !iLeft.isValid then c.invert
  else if c.comp = NONE then !c.invert
  else
    match nif.getItem iLeft with
    | none => false
    | some item => evalItem X c item

/-! ## Condition groups -/

/-- A condition: an expression or a group (`Renderer::ConditionGroup`, with its
`_or` flag and its list `conditions`). -/
inductive Condition where
  | single (c : ConditionSingle)
  | group (isOr : Bool) (conditions : List Condition)

mutual
/-- Evaluation of a condition, `Condition::eval`, with the list of the
expressions whose `eval` was called, in call order. For a group this is
`Renderer::ConditionGroup::eval`. -/
def Condition.evalTraced (X : Externals) (nif : NifModel) (iBlocks : List QModelIndex) :
    Condition → Bool × List ConditionSingle
  | .single c => (c.eval X nif iBlocks, [c])
  | .group isOr conditions =>
    if conditions.isEmpty then (true, [])
    else if isOr then Condition.evalOr X nif iBlocks conditions
    else Condition.evalAnd X nif iBlocks conditions
/-- The loop of the `isOrGroup()` branch: `true` at the first child that
evaluates to `true`, `false` when the list is exhausted. -/
def Condition.evalOr (X : Externals) (nif : NifModel) (iBlocks : List QModelIndex) :
    List Condition → Bool × List ConditionSingle
  | [] => (false, [])
  | cond :: rest =>
    let r := Condition.evalTraced X nif iBlocks cond
    if r.1 then (true, r.2)
    else
      let r2 := Condition.evalOr X nif iBlocks rest
      (r2.1, r.2 ++ r2.2)
/-- The loop of the other branch: `false` at the first child that evaluates to
`false`, `true` when the list is exhausted. -/
def Condition.evalAnd (X : Externals) (nif : NifModel) (iBlocks : List QModelIndex) :
    List Condition → Bool × List ConditionSingle
  | [] => (true, [])
  | cond :: rest =>
    let r := Condition.evalTraced X nif iBlocks cond
    if !r.1 then (false, r.2)
    else
      let r2 := Condition.evalAnd X nif iBlocks rest
      (r2.1, r.2 ++ r2.2)
end

/-- The boolean that `Condition::eval` returns. -/
def Condition.eval (X : Externals) (nif : NifModel) (iBlocks : List QModelIndex)
    (c : Condition) : Bool :=
  (c.evalTraced X nif iBlocks).1

/-! ## Evaluation as a step on the attribute store

`eval` and `getIndex` take the model by `const` pointer and the block list by
`const` reference. To state what they do to the attributes, the same code is
written once more over a store `σ` that holds them: every call of an accessor
of `NifModel` takes the store and returns its result together with the store
it leaves, and `eval` hands the store from each call to the next. -/

/-- The accessors of `NifModel` that `eval` and `getIndex` call
(`getHeaderIndex()`, `getIndex( parent, name )`, `blockInherits( index, name )`
and `getItem( index )`), as steps on a store `σ`. Their bodies are in
`nifmodel.cpp`; here they are any functions, so a store that an accessor
writes (a cache, a counter) is a store like any other. -/
structure Accessors (σ : Type) where
  getHeaderIndex : σ → QModelIndex × σ
  getIndex : σ → QModelIndex → QString → QModelIndex × σ
  blockInherits : σ → QModelIndex → QString → Bool × σ
  getItem : σ → QModelIndex → Option NifItem × σ

/-- Modelled from the spec: the accessors read the attribute source and leave
it as it is. `eval` reaches them through `const NifModel *`, which admits only
the members that `nifmodel.h` declares `const`, and per the spec `eval` works
on "a fixed attribute snapshot (no mutation of attributes)". -/
def Accessors.readOnly {σ : Type} (A : Accessors σ) : Prop :=
  (∀ s, (A.getHeaderIndex s).2 = s) ∧
  (∀ s parent name, (A.getIndex s parent name).2 = s) ∧
  (∀ s i name, (A.blockInherits s i name).2 = s) ∧
  (∀ s i, (A.getItem s i).2 = s)

/-- The loop of `getIndex` on a store; `todo` is what is left of `iBlocks`. -/
def findBlockOn {σ : Type} (A : Accessors σ) (blkid childid : QString) :
    List QModelIndex → σ → QModelIndex × σ
  | [], s => (none, s)
  | iBlock :: todo, s =>
    if (A.blockInherits s iBlock blkid).1 then
      if childid.isEmpty then (iBlock, (A.blockInherits s iBlock blkid).2)
      else A.getIndex (A.blockInherits s iBlock blkid).2 iBlock childid
    else findBlockOn A blkid childid todo (A.blockInherits s iBlock blkid).2

/-- The method `ConditionSingle::getIndex` on a store. The argument `blkid` is
passed by value: the `remove` and the reassignment act on the callee's copy. -/
def getIndexOn {σ : Type} (A : Accessors σ) (iBlocks : List QModelIndex) (blkid : QString)
    (s : σ) : QModelIndex × σ :=
  if startsWith blkid "HEADER/".toList then
    let blk := removeAll blkid "HEADER/".toList
    if contains blk "/".toList then
      let blks := split blk '/'
      let h := A.getHeaderIndex s
      let i := A.getIndex h.2 h.1 (blks.getD 0 [])
      A.getIndex i.2 i.1 (blks.getD 1 [])
    else
      let h := A.getHeaderIndex s
      A.getIndex h.2 h.1 blk
  else
    let pos := indexOf blkid "/".toList
    if pos > 0 then
      findBlockOn A (QString.left blkid pos) (QString.right blkid (len blkid - pos - 1))
        iBlocks s
    else
      findBlockOn A blkid [] iBlocks s

/-- The method `ConditionSingle::eval` on a store: the boolean it returns and
the store it leaves. -/
def ConditionSingle.evalOn {σ : Type} (A : Accessors σ) (X : Externals) (c : ConditionSingle)
    (iBlocks : List QModelIndex) (s : σ) : Bool × σ :=
  let iLeft := getIndexOn A iBlocks c.left s
  if !iLeft.1.isValid then (c.invert, iLeft.2)
  else if c.comp = NONE then (!c.invert, iLeft.2)
  else
    let item := A.getItem iLeft.2 iLeft.1
    match item.1 with
    | none => (false, item.2)
    | some it => (evalItem X c it, item.2)

/-! ## The comparison template and worked examples -/

/-- Modelled from the spec: the member template `compare`, defined in
`renderer.h` and not in `renderer.cpp`, at the integer types (counts, file
versions, vertex-descriptor flags): "numeric comparison for counts/floats/version/
bit-flags, with bit-flag operators AND/NAND testing (value & literal) != 0 /
== 0". `NONE` never reaches `compare`; with no comparison to make it holds. -/
def compareNum (comp : CompType) (a b : Nat) : Bool :=
  match comp with
  | EQ => a == b
  | NE => a != b
  | CompType.LE => decide (a ≤ b)
  | CompType.GE => decide (a ≥ b)
  | CompType.LT => decide (a < b)
  | CompType.GT => decide (a > b)
  | AND => (a &&& b) != 0
  | NAND => (a &&& b) == 0
  | NONE => true

/-- Modelled from the spec: the template `compare` of `renderer.h` at
`QString`: "string equality/ordering for strings". The spec gives the bit
tests no meaning on strings; they are taken not to hold. -/
def compareStr (comp : CompType) (a b : QString) : Bool :=
  match comp with
  | EQ => a == b
  | NE => a != b
  | CompType.LE => decide (a ≤ b)
  | CompType.GE => decide (b ≤ a)
  | CompType.LT => decide (a < b)
  | CompType.GT => decide (b < a)
  | AND => false
  | NAND => false
  | NONE => true

/-- Whether a bit pattern is a NaN of IEEE-754 single precision. -/
def floatIsNaN (b : FloatBits) : Bool := (b / 2 ^ 23) % 256 == 255 && b % 2 ^ 23 != 0

/-- Sign and magnitude of a single-precision bit pattern as an integer; on
numbers it is monotone in the value, and both zeros map to `0`. -/
def floatKey (b : FloatBits) : Int :=
  if (b / 2 ^ 31) % 2 == 1 then -((b % 2 ^ 31 : Nat) : Int) else ((b % 2 ^ 31 : Nat) : Int)

/-- Modelled from the spec: the template `compare` of `renderer.h` at `float`,
on bit patterns: "numeric comparison for counts/floats/version/bit-flags".
The bit tests have no meaning on floats; they are taken not to hold. -/
def compareFlt (comp : CompType) (a b : FloatBits) : Bool :=
  let num := !floatIsNaN a && !floatIsNaN b
  match comp with
  | EQ => num && floatKey a == floatKey b
  | NE => !(num && floatKey a == floatKey b)
  | CompType.LE => num && decide (floatKey a ≤ floatKey b)
  | CompType.GE => num && decide (floatKey b ≤ floatKey a)
  | CompType.LT => num && decide (floatKey a < floatKey b)
  | CompType.GT => num && decide (floatKey b < floatKey a)
  | AND => false
  | NAND => false
  | NONE => true

/-- Value of a digit in a base up to 16. -/
def digitValue (c : Char) : Option Nat :=
  if '0' ≤ c ∧ c ≤ '9' then some (c.toNat - '0'.toNat)
  else if 'a' ≤ c ∧ c ≤ 'f' then some (c.toNat - 'a'.toNat + 10)
  else if 'A' ≤ c ∧ c ≤ 'F' then some (c.toNat - 'A'.toNat + 10)
  else none

/-- The number written by a string of digits in `base`, after `acc`. -/
def readDigits (base : Nat) : QString → Nat → Option Nat
  | [], acc => some acc
  | c :: t, acc =>
    match digitValue c with
    | some d => if d < base then readDigits base t (acc * base + d) else none
    | none => none

/-- An integer literal in the C convention that Qt follows for base `0`: `0x`
starts a hexadecimal number, `0` an octal one, any other digit a decimal one. -/
def readLiteral (s : QString) : Option Nat :=
  match s with
  | [] => none
  | '0' :: 'x' :: d :: t => readDigits 16 (d :: t) 0
  | '0' :: 'X' :: d :: t => readDigits 16 (d :: t) 0
  | '0' :: t => readDigits 8 t 0
  | c :: t => readDigits 10 (c :: t) 0

/-- Conversion of a literal to an unsigned integer below `bound`, `0` when the
text is not a number or the number does not fit (Qt then clears `ok` and
returns `0`). -/
def literalBelow (bound : Nat) (s : QString) : Nat :=
  match readLiteral s with
  | some n => if n < bound then n else 0
  | none => 0

/-- The externals of the worked examples, which have integer and string
fields only: integer literals in the C convention, the comparison as modelled
from the spec. No float literal occurs in them; the float conversion is the
constant `+0.0`. -/
def exampleExternals : Externals :=
  { toULongLong := literalBelow (2 ^ 64)
    toUInt := literalBelow (2 ^ 32)
    toFloat := fun _ => 0
    compareString := compareStr
    compareCount := compareNum
    compareFloat := compareFlt
    compareUInt := compareNum }

/-- An item of none of the kinds that `eval` tests. -/
def NifItem.unsupported : NifItem :=
  { isString := false, isCount := false, isFloat := false, isFileVersion := false,
    isBSVertexDesc := false, getValueAsString := [], getCountValue := 0, getFloatValue := 0,
    getFileVersionValue := 0, getVertexDescFlags := 0 }

/-- A count item of value `n`. -/
def NifItem.count (n : Nat) : NifItem :=
  { NifItem.unsupported with isCount := true, getCountValue := n }

/-- A small document. Block `1` is of type `Flags` and holds the count `6`
(the field of the spec's bit-flag example). Block `2` is of type
`NiTriShapeData`, which inherits `NiGeometryData`; its field `Center`, at
index `3`, holds a vector, a value of none of the kinds `eval` compares. The
header has no fields. -/
def exampleNif : NifModel :=
  { getHeaderIndex := some 0
    getIndex := fun parent name =>
      if parent == some 2 && name == "Center".toList then some 3 else none
    blockInherits := fun i name =>
      (i == some 1 && name == "Flags".toList)
        || (i == some 2 && (name == "NiTriShapeData".toList || name == "NiGeometryData".toList))
    getItem := fun i =>
      if i == some 1 then some (NifItem.count 6)
      else if i == some 2 then some NifItem.unsupported
      else if i == some 3 then some NifItem.unsupported
      else none }

/-- The active blocks of the example document. -/
def exampleBlocks : List QModelIndex := [some 1, some 2]

/-- The enumeration of `compStrs` that starts with `!=` and then `==`. -/
def compStrsNeFirst : List (CompType × QString) :=
  [ (NE, " != ".toList), (EQ, " == ".toList), (LE, " <= ".toList), (GE, " >= ".toList),
    (LT, " < ".toList), (GT, " > ".toList), (AND, " & ".toList), (NAND, " !& ".toList) ]

/-- The expressions whose `eval` is called when every condition of `cs` is
evaluated, one after the other. -/
def Condition.visited (X : Externals) (nif : NifModel) (iBlocks : List QModelIndex)
    (cs : List Condition) : List ConditionSingle :=
  (cs.map (fun c => (c.evalTraced X nif iBlocks).2)).flatten

/-- The two operands that `eval` hands to `compare` when the item is of an
integer kind, following its chain of kind tests: the count and the literal
converted by `toULongLong`, the file version and the literal converted by
`toUInt`, or the vertex-descriptor flags cast to `uint` and the literal
converted by `toUInt`; `none` for strings, floats and unsupported kinds. -/
def integerOperands (X : Externals) (item : NifItem) (literal : QString) : Option (Nat × Nat) :=
  if item.isString then none
  else if item.isCount then some (item.getCountValue, X.toULongLong literal)
  else if item.isFloat then none
  else if item.isFileVersion then some (item.getFileVersionValue, X.toUInt literal)
  else if item.isBSVertexDesc then some (item.getVertexDescFlags % 2 ^ 32, X.toUInt literal)
  else none

/-! ## Program definitions: the loader `Renderer::Program::load` -/

/-- Worker of `words`: `cur` holds the characters of the current word. -/
def QString.wordsAux : QString → QString → List QString
  | [], cur => if cur.isEmpty then [] else [cur]
  | c :: t, cur =>
    if isSpace c then
      if cur.isEmpty then QString.wordsAux t [] else cur :: QString.wordsAux t []
    else QString.wordsAux t (cur ++ [c])

/-- The maximal runs of characters of `s` that are not white space. -/
def QString.words (s : QString) : List QString := QString.wordsAux s []

/-- Model of `QString::simplified`: white space removed from both ends and
every inner run of white space replaced by one space. -/
def QString.simplified (s : QString) : QString := [' '].intercalate (QString.words s)

/-- A `QMap<int, CoordType>::contains` on the association list of the map. -/
def mapContains (m : List (Int × Int)) (k : Int) : Bool := m.any (fun e => e.1 == k)

/-- A `QMap<int, CoordType>::insert`: the entries stay sorted by key, the value
of a key that is present is replaced. -/
def mapInsert : List (Int × Int) → Int → Int → List (Int × Int)
  | [], k, v => [(k, v)]
  | (k2, v2) :: rest, k, v =>
    if k < k2 then (k, v) :: (k2, v2) :: rest
    else if k = k2 then (k, v) :: rest
    else (k2, v2) :: mapInsert rest k v

/-- A shader unit, `Renderer::Shader`: file name, GL name, compile status. -/
structure Shader where
  name : QString
  id : Nat
  status : Bool
  deriving DecidableEq, Repr

/-- A condition group, `Renderer::ConditionGroup`: the flag `_or` and the list
`conditions`. -/
structure ConditionGroup where
  isOr : Bool
  conditions : List Condition

/-- A group as a condition (`ConditionGroup` derives from `Condition`). -/
def ConditionGroup.toCondition (g : ConditionGroup) : Condition := .group g.isOr g.conditions

/-- The method `Renderer::ConditionGroup::eval`. -/
def ConditionGroup.eval (X : Externals) (nif : NifModel) (iBlocks : List QModelIndex)
    (g : ConditionGroup) : Bool :=
  Condition.eval X nif iBlocks g.toCondition

/-- What GL answers to `glLinkProgram`: `GL_LINK_STATUS` is `GL_TRUE`, and
`GL_INFO_LOG_LENGTH`. -/
structure LinkReply where
  ok : Bool
  logLen : Int
  deriving DecidableEq, Repr

/-- A program, `Renderer::Program`: name, GL name, status, condition group,
texture-coordinate table (sorted by unit). `attached` lists the shaders handed
to `glAttachShader`, in order, and `linkCalled` records that `glLinkProgram`
was called on the program. -/
structure Program where
  name : QString
  id : Nat
  status : Bool
  conditions : ConditionGroup
  texcoords : List (Int × Int)
  attached : List Nat
  linkCalled : Bool

/-- Modelled from the spec: the flag `_or` of a default-constructed
`ConditionGroup`, such as the member `conditions` of a new program; the
constructor is declared in `renderer.h`, and per the spec "default (no `or`)
is AND". -/
def defaultGroupIsOr : Bool := false

/-- The constructor `Program( name, fn )`, `id` being the name that
`glCreateProgram` returned. The root group is default-constructed and empty;
`status` is written by `load` before anything reads it. -/
def Program.create (name : QString) (id : Nat) : Program :=
  { name := name, id := id, status := false, conditions := ⟨defaultGroupIsOr, []⟩,
    texcoords := [], attached := [], linkCalled := false }

/-- What a drawable (`Shape`) and its scene give to `setupProgram`: the model
of its index (`NifModel::fromValidIndex`, `none` for a null pointer) and its
`getBSVersion()`, the indices of the shape, of its data and of its active
properties (in the order `props.hash()` enumerates them), the scene options
`DisableShaders` and `VisSilhouette`, the sizes of the tangent and bitangent
arrays and of each coordinate set, the `coordSet` of its `TexturingProperty`
when it has one, and whether it has a `BSShaderProperty`. -/
structure Shape where
  nif : Option NifModel
  bsVersion : Nat
  index : QModelIndex
  iData : QModelIndex
  props : List QModelIndex
  disableShaders : Bool
  visSilhouette : Bool
  transTangents : Nat
  tangents : Nat
  transBitangents : Nat
  bitangents : Nat
  coords : List Nat
  texprop : Option (Int → Int)
  bsprop : Bool

/-- What the loader and the binder call outside `renderer.cpp`:
the order in which the hash `compStrs` is enumerated; Qt's `toInt( &ok )`
(`none` when `ok` is cleared) and `toLower`; `TexturingProperty::getId`; the
values of the enumerators `CT_TANGENT`, `CT_BITANGENT`, `CT_BONE`, `CT_WEIGHT`
of `Program::CoordType`; the result of compiling a shader file; GL's reply to
the link of a program with the given shaders attached; `activateTextureUnit`;
and the outcome of the uniform and sampler binding of the per-program
`setupProgram` (between `glUseProgram` and the texture-coordinate loop), which
is `false` exactly when it leaves through one of its `return false` at the
cube-map binding. -/
structure Platform where
  compOrder : List (CompType × QString)
  toInt : QString → Option Int
  toLower : QString → QString
  getId : QString → Int
  CT_TANGENT : Int
  CT_BITANGENT : Int
  CT_BONE : Int
  CT_WEIGHT : Int
  compile : QString → QString → Bool
  link : List Nat → LinkReply
  activateTextureUnit : Int → Bool
  bindUniforms : Program → Shape → Bool

/-- What a line of a program file asks for, as `Program::load` reads it: the
branch of its `if` chain the line falls in and the words the branch looks at. -/
inductive Directive
  | shaders (names : List QString)
  | groupBegin (isOr : Bool)
  | groupEnd
  | groupOther
  | check (c : ConditionSingle)
  | texcoords (unit : Option Int) (idStr : QString)
  | ignored
  deriving DecidableEq, Repr

/-- The `if` chain of the loop of `Program::load` on one line of the file, up
to the point where each branch starts to act: the line is trimmed; a line
starting with `shaders` names the words after the first of its simplified
text; one starting with `checkgroup` is a `begin` (with `or` or not), an `end`
or neither, by its second and third word; one starting with `check` is an
expression, built as in `loadCheck`; one starting with `texcoords` gives, after
the keyword, a unit number and a lower-cased channel name. -/
def classify (P : Platform) (raw : QString) : Directive :=
  let line := trimmed raw
  if startsWith line "shaders".toList then
    .shaders ((split (simplified line) ' ').drop 1)
  else if startsWith line "checkgroup".toList then
    let list := split (simplified line) ' '
    if list.getD 1 [] = "begin".toList then .groupBegin (list.getD 2 [] == "or".toList)
    else if list.getD 1 [] = "end".toList then .groupEnd
    else .groupOther
  else if startsWith line "check".toList then
    let line := trimmed (remove0 line 5)
    if startsWith line "not ".toList then
      .check (ConditionSingle.parse P.compOrder (trimmed (remove0 line 4)) true)
    else
      .check (ConditionSingle.parse P.compOrder line false)
  else if startsWith line "texcoords".toList then
    let list := split (simplified (remove0 line 9)) ' '
    .texcoords (P.toInt (list.getD 0 [])) (P.toLower (list.getD 1 []))
  else .ignored

/-- The exceptions that `Program::load` throws, by `throw` site. -/
inductive LoadError
  | cannotOpen
  | shaderNotCompiled (name : QString)
  | shaderNotFound (name : QString)
  | mismatchingEnd
  | expectedBeginOrEnd
  | malformedTexcoord
  | unknownTextureId (idStr : QString)
  | unitAssignedTwice (unit : Int)
  | linkLog
  deriving DecidableEq, Repr

/-- The state of the loop of `Program::load`. The stack `chkgrps` of open
groups is `top` and, under it, `below` (the root group last). A group that is
open is, in the code, already the last child of the group under it; here the
list of each group holds the children before it and `rebuild` puts the open
groups back in place. `attached` and `texcoords` are the members of the
program being loaded. -/
structure LoadState where
  top : ConditionGroup
  below : List ConditionGroup
  attached : List Nat
  texcoords : List (Int × Int)

/-- The member `conditions` of the program in a state of the loop: every open
group appended to the group under it. -/
def rebuild : ConditionGroup → List ConditionGroup → ConditionGroup
  | top, [] => top
  | top, parent :: rest =>
    rebuild { parent with conditions := parent.conditions ++ [top.toCondition] } rest

/-- The `for` loop of the `shaders` branch: each named unit is looked up in
the renderer's table and attached when it is there and compiled. -/
def attachShaders (shaders : List (QString × Shader)) :
    List QString → LoadState → LoadState × Option LoadError
  | [], st => (st, none)
  | n :: rest, st =>
    match shaders.lookup n with
    | some shader =>
      if shader.status then
        attachShaders shaders rest { st with attached := st.attached ++ [shader.id] }
      else (st, some (.shaderNotCompiled n))
    | none => (st, some (.shaderNotFound n))

/-- The channel id of the `texcoords` branch: `-1` unless the name is one of
the five the branch knows. -/
def coordId (P : Platform) (idStr : QString) : Int :=
  if idStr = "tangents".toList then P.CT_TANGENT
  else if idStr = "bitangents".toList then P.CT_BITANGENT
  else if idStr = "indices".toList then P.CT_BONE
  else if idStr = "weights".toList then P.CT_WEIGHT
  else if idStr = "base".toList then P.getId idStr
  else -1

/-- What each branch of the loop of `Program::load` does to the state, and the
exception it throws, if any. -/
def applyDirective (P : Platform) (shaders : List (QString × Shader)) (st : LoadState) :
    Directive → LoadState × Option LoadError
  | .shaders names => attachShaders shaders names st
  | .groupBegin isOr => ({ st with top := ⟨isOr, []⟩, below := st.top :: st.below }, none)
  | .groupEnd =>
    match st.below with
    | parent :: rest =>
      ({ st with
          top := { parent with conditions := parent.conditions ++ [st.top.toCondition] }
          below := rest }, none)
    | [] => (st, some .mismatchingEnd)
  | .groupOther => (st, some .expectedBeginOrEnd)
  | .check c =>
    ({ st with top := { st.top with conditions := st.top.conditions ++ [.single c] } }, none)
  | .texcoords unit idStr =>
    match unit with
    | none => (st, some .malformedTexcoord)
    | some u =>
      if idStr.isEmpty then (st, some .malformedTexcoord)
      else if coordId P idStr < 0 then (st, some (.unknownTextureId idStr))
      else if mapContains st.texcoords u then (st, some (.unitAssignedTwice u))
      else ({ st with texcoords := mapInsert st.texcoords u (coordId P idStr) }, none)
  | .ignored => (st, none)

/-- The loop `while ( !stream.atEnd() )` of `Program::load` over the lines of
the file: it stops at the first exception, with the state reached. -/
def loadLines (P : Platform) (shaders : List (QString × Shader)) :
    LoadState → List QString → LoadState × Option LoadError
  | st, [] => (st, none)
  | st, raw :: rest =>
    match applyDirective P shaders st (classify P raw) with
    | (st2, some e) => (st2, some e)
    | (st2, none) => loadLines P shaders st2 rest

/-- The state in which the loop starts: `chkgrps.push( &conditions )`. -/
def LoadState.start (prog : Program) : LoadState :=
  { top := prog.conditions, below := [], attached := prog.attached, texcoords := prog.texcoords }

/-- The method `Renderer::Program::load( filepath, renderer )`, with the
program after it and the boolean it returns. `file` is the file as a list of
lines, `none` when it cannot be opened; `shaders` is `renderer->shaders`. An
exception thrown by the loop or by the link check is caught at the end of the
method, which then clears `status`. -/
def Program.load (P : Platform) (shaders : List (QString × Shader)) (prog : Program)
    (file : Option (List QString)) : Program × Bool :=
  match file with
  | none => ({ prog with status := false }, false)
  | some lines =>
    let r := loadLines P shaders (LoadState.start prog) lines
    let prog1 : Program :=
      { prog with
          conditions := rebuild r.1.top r.1.below
          texcoords := r.1.texcoords
          attached := r.1.attached }
    match r.2 with
    | some _ => ({ prog1 with status := false }, false)
    | none =>
      let reply := P.link prog1.attached
      if !reply.ok && reply.logLen != 0 then
        ({ prog1 with linkCalled := true, id := 0, status := false }, false)
      else
        ({ prog1 with linkCalled := true, status := true }, true)

/-! ## The registry: `Renderer::updateShaders` -/

/-- Modelled from the spec: the container type of the members `shaders` and
`programs` is declared in `renderer.h`; per the spec "registry iteration order
is the order Programs were discovered during directory scan". An `insert`
replaces the value of a key that is present and otherwise adds the entry at
the end. -/
def registryInsert {α : Type} : List (QString × α) → QString → α → List (QString × α)
  | [], k, v => [(k, v)]
  | (k2, v2) :: rest, k, v =>
    if k2 = k then (k, v) :: rest else (k2, v2) :: registryInsert rest k v

/-- The state of the renderer that the registry code reads and writes: the
globals `shader_ready` and `shader_initialized`, the next name GL hands out,
and the members `shaders` and `programs`, in iteration order. -/
structure RendererState where
  shaderReady : Bool
  shaderInitialized : Bool
  nextId : Nat
  shaders : List (QString × Shader)
  programs : List (QString × Program)

/-- The directory that `updateShaders` scans: the entries matching `*.vert`,
`*.frag` and `*.prog`, in the order of `entryList()`, each with its content
(`none` when the file cannot be opened). -/
structure ShaderDir where
  vert : List (QString × Option QString)
  frag : List (QString × Option QString)
  prog : List (QString × Option (List QString))

/-- The method `Renderer::Shader::load`: the status is the outcome of the
compilation, `false` when the file cannot be opened. -/
def Shader.load (P : Platform) (shader : Shader) (file : Option QString) : Shader :=
  match file with
  | none => { shader with status := false }
  | some source => { shader with status := P.compile shader.name source }

/-- The method `Renderer::releaseShaders`. -/
def RendererState.releaseShaders (R : RendererState) : RendererState :=
  if !R.shaderReady then R else { R with programs := [], shaders := [] }

/-- The loops of `updateShaders` over the `*.vert` and over the `*.frag`
entries: a shader is created, loaded, and inserted whatever `load` returned. -/
def loadShaderFiles (P : Platform) : List (QString × Option QString) → RendererState → RendererState
  | [], R => R
  | (name, file) :: rest, R =>
    let shader := Shader.load P ⟨name, R.nextId, false⟩ file
    loadShaderFiles P rest
      { R with nextId := R.nextId + 1, shaders := registryInsert R.shaders name shader }

/-- The loop of `updateShaders` over the `*.prog` entries: a program is
created, loaded, and inserted whatever `load` returned (`setUniformLocations`
only queries GL). -/
def loadProgramFiles (P : Platform) :
    List (QString × Option (List QString)) → RendererState → RendererState
  | [], R => R
  | (name, file) :: rest, R =>
    let program := (Program.load P R.shaders (Program.create name R.nextId) file).1
    loadProgramFiles P rest
      { R with nextId := R.nextId + 1, programs := registryInsert R.programs name program }

/-- The method `Renderer::updateShaders`. -/
def RendererState.updateShaders (P : Platform) (R : RendererState) (dir : ShaderDir) :
    RendererState :=
  if !R.shaderReady then R
  else
    loadProgramFiles P dir.prog
      (loadShaderFiles P dir.frag (loadShaderFiles P dir.vert R.releaseShaders))

/-- What `load` makes of a program file, the GL name of the program apart. -/
def Program.parsed (p : Program) :
    QString × Bool × Bool × List Condition × List (Int × Int) × List Nat × Bool :=
  (p.name, p.status, p.conditions.isOr, p.conditions.conditions, p.texcoords, p.attached,
    p.linkCalled)

/-! ## The binder: `Renderer::setupProgram` -/

/-- What `setupProgram` does that is visible from outside: `glUseProgram` on a
program in the per-program `setupProgram`, `stopProgram()`, and the call of
`setupFixedFunction`. -/
inductive Event
  | useProgram (id : Nat)
  | stopProgram
  | fixedFunction
  deriving DecidableEq, Repr

/-- Modelled from the spec: the default value of the parameter `eval` of the
per-program `setupProgram`, declared in `renderer.h`; the scan calls it
without the argument and per the spec returns "the first whose conditions
evaluate true". -/
def evalByDefault : Bool := true

/-- The loop over `prog->texcoords` at the end of the uniform binding of the
per-program `setupProgram`: `false` when a unit cannot be activated, when a
tangent or bitangent channel has neither transformed nor raw array, or when an
ordinary channel has a negative id or a coordinate set that is missing or
empty. -/
def bindTexcoords (P : Platform) (mesh : Shape) : List (Int × Int) → Bool
  | [] => true
  | (unit, it) :: rest =>
    if !P.activateTextureUnit unit then false
    else if it = P.CT_TANGENT then
      if mesh.transTangents ≠ 0 then bindTexcoords P mesh rest
      else if mesh.tangents ≠ 0 then bindTexcoords P mesh rest
      else false
    else if it = P.CT_BITANGENT then
      if mesh.transBitangents ≠ 0 then bindTexcoords P mesh rest
      else if mesh.bitangents ≠ 0 then bindTexcoords P mesh rest
      else false
    else
      match mesh.texprop with
      | some coordSet =>
        if it < 0 then false
        else if coordSet it < 0 ∨ ¬ (coordSet it < (mesh.coords.length : Int))
            ∨ mesh.coords.getD (coordSet it).toNat 0 = 0 then false
        else bindTexcoords P mesh rest
      | none =>
        if mesh.bsprop then
          if it < 0 then false
          else if ¬ (0 < mesh.coords.length) ∨ mesh.coords.getD 0 0 = 0 then false
          else bindTexcoords P mesh rest
        else bindTexcoords P mesh rest

/-- The per-program `Renderer::setupProgram( prog, mesh, props, iBlocks, eval )`
as far as its result goes: `false` without touching GL when the model is
missing or, with `eval` set, when the conditions fail; then the program is
made current, and the result is `false` when the uniform and sampler binding
or the texture-coordinate loop gives up, `true` otherwise. -/
def setupProgramFor (X : Externals) (P : Platform) (prog : Program) (mesh : Shape)
    (iBlocks : List QModelIndex) (eval : Bool) : Bool × List Event :=
  match mesh.nif with
  | none => (false, [])
  | some nif =>
    if eval && !prog.conditions.eval X nif iBlocks then (false, [])
    else if !P.bindUniforms prog mesh then (false, [.useProgram prog.id])
    else if !bindTexcoords P mesh prog.texcoords then (false, [.useProgram prog.id])
    else (true, [.useProgram prog.id])

/-- The loop `for ( Program * program : programs )` of `setupProgram`: the name
of the first program with `status` set for which the per-program
`setupProgram` returns `true`. -/
def scanPrograms (X : Externals) (P : Platform) (mesh : Shape) (iBlocks : List QModelIndex) :
    List (QString × Program) → Option QString × List Event
  | [] => (none, [])
  | (_, program) :: rest =>
    if program.status then
      let r := setupProgramFor X P program mesh iBlocks evalByDefault
      if r.1 then (some program.name, r.2)
      else
        let r2 := scanPrograms X P mesh iBlocks rest
        (r2.1, r.2 ++ r2.2)
    else scanPrograms X P mesh iBlocks rest

/-- The end of `setupProgram` after the hint: the scan, and when it selects
nothing `stopProgram()`, `setupFixedFunction` and the null string. `before`
holds what the hint did. -/
def scanOrFallback (X : Externals) (P : Platform) (R : RendererState) (mesh : Shape)
    (iBlocks : List QModelIndex) (before : List Event) : Option QString × List Event :=
  let s := scanPrograms X P mesh iBlocks R.programs
  match s.1 with
  | some name => (some name, before ++ s.2)
  | none => (none, before ++ s.2 ++ [.stopProgram, .fixedFunction])

/-- The program that the hint stands for: `programs.value( hint )` when the
hint is not empty. -/
def hintedProgram (R : RendererState) (hint : Option QString) : Option Program :=
  match hint with
  | some h => if h.isEmpty then none else R.programs.lookup h
  | none => none

/-- The method `Renderer::setupProgram( mesh, hint )`: the name it returns
(`none` for the null string) and what it did. A null hint is `none`, an empty
one `some []`. -/
def RendererState.setupProgram (X : Externals) (P : Platform) (R : RendererState) (mesh : Shape)
    (hint : Option QString) : Option QString × List Event :=
  if !R.shaderReady || hint.isNone || mesh.disableShaders || mesh.visSilhouette
      || mesh.nif.isNone || mesh.bsVersion == 0 then
    (none, [.fixedFunction])
  else
    let iBlocks := mesh.index :: mesh.iData :: mesh.props
    match hintedProgram R hint with
    | some program =>
      if program.status then
        let r := setupProgramFor X P program mesh iBlocks false
        if r.1 then (some program.name, r.2)
        else scanOrFallback X P R mesh iBlocks r.2
      else scanOrFallback X P R mesh iBlocks []
    | none => scanOrFallback X P R mesh iBlocks []

/-! ## Nesting of groups and of directives -/

mutual
/-- The number of group levels of a condition: `0` for an expression, one more
than the deepest child for a group. -/
def Condition.levels : Condition → Nat
  | .single _ => 0
  | .group _ conditions => Condition.levelsList conditions + 1
/-- The deepest of a list of conditions; for the children of a group this is
the nesting depth of the groups inside it. -/
def Condition.levelsList : List Condition → Nat
  | [] => 0
  | c :: rest => max (Condition.levels c) (Condition.levelsList rest)
end

mutual
/-- A condition written out as directives: a `check` for an expression, and
for a group its `begin` (with its kind), its children in order, and its
`end`. -/
def Condition.directives : Condition → List Directive
  | .single c => [.check c]
  | .group isOr conditions =>
    .groupBegin isOr :: (Condition.directivesList conditions ++ [.groupEnd])
/-- A list of conditions written out, one after the other. -/
def Condition.directivesList : List Condition → List Directive
  | [] => []
  | c :: rest => Condition.directives c ++ Condition.directivesList rest
end

/-- The directives that build the condition tree. -/
def Directive.isStructural : Directive → Bool
  | .groupBegin _ => true
  | .groupEnd => true
  | .check _ => true
  | _ => false

/-- The unit that a `texcoords` directive with a readable number assigns. -/
def Directive.texUnit : Directive → Option Int
  | .texcoords unit _ => unit
  | _ => none

/-- The greatest number of groups open at once while the directives `ds` are
read, `d` groups being open before the first. -/
def peak : Nat → List Directive → Nat
  | d, [] => d
  | d, .groupBegin _ :: ds => max d (peak (d + 1) ds)
  | d, .groupEnd :: ds => max d (peak (d - 1) ds)
  | d, _ :: ds => peak d ds

/-- Whether the `begin` and `end` among the directives `ds` are balanced, `d`
groups being open before the first: no `end` comes when no group is open, and
no group is open after the last. -/
def closes : Nat → List Directive → Bool
  | d, [] => d == 0
  | d, .groupBegin _ :: ds => closes (d + 1) ds
  | 0, .groupEnd :: _ => false
  | d + 1, .groupEnd :: ds => closes d ds
  | d, _ :: ds => closes d ds

/-- The structural directives read so far, as a state of the loop records
them: the children of each open group, each open group after the children of
the group under it. -/
def openDirectives : ConditionGroup → List ConditionGroup → List Directive
  | top, [] => Condition.directivesList top.conditions
  | top, parent :: rest =>
    openDirectives parent rest ++ .groupBegin top.isOr :: Condition.directivesList top.conditions

/-! ## A worked example: registry, document and drawable -/

/-- A decimal integer with an optional sign, in the range of `int`; the
`toInt` of the example platform. -/
def readInt (s : QString) : Option Int :=
  let r : Option Int :=
    match s with
    | [] => none
    | '-' :: d :: t => (readDigits 10 (d :: t) 0).map (fun n => -(n : Int))
    | '+' :: d :: t => (readDigits 10 (d :: t) 0).map (fun n => (n : Int))
    | d :: t => (readDigits 10 (d :: t) 0).map (fun n => (n : Int))
  r.filter (fun n => decide (-(2 : Int) ^ 31 ≤ n ∧ n < (2 : Int) ^ 31))

/-- The platform of the worked examples: the table enumerated in the order of
its initialiser list, decimal `toInt`, lower-casing of the ASCII letters, the
texture slot `base` with id `0`, the channel enumerators with distinct values
that no slot id takes, every shader compiling, every program linking, eight
texture units, and a uniform binding that never gives up. -/
def examplePlatform : Platform :=
  { compOrder := compStrs
    toInt := readInt
    toLower := fun s => s.map Char.toLower
    getId := fun s => if s = "base".toList then 0 else -1
    CT_TANGENT := 16
    CT_BITANGENT := 17
    CT_BONE := 18
    CT_WEIGHT := 19
    compile := fun _ _ => true
    link := fun _ => ⟨true, 0⟩
    activateTextureUnit := fun u => decide (0 ≤ u ∧ u < 8)
    bindUniforms := fun _ _ => true }

/-- The example platform with a GL that fails every link and leaves the
information log empty. -/
def silentLinkPlatform : Platform :=
  { examplePlatform with link := fun _ => ⟨false, 0⟩ }

/-- The shader table of the examples: a vertex and a fragment unit that
compiled, and a fragment unit that did not. -/
def exampleShaders : List (QString × Shader) :=
  [ ("sf_default.vert".toList, ⟨"sf_default.vert".toList, 1, true⟩),
    ("sf_default.frag".toList, ⟨"sf_default.frag".toList, 2, true⟩),
    ("broken.frag".toList, ⟨"broken.frag".toList, 3, false⟩) ]

/-- A document whose header has the field `BS Header/BS Version`, a count of
the given value; block `1` is a `BSTriShape`. -/
def headerNif (version : Nat) : NifModel :=
  { getHeaderIndex := some 0
    getIndex := fun parent name =>
      if parent == some 0 && name == "BS Header".toList then some 10
      else if parent == some 10 && name == "BS Version".toList then some 11
      else none
    blockInherits := fun i name => i == some 1 && name == "BSTriShape".toList
    getItem := fun i => if i == some 11 then some (NifItem.count version) else none }

/-- A drawable of such a document: block `1`, no data block, no properties, one
coordinate set of four entries, no tangents, a shader property. -/
def shapeOf (version : Nat) : Shape :=
  { nif := some (headerNif version), bsVersion := version, index := some 1, iData := none,
    props := [], disableShaders := false, visSilhouette := false, transTangents := 0,
    tangents := 0, transBitangents := 0, bitangents := 0, coords := [4], texprop := none,
    bsprop := true }

/-- The drawable of a document of version `172`. -/
def exampleShape : Shape := shapeOf 172

/-- The drawable of a document of version `130`. -/
def olderShape : Shape := shapeOf 130

/-- The lines of the program file `p1.prog`: two shaders and the condition
"header version `>= 172`". -/
def p1Lines : List QString :=
  [ "shaders sf_default.vert sf_default.frag".toList,
    "check HEADER/BS Header/BS Version >= 172".toList ]

/-- The lines of the program file `p2.prog`: two shaders, no condition. -/
def p2Lines : List QString := [ "shaders sf_default.vert sf_default.frag".toList ]

/-- The lines of a program file that asks for tangents on unit `1`. -/
def tangentLines : List QString :=
  [ "shaders sf_default.vert sf_default.frag".toList, "texcoords 1 tangents".toList ]

/-- The lines of a program file whose condition asks for a block type that the
example document does not have. -/
def skinLines : List QString :=
  [ "shaders sf_default.vert sf_default.frag".toList, "check NiSkinInstance".toList ]

/-- The program that `load` makes of `lines` under `name`, on the example
platform with the example shaders. -/
def exampleProgram (name : String) (id : Nat) (lines : List QString) : QString × Program :=
  (name.toList, (Program.load examplePlatform exampleShaders
    (Program.create name.toList id) (some lines)).1)

/-- A renderer that is ready, with the given registry. -/
def exampleRenderer (programs : List (QString × Program)) : RendererState :=
  { shaderReady := true, shaderInitialized := true, nextId := 10, shaders := exampleShaders,
    programs := programs }

/-! ## The registry state machine: `Renderer::initialize`, `Renderer::updateSettings` -/

/-- The renderer together with the setting `cfg.useShaders`, which
`updateSettings` stores and `initialize()` reads. `probes` counts the calls of
`fn->hasOpenGLFeature( QOpenGLFunctions::Shaders )` made so far. -/
structure SettingsState where
  renderer : RendererState
  useShaders : Bool
  probes : Nat

/-- The method `Renderer::initialize()`, with the value it returns. `feature`
is the answer of `hasOpenGLFeature`, which is asked only when `cfg.useShaders`
is set, `&&` evaluating its right operand only then. -/
def SettingsState.initialise (S : SettingsState) (feature : Bool) : Bool × SettingsState :=
  if !S.renderer.shaderInitialized then
    let probes := if S.useShaders then S.probes + 1 else S.probes
    if S.useShaders && feature then
      (true, { S with
        renderer := { S.renderer with shaderReady := true, shaderInitialized := true }
        probes := probes })
    else
      (false, { S with renderer := { S.renderer with shaderReady := false }, probes := probes })
  else (S.renderer.shaderReady, S)

/-- The method `Renderer::updateSettings()`. `setting` is the value of
"Settings/Render/General/Use Shaders" that it reads, `feature` the answer of
`hasOpenGLFeature` (asked only when the setting is on), `dir` the directory
that `updateShaders` would scan. -/
def SettingsState.updateSettings (P : Platform) (S : SettingsState) (setting feature : Bool)
    (dir : ShaderDir) : SettingsState :=
  let prevStatus := S.renderer.shaderReady
  let ready := setting && feature
  let R1 : RendererState := { S.renderer with shaderReady := ready }
  let R2 : RendererState :=
    if !R1.shaderInitialized && ready && !prevStatus then
      { R1.updateShaders P dir with shaderInitialized := true }
    else R1
  { renderer := R2, useShaders := setting, probes := if setting then S.probes + 1 else S.probes }

/-- The keys of a registry, in iteration order. -/
def registryKeys {α : Type} (m : List (QString × α)) : List QString := m.map (fun e => e.1)

/-! ## Unmatched `end` and groups left open -/

/-- Whether every `end` among the directives `ds` closes a group that is open,
`d` groups being open before the first; groups may stay open after the last. -/
def endsMatched : Nat → List Directive → Bool
  | _, [] => true
  | d, .groupBegin _ :: ds => endsMatched (d + 1) ds
  | 0, .groupEnd :: _ => false
  | d + 1, .groupEnd :: ds => endsMatched d ds
  | d, _ :: ds => endsMatched d ds

/-- The number of groups that are open after the directives `ds`, `d` groups
being open before the first. -/
def openAfter : Nat → List Directive → Nat
  | d, [] => d
  | d, .groupBegin _ :: ds => openAfter (d + 1) ds
  | d, .groupEnd :: ds => openAfter (d - 1) ds
  | d, _ :: ds => openAfter d ds

/-! ## The hint of a drawable: `BSMesh::drawShapes` -/

/-- The statement `shader = scene->renderer->setupProgram( this, shader )` of
`BSMesh::drawShapes`, which runs when `Node::SELECTING` is not set: the new
value of the member `shader` and what the renderer did. -/
def drawShapes (X : Externals) (P : Platform) (R : RendererState) (mesh : Shape)
    (shader : Option QString) : Option QString × List Event :=
  R.setupProgram X P mesh shader

/-- Successive draws of a drawable, each with the renderer and the drawable as
that draw finds them: what each call of `setupProgram` returned and did, the
member `shader` carrying the returned value from one draw to the next. -/
def drawFrames (X : Externals) (P : Platform) :
    List (RendererState × Shape) → Option QString → List (Option QString × List Event)
  | [], _ => []
  | (R, mesh) :: rest, shader =>
    drawShapes X P R mesh shader :: drawFrames X P rest (drawShapes X P R mesh shader).1

/-! ## The fixed-function binding: `Renderer::setupFixedFunction` -/

/-- What `setupFixedFunction` reads: the flags `depthTest`, `depthWrite` and
`translucent` of the drawable, whether `GL_NORMAL_ARRAY` is enabled, the scene
option `DoTexturing`, and of the properties: the outcome of
`TexturingProperty::bind( id, coords, stage )` when there is one, whether
there is a `TextureProperty`, and the outcome of
`BSShaderProperty::bind( 0, coords )` when there is one. -/
structure FixedInput where
  depthTest : Bool
  depthWrite : Bool
  normalArray : Bool
  doTexturing : Bool
  texturing : Option (Int → Int → Bool)
  texture : Bool
  shader : Option Bool
  translucent : Bool

/-- What `setupFixedFunction` does, in order: the lighting set-up, the
`glProperty` calls, the depth switches, `GL_NORMALIZE`, each call of
`texprop->bind( slot, coords, stage )` with its outcome, the `glTexEnv` block
of a stage that bound, the bind of a `TextureProperty`, the bind of the base
texture of a `BSShaderProperty`, the blend override and
`glDisable( GL_TEXTURE_2D )`. -/
inductive FixedCall
  | lighting
  | properties
  | depthTestOff
  | depthMaskOff
  | stencilAndWireframe
  | normalize (enabled : Bool)
  | bindStage (slot : Int) (stage : Int) (bound : Bool)
  | combine (slot : Int)
  | bindTexture
  | bindShaderBase (bound : Bool)
  | blend
  | disableTexture
  deriving DecidableEq, Repr

/-- The texture slots that the multi-texturing branch tries, in the order of
its eight `if`: dark, base, detail, the four decals, glow. -/
def fixedSlots : List Int := [1, 0, 2, 6, 7, 8, 9, 4]

/-- The eight `if ( texprop->bind( slot, mesh->coords, stage ) ) { stage++; ... }`
of the multi-texturing branch, from the given slot on: the final value of
`stage` and the calls made. -/
def bindStages (bind : Int → Int → Bool) : List Int → Int → Int × List FixedCall
  | [], stage => (stage, [])
  | slot :: rest, stage =>
    if bind slot stage then
      ((bindStages bind rest (stage + 1)).1,
        .bindStage slot stage true :: .combine slot :: (bindStages bind rest (stage + 1)).2)
    else
      ((bindStages bind rest stage).1,
        .bindStage slot stage false :: (bindStages bind rest stage).2)

/-- The calls of `setupFixedFunction` before `// setup texturing`. -/
def fixedPreamble (I : FixedInput) : List FixedCall :=
  [.lighting, .properties]
    ++ (if !I.depthTest then [.depthTestOff] else [])
    ++ (if !I.depthWrite then [.depthMaskOff] else [])
    ++ [.stencilAndWireframe, .normalize I.normalArray]

/-- The method `Renderer::setupFixedFunction( mesh, props )`: the value of the
local `stage` when it returns (`0` where the local is never declared) and the
calls it made. It returns nothing and has no failure exit. -/
def setupFixedFunction (I : FixedInput) : Int × List FixedCall :=
  if !I.doTexturing then (0, fixedPreamble I)
  else
    match I.texturing with
    | some bind =>
      ((bindStages bind fixedSlots 0).1, fixedPreamble I ++ (bindStages bind fixedSlots 0).2)
    | none =>
      if I.texture then (0, fixedPreamble I ++ [.bindTexture])
      else
        match I.shader with
        | some bound =>
          if bound then
            (1, fixedPreamble I ++ [.bindShaderBase true, .combine 0]
              ++ (if I.translucent then [.blend] else []))
          else (0, fixedPreamble I ++ [.bindShaderBase false])
        | none => (0, fixedPreamble I ++ [.disableTexture])

/-- The calls of `texprop->bind( slot, coords, stage )` in a list of calls:
slot, stage and outcome of each. -/
def stageAttempts : List FixedCall → List (Int × Int × Bool)
  | [] => []
  | .bindStage slot stage bound :: rest => (slot, stage, bound) :: stageAttempts rest
  | _ :: rest => stageAttempts rest

/-! ## The uniform and sampler binding of the per-program `setupProgram` -/

/-- The enumerators of `UniformType` that `renderer.cpp` names. -/
inductive UniformType
  | SAMP_BASE | SAMP_NORMAL | SAMP_SPECULAR | SAMP_REFLECTIVITY | SAMP_LIGHTING | SAMP_GLOW
  | SAMP_HEIGHT | SAMP_DETAIL | SAMP_TINT | SAMP_LIGHT | SAMP_BACKLIGHT | SAMP_INNER
  | SAMP_CUBE | SAMP_ENV_MASK | SAMP_GRAYSCALE
  | ALPHA | DOUBLE_SIDE | ENV_REFLECTION | FALL_DEPTH | FALL_PARAMS | G2P_ALPHA | G2P_COLOR
  | G2P_SCALE | GLOW_COLOR | GLOW_MULT | HAS_EMIT | HAS_MAP_BACK | HAS_MAP_BASE | HAS_MAP_CUBE
  | HAS_MAP_DETAIL | HAS_MAP_G2P | HAS_MAP_GLOW | HAS_MAP_HEIGHT | HAS_MAP_NORMAL
  | HAS_MAP_SPEC | HAS_MAP_TINT | HAS_MASK_ENV | HAS_RGBFALL | HAS_RIM | HAS_SOFT
  | HAS_TINT_COLOR | HAS_WEAP_BLOOD | INNER_SCALE | INNER_THICK | LIGHT_EFF1 | LIGHT_EFF2
  | LIGHT_INF | LUM_EMIT | MAT_VIEW | MAT_WORLD | OUTER_REFL | OUTER_REFR | POW_BACK
  | POW_FRESNEL | POW_RIM | SPEC_COLOR | SPEC_GLOSS | SPEC_SCALE | SS_ROLLOFF | TINT_COLOR
  | USE_FALLOFF | UV_OFFSET | UV_SCALE
  deriving DecidableEq, Repr

/-- The values of `TextureClampMode` that the binding names, and the others
that `bsprop->clampMode` can hold. -/
inductive TextureClampMode
  | WrapS_WrapT
  | MirrorS_MirrorT
  | other (n : Nat)
  deriving DecidableEq, Repr

/-- What the calls through `mesh->bssp` give: `fileName( slot )`,
`bind( slot, fname, clamp )`, `bindCube( fname )`, the member `clampMode`, and
whether `getMaterial()` is not null. They are read only where the code goes
through the pointer. -/
structure BSShaderProperty where
  fileName : Int → QString
  bind : Int → QString → TextureClampMode → Bool
  bindCube : QString → Bool
  clampMode : TextureClampMode
  material : Bool

/-- What the calls through `props.get<TexturingProperty>()` give in the
sampler binding: `bind( 0 )`, `fileName( 0 )` and `bind( 0, fname )`. -/
structure TexturingProperty where
  bind0 : Bool
  fileName0 : QString
  bindFile : QString → Bool

/-- The members of `BSLightingShaderProperty` that steer the control flow of
the binding. -/
structure BSLightingShaderProperty where
  hasTintColor : Bool
  hasSpecularMap : Bool
  hasBacklight : Bool
  hasMultiLayerParallax : Bool
  deriving DecidableEq, Repr

/-- What the sampler binding reads of the drawable and its scene besides
`Shape`: the shader property behind `mesh->bssp` (not null exactly when
`Shape.bsprop` is set), the texturing property (there exactly when
`Shape.texprop` is), `mesh->bslsp` (`none` for a null pointer), whether
`mesh->bsesp` is not null, the scene options `DoLighting` and `DoErrorColor`,
the visualisation mode `VisNormalsOnly`, and `mesh->translucent`. -/
structure ShapeProps where
  shader : BSShaderProperty
  texturing : TexturingProperty
  bslsp : Option BSLightingShaderProperty
  bsesp : Bool
  doLighting : Bool
  visNormalsOnly : Bool
  doErrorColor : Bool
  translucent : Bool

/-- The GL calls of the per-program `setupProgram` and the texture binds it
asks for: `glUseProgram`; a call of `activateTextureUnit` that succeeded;
`bsprop->bind` with its outcome; `texprop->bind( 0 )` (no name) or
`texprop->bind( 0, fname )` with its outcome; `bsprop->bindCube` with its
outcome; `glBindTexture( GL_TEXTURE_2D, 0 )`; `glUniform1i( uniSamp, texunit )`
on a sampler; any other `glUniform*` call of `uni1f`, `uni1i`, `uni2f`,
`uni3f`, `uni4f` or `uni4m`; the texture-coordinate loop with its outcome; the
blend and depth set-up after it; `glDisable( GL_DEPTH_TEST )` and
`glDepthMask( GL_FALSE )`. -/
inductive GLCall
  | useProgram (id : Nat)
  | activeTexture (unit : Int)
  | bindTexture (slot : Int) (fname : QString) (clamp : TextureClampMode) (bound : Bool)
  | bindTexprop (fname : Option QString) (bound : Bool)
  | bindCube (fname : QString) (bound : Bool)
  | unbindTexture
  | sampler (var : UniformType) (unit : Int)
  | uniform (var : UniformType)
  | texCoordArrays (bound : Bool)
  | renderState
  | depthTestOff
  | depthMaskOff
  deriving DecidableEq, Repr

/-- The local `texunit` of the per-program `setupProgram`, passed by reference
to the sampler helpers, and the calls made so far. -/
structure BindState where
  texunit : Int
  calls : List GLCall
  deriving DecidableEq, Repr

/-- The statement `f->glUniform1i( uniSamp, texunit++ )`. -/
def setSampler (var : UniformType) (st : BindState) : BindState :=
  { texunit := st.texunit + 1, calls := st.calls ++ [.sampler var st.texunit] }

/-- The method `Program::uniSamplerBlank( var, texunit )`; `loc` is the table
`uniformLocations`. -/
def uniSamplerBlank (P : Platform) (loc : UniformType → Int) (var : UniformType)
    (st : BindState) : BindState :=
  if decide (loc var ≥ 0) && P.activateTextureUnit st.texunit then
    setSampler var
      { st with calls := st.calls ++ [.activeTexture st.texunit, .unbindTexture] }
  else st

/-- The local `fname` of `uniSampler`: `forced` when it is not empty, else the
file name of the slot, and `alternate` when that is empty. -/
def samplerFile (bsprop : BSShaderProperty) (textureSlot : Int) (alternate forced : QString) :
    QString :=
  if (if forced.isEmpty then bsprop.fileName textureSlot else forced).isEmpty then alternate
  else if forced.isEmpty then bsprop.fileName textureSlot else forced

/-- The method `Program::uniSampler( bsprop, var, textureSlot, texunit,
alternate, clamp, forced )`. The operands of its condition are evaluated in
the order of the source: the unit is activated only for a name that is not
empty, `bind` is tried on the name only on an active unit, and on `alternate`
only when the name did not bind. -/
def uniSampler (P : Platform) (loc : UniformType → Int) (bsprop : BSShaderProperty)
    (var : UniformType) (textureSlot : Int) (alternate : QString) (clamp : TextureClampMode)
    (forced : QString) (st : BindState) : BindState :=
  if loc var ≥ 0 then
    let fname := samplerFile bsprop textureSlot alternate forced
    if fname.isEmpty then setSampler var st
    else if !P.activateTextureUnit st.texunit then uniSamplerBlank P loc var st
    else if bsprop.bind textureSlot fname clamp then
      setSampler var
        { st with calls := st.calls ++ [.activeTexture st.texunit,
            .bindTexture textureSlot fname clamp true] }
    else if bsprop.bind textureSlot alternate .WrapS_WrapT then
      setSampler var
        { st with calls := st.calls ++ [.activeTexture st.texunit,
            .bindTexture textureSlot fname clamp false,
            .bindTexture textureSlot alternate .WrapS_WrapT true] }
    else
      uniSamplerBlank P loc var
        { st with calls := st.calls ++ [.activeTexture st.texunit,
            .bindTexture textureSlot fname clamp false,
            .bindTexture textureSlot alternate .WrapS_WrapT false] }
  else st

/-- The file names `white`, `black`, `lighting`, `gray`, `magenta`,
`default_n`, `default_ns` and `cube` of `renderer.cpp`. -/
def white : QString := "shaders/white.dds".toList
/-- The static `black`. -/
def black : QString := "shaders/black.dds".toList
/-- The static `lighting`. -/
def lighting : QString := "shaders/lighting.dds".toList
/-- The static `gray`. -/
def gray : QString := "shaders/gray.dds".toList
/-- The static `magenta`. -/
def magenta : QString := "shaders/magenta.dds".toList
/-- The static `default_n`. -/
def default_n : QString := "shaders/default_n.dds".toList
/-- The static `default_ns`. -/
def default_ns : QString := "shaders/default_ns.dds".toList
/-- The static `cube`. -/
def cube : QString := "shaders/cubemap.dds".toList

/-- The local `default_n` of the per-program `setupProgram`. -/
def defaultNormal (nifVersion : Nat) : QString :=
  if nifVersion ≥ 151 then default_ns else default_n

/-- Qt's `lastIndexOf` for one character: the last position that holds it, `-1`
when there is none. -/
def QString.lastIndexOf (s : QString) (c : Char) : Int :=
  match find? s.reverse [c] with
  | some p => (s.length : Int) - 1 - p
  | none => -1

/-- Qt's `insert( pos, t )` for a position inside the string. -/
def QString.insert (s : QString) (pos : Int) (t : QString) : QString :=
  s.take pos.toNat ++ t ++ s.drop pos.toNat

/-- The name of the normal or glow map that goes with a base texture, as the
branch without shader property derives it: the name up to its last `_`
followed by the tag and `.dds`, or else the tag put before the last `.`. -/
def siblingName (fname tag : QString) : QString :=
  if fname.isEmpty then fname
  else if QString.lastIndexOf fname '_' ≥ 0 then
    QString.left fname (QString.lastIndexOf fname '_') ++ tag ++ ".dds".toList
  else if QString.lastIndexOf fname '.' ≥ 0 then
    QString.insert fname (QString.lastIndexOf fname '.') tag
  else fname

/-- The `else` branch of `if ( bsprop )` for the base map: with the uniform
there and a texturing or lighting property, the unit is activated and
`texprop->bind( 0 )` called when there is a texturing property; a failure of
either leads to `uniSamplerBlank`. -/
def bindBaseMap (P : Platform) (loc : UniformType → Int) (mesh : Shape) (D : ShapeProps)
    (st : BindState) : BindState :=
  if decide (loc .SAMP_BASE ≥ 0) && (mesh.texprop.isSome || D.bslsp.isSome) then
    if !P.activateTextureUnit st.texunit then uniSamplerBlank P loc .SAMP_BASE st
    else if mesh.texprop.isSome then
      if !D.texturing.bind0 then
        uniSamplerBlank P loc .SAMP_BASE
          { st with calls := st.calls ++ [.activeTexture st.texunit, .bindTexprop none false] }
      else
        setSampler .SAMP_BASE
          { st with calls := st.calls ++ [.activeTexture st.texunit, .bindTexprop none true] }
    else setSampler .SAMP_BASE { st with calls := st.calls ++ [.activeTexture st.texunit] }
  else st

/-- The `else if ( !bsprop )` branches for the normal and the glow map: with
the uniform and a texturing property there, the name derived from the base
texture is bound on the activated unit; a failure leads to
`uniSamplerBlank`, and an empty name to the plain assignment. -/
def bindDerivedMap (P : Platform) (loc : UniformType → Int) (mesh : Shape) (D : ShapeProps)
    (var : UniformType) (tag : QString) (st : BindState) : BindState :=
  if decide (loc var ≥ 0) && mesh.texprop.isSome then
    let fname := siblingName D.texturing.fileName0 tag
    if fname.isEmpty then setSampler var st
    else if !P.activateTextureUnit st.texunit then uniSamplerBlank P loc var st
    else if !D.texturing.bindFile fname then
      uniSamplerBlank P loc var
        { st with calls := st.calls ++ [.activeTexture st.texunit,
            .bindTexprop (some fname) false] }
    else
      setSampler var
        { st with calls := st.calls ++ [.activeTexture st.texunit,
            .bindTexprop (some fname) true] }
  else st

/-- The block `if ( uniCubeMap >= 0 ) { ... }` of the lighting and of the
effect branch, `textureSlot` being the slot whose file name it reads. The
boolean is `false` where the block leaves `setupProgram` with `return false`:
the unit cannot be activated, or neither the name nor `cube` binds. -/
def bindCubeMap (P : Platform) (loc : UniformType → Int) (bsprop : BSShaderProperty)
    (textureSlot : Int) (st : BindState) : Bool × BindState :=
  if loc .SAMP_CUBE ≥ 0 then
    let fname := if (bsprop.fileName textureSlot).isEmpty then cube
      else bsprop.fileName textureSlot
    if !P.activateTextureUnit st.texunit then (false, st)
    else if bsprop.bindCube fname then
      (true, setSampler .SAMP_CUBE
        { st with calls := st.calls ++ [.activeTexture st.texunit, .bindCube fname true] })
    else if bsprop.bindCube cube then
      (true, setSampler .SAMP_CUBE
        { st with calls := st.calls ++ [.activeTexture st.texunit, .bindCube fname false,
            .bindCube cube true] })
    else
      (false, { st with calls := st.calls ++ [.activeTexture st.texunit,
          .bindCube fname false, .bindCube cube false] })
  else (true, st)

/-- The statements of the uniform and sampler binding: a call of `uni1f`,
`uni1i`, `uni2f`, `uni3f` or `uni4f` on a uniform; a call of `uni4m`; a call of
`uniSampler( bsprop, var, textureSlot, texunit, alternate, clamp, forced )`;
the base-map branch without shader property; the normal or glow branch
without shader property; the cube-map block. -/
inductive BindStep
  | uni (var : UniformType)
  | uni4m (var : UniformType)
  | uniSampler (var : UniformType) (textureSlot : Int) (alternate : QString)
      (clamp : TextureClampMode) (forced : QString)
  | baseMap
  | derivedMap (var : UniformType) (tag : QString)
  | cubeMap (textureSlot : Int)
  deriving DecidableEq, Repr

/-- Whether a statement is a cube-map block, the only one that can leave
`setupProgram`. -/
def BindStep.isCube : BindStep → Bool
  | .cubeMap _ => true
  | _ => false

/-- One statement of the binding run on a state: `false` when it leaves
`setupProgram` with `return false`. -/
def runStep (P : Platform) (loc : UniformType → Int) (mesh : Shape) (D : ShapeProps) :
    BindStep → BindState → Bool × BindState
  | .uni var, st => (true, { st with calls := st.calls ++ [.uniform var] })
  | .uni4m var, st =>
    (true, if loc var ≥ 0 then { st with calls := st.calls ++ [.uniform var] } else st)
  | .uniSampler var textureSlot alternate clamp forced, st =>
    (true, uniSampler P loc D.shader var textureSlot alternate clamp forced st)
  | .baseMap, st => (true, bindBaseMap P loc mesh D st)
  | .derivedMap var tag, st => (true, bindDerivedMap P loc mesh D var tag st)
  | .cubeMap textureSlot, st => bindCubeMap P loc D.shader textureSlot st

/-- The statements run one after the other, up to the first that returns
`false`. -/
def runSteps (P : Platform) (loc : UniformType → Int) (mesh : Shape) (D : ShapeProps) :
    List BindStep → BindState → Bool × BindState
  | [], st => (true, st)
  | s :: rest, st =>
    if (runStep P loc mesh D s st).1 then runSteps P loc mesh D rest (runStep P loc mesh D s st).2
    else (false, (runStep P loc mesh D s st).2)

/-- The statements that are reached when the list is run: all of them, or
those up to and including the one that returns `false`. -/
def stepsRun (P : Platform) (loc : UniformType → Int) (mesh : Shape) (D : ShapeProps) :
    List BindStep → BindState → List BindStep
  | [], _ => []
  | s :: rest, st =>
    if (runStep P loc mesh D s st).1 then
      s :: stepsRun P loc mesh D rest (runStep P loc mesh D s st).2
    else [s]

/-- The local `clamp`. -/
def clampOf (mesh : Shape) (D : ShapeProps) : TextureClampMode :=
  if mesh.bsprop then D.shader.clampMode else .WrapS_WrapT

/-- The statements for the base, normal and glow maps, which come first. -/
def mapSteps (mesh : Shape) (D : ShapeProps) : List BindStep :=
  (if mesh.bsprop then
      [.uniSampler .SAMP_BASE 0
        (if D.doErrorColor && decide (mesh.bsVersion < 172) then magenta else white)
        (clampOf mesh D)
        (if D.doLighting && D.visNormalsOnly then white else [])]
    else [.baseMap])
  ++ (if mesh.bsprop && !D.bsesp then
      [.uniSampler .SAMP_NORMAL 1 (defaultNormal mesh.bsVersion) (clampOf mesh D)
        (if !D.doLighting then defaultNormal mesh.bsVersion else [])]
    else if !mesh.bsprop then [.derivedMap .SAMP_NORMAL "_n".toList]
    else [])
  ++ (if mesh.bsprop && !D.bsesp then [.uniSampler .SAMP_GLOW 2 black (clampOf mesh D) []]
    else if !mesh.bsprop then [.derivedMap .SAMP_GLOW "_g".toList]
    else [])

/-- The statements of the block `if ( lsp )` before its cube-map block. -/
def litHead (nifVersion : Nat) (lsp : BSLightingShaderProperty) (clamp : TextureClampMode) :
    List BindStep :=
  [.uni .LIGHT_EFF1, .uni .LIGHT_EFF2, .uni .ALPHA, .uni .UV_SCALE, .uni .UV_OFFSET,
    .uni4m .MAT_VIEW, .uni4m .MAT_WORLD, .uni .G2P_COLOR,
    .uniSampler .SAMP_GRAYSCALE 3 [] .MirrorS_MirrorT [],
    .uni .HAS_TINT_COLOR]
  ++ (if lsp.hasTintColor then [.uni .TINT_COLOR] else [])
  ++ [.uni .HAS_MAP_DETAIL,
    .uniSampler .SAMP_DETAIL 3 "shaders/blankdetailmap.dds".toList clamp [],
    .uni .HAS_MAP_TINT, .uniSampler .SAMP_TINT 6 gray clamp [],
    .uni .HAS_SOFT, .uni .HAS_RIM,
    .uniSampler .SAMP_LIGHT 2 (defaultNormal nifVersion) clamp [],
    .uni .HAS_MAP_BACK,
    .uniSampler .SAMP_BACKLIGHT 7 (defaultNormal nifVersion) clamp [],
    .uni .GLOW_MULT, .uni .HAS_EMIT, .uni .HAS_MAP_GLOW, .uni .GLOW_COLOR,
    .uni .SPEC_SCALE, .uni .SPEC_GLOSS, .uni .SPEC_COLOR, .uni .HAS_MAP_SPEC]
  ++ (if nifVersion ≤ 130 then
      (if nifVersion = 130 ∨ (lsp.hasSpecularMap = true ∧ lsp.hasBacklight = false) then
        [.uniSampler .SAMP_SPECULAR 7 white clamp []]
      else [.uniSampler .SAMP_SPECULAR 7 black clamp []])
    else [])
  ++ (if nifVersion ≥ 130 then
      [.uni .DOUBLE_SIDE, .uni .G2P_SCALE, .uni .SS_ROLLOFF, .uni .POW_FRESNEL, .uni .POW_RIM,
        .uni .POW_BACK]
    else [])
  ++ [.uniSampler .SAMP_INNER 6 (defaultNormal nifVersion) clamp []]
  ++ (if lsp.hasMultiLayerParallax then
      [.uni .INNER_SCALE, .uni .INNER_THICK, .uni .OUTER_REFR, .uni .OUTER_REFL]
    else [])
  ++ [.uni .HAS_MAP_CUBE, .uni .HAS_MASK_ENV, .uni .ENV_REFLECTION]

/-- The statements of the block `if ( lsp )` after its cube-map block. -/
def litTail (nifVersion : Nat) (clamp : TextureClampMode) : List BindStep :=
  [.uniSampler .SAMP_ENV_MASK 5 white clamp []]
  ++ (if nifVersion ≥ 151 then
      [.uniSampler .SAMP_REFLECTIVITY 8 black clamp [],
        .uniSampler .SAMP_LIGHTING 9 lighting clamp []]
    else [])
  ++ [.uni .HAS_MAP_HEIGHT, .uniSampler .SAMP_HEIGHT 3 gray clamp []]

/-- The statements of the block `if ( lsp )`, the lit-material binding: the
cube-map block reads the file name of slot `4`. -/
def litSteps (nifVersion : Nat) (lsp : BSLightingShaderProperty) (clamp : TextureClampMode) :
    List BindStep :=
  litHead nifVersion lsp clamp ++ .cubeMap 4 :: litTail nifVersion clamp

/-- The statements of the block `if ( esp )`, the effect binding: the
cube-map block reads the file name of slot `2`. -/
def effectSteps (nifVersion : Nat) (clamp : TextureClampMode) : List BindStep :=
  [.uni4m .MAT_WORLD, .uniSampler .SAMP_BASE 0 white clamp [],
    .uni .DOUBLE_SIDE, .uni .UV_SCALE, .uni .UV_OFFSET, .uni .HAS_MAP_BASE, .uni .HAS_MAP_G2P,
    .uni .G2P_ALPHA, .uni .G2P_COLOR, .uni .USE_FALLOFF, .uni .HAS_RGBFALL,
    .uni .HAS_WEAP_BLOOD, .uni .GLOW_COLOR, .uni .GLOW_MULT, .uni .FALL_PARAMS,
    .uni .FALL_DEPTH, .uniSampler .SAMP_GRAYSCALE 1 [] .MirrorS_MirrorT []]
  ++ (if nifVersion ≥ 130 then
      [.uni .LIGHT_INF, .uni .HAS_MAP_NORMAL,
        .uniSampler .SAMP_NORMAL 3 (defaultNormal nifVersion) clamp [],
        .uni .HAS_MAP_CUBE, .uni .HAS_MASK_ENV, .uni .ENV_REFLECTION,
        .cubeMap 2,
        .uniSampler .SAMP_SPECULAR 4 white clamp []]
      ++ (if nifVersion ≥ 151 then
          [.uniSampler .SAMP_REFLECTIVITY 6 black clamp [],
            .uniSampler .SAMP_LIGHTING 7 lighting clamp []]
        else [])
      ++ [.uni .LUM_EMIT]
    else [])

/-- The statements of the per-program `setupProgram` from `int texunit = 0` to
the texture-coordinate loop, in the order of the source; which of them there
are depends only on the drawable, its properties and the document version. -/
def passSteps (mesh : Shape) (D : ShapeProps) : List BindStep :=
  mapSteps mesh D
  ++ (match D.bslsp with
    | some lsp => litSteps mesh.bsVersion lsp (clampOf mesh D)
    | none => [])
  ++ (if D.bsesp then effectSteps mesh.bsVersion (clampOf mesh D) else [])
  ++ (if !D.bsesp && D.bslsp.isNone then [.uni .UV_SCALE, .uni .UV_OFFSET] else [])

/-- The uniform and sampler binding of a draw, from `int texunit = 0` on:
whether it reached its end, and the cursor and calls it leaves. -/
def bindingPass (P : Platform) (loc : UniformType → Int) (mesh : Shape) (D : ShapeProps) :
    Bool × BindState :=
  runSteps P loc mesh D (passSteps mesh D) ⟨0, []⟩

/-- The units given to sampler uniforms in a list of calls, in call order. -/
def samplerUnits : List GLCall → List Int
  | [] => []
  | .sampler _ unit :: rest => unit :: samplerUnits rest
  | _ :: rest => samplerUnits rest

/-- The integers `a`, `a + 1`, ..., `a + n - 1`. -/
def unitsFrom (a : Int) : Nat → List Int
  | 0 => []
  | n + 1 => a :: unitsFrom (a + 1) n

/-- A state reached from another by the sampler binding: either the cursor and
the units given to samplers are the same, or the cursor moved on by one and
its old value is the one unit given. -/
def Advanced (st st2 : BindState) : Prop :=
  (st2.texunit = st.texunit ∧ samplerUnits st2.calls = samplerUnits st.calls) ∨
  (st2.texunit = st.texunit + 1 ∧
    samplerUnits st2.calls = samplerUnits st.calls ++ [st.texunit])

/-- The flags `depthTest` and `depthWrite` of the drawable, which the
per-program `setupProgram` writes, and the calls made so far. -/
structure DrawState where
  depthTest : Bool
  depthWrite : Bool
  calls : List GLCall
  deriving DecidableEq, Repr

/-- The flags after the block `if ( !mat && nifVersion >= 172 )`. -/
def depthOverride (mesh : Shape) (D : ShapeProps) (d : DrawState) : DrawState :=
  if !(mesh.bsprop && D.shader.material) && decide (mesh.bsVersion ≥ 172) then
    if D.bslsp.isSome then { d with depthWrite := true, depthTest := true }
    else if D.bsesp then { d with depthWrite := false, depthTest := false }
    else d
  else d

/-- The per-program `Renderer::setupProgram( prog, mesh, props, iBlocks, eval )`
with the state it leaves: it returns `false` at once when the model is missing
or, with `eval` set, when the conditions fail; then the program is made
current, the depth flags are overridden, the uniforms and samplers are bound
with a cursor that starts at `0`, the texture-coordinate loop runs, and the
blend and depth state is set. `loc` is `prog->uniformLocations`. -/
def setupProgramSt (X : Externals) (P : Platform) (loc : UniformType → Int) (prog : Program)
    (mesh : Shape) (D : ShapeProps) (iBlocks : List QModelIndex) (eval : Bool)
    (d : DrawState) : Bool × DrawState :=
  match mesh.nif with
  | none => (false, d)
  | some nif =>
    if eval && !prog.conditions.eval X nif iBlocks then (false, d)
    else
      let d1 := depthOverride mesh D { d with calls := d.calls ++ [.useProgram prog.id] }
      let r := bindingPass P loc mesh D
      if !r.1 then (false, { d1 with calls := d1.calls ++ r.2.calls })
      else if !bindTexcoords P mesh prog.texcoords then
        (false, { d1 with calls := d1.calls ++ r.2.calls ++ [.texCoordArrays false] })
      else
        (true, { d1 with
          calls := d1.calls ++ r.2.calls ++ [.texCoordArrays true, .renderState]
            ++ (if !d1.depthTest then [.depthTestOff] else [])
            ++ (if !d1.depthWrite || D.translucent then [.depthMaskOff] else []) })

/-! ## More examples -/

/-- The lines of a program file that asks for bitangents on unit `0`. -/
def bitangentLines : List QString :=
  [ "shaders sf_default.vert sf_default.frag".toList, "texcoords 0 bitangents".toList ]

/-- The lines of a program file that opens a group and never closes it. -/
def openGroupLines : List QString :=
  [ "shaders sf_default.vert sf_default.frag".toList, "checkgroup begin or".toList,
    "check BSTriShape".toList ]

/-- A shader property whose textures all bind, with a file name for the base
slot only and no material. -/
def exampleShaderProperty : BSShaderProperty :=
  { fileName := fun slot => if slot = 0 then "textures/rock_d.dds".toList else []
    bind := fun _ _ _ => true
    bindCube := fun _ => true
    clampMode := .WrapS_WrapT
    material := false }

/-- A shader property none of whose texture files can be read. -/
def missingFiles : BSShaderProperty :=
  { exampleShaderProperty with bind := fun _ _ _ => false, bindCube := fun _ => false }

/-- A texturing property that binds nothing. -/
def noTexturing : TexturingProperty :=
  { bind0 := false, fileName0 := [], bindFile := fun _ => false }

/-- The properties of a lit drawable: a lighting shader property with a
specular map, the scene with lighting on. -/
def litProps (shader : BSShaderProperty) : ShapeProps :=
  { shader := shader, texturing := noTexturing,
    bslsp := some ⟨false, true, false, false⟩, bsesp := false,
    doLighting := true, visNormalsOnly := false, doErrorColor := false, translucent := false }

/-- A program that has every uniform: the location of each is its index. -/
def allUniforms : UniformType → Int := fun var => (var.toCtorIdx : Int)

/-- A program whose only uniform is the cube-map sampler. -/
def cubeOnly : UniformType → Int := fun var => if var = .SAMP_CUBE then 0 else -1

/-- A program whose only uniforms are the samplers of the cube map, of the
reflectivity map and of the precomputed lighting. -/
def envUniforms : UniformType → Int := fun var =>
  if var = .SAMP_CUBE then 0 else if var = .SAMP_REFLECTIVITY then 1
  else if var = .SAMP_LIGHTING then 2 else -1

/-- A renderer state after start-up on a GL with shaders: ready, initialised,
the setting on, holding the given registry. -/
def readySettings (programs : List (QString × Program)) : SettingsState :=
  { renderer := exampleRenderer programs, useShaders := true, probes := 1 }

/-- A shader directory with the two example units and the program file
`p2.prog`. -/
def exampleDir : ShaderDir :=
  { vert := [("sf_default.vert".toList, some "#version 120".toList)]
    frag := [("sf_default.frag".toList, some "#version 120".toList)]
    prog := [("p2.prog".toList, some p2Lines)] }

/-- The input of the fixed-function binding for a drawable with a
multi-texturing property whose base and glow slots bind and no other. -/
def fixedExample (doTexturing : Bool) : FixedInput :=
  { depthTest := true, depthWrite := true, normalArray := true, doTexturing := doTexturing
    texturing := some (fun slot _ => decide (slot = 0 ∨ slot = 4))
    texture := false, shader := none, translucent := false }

/-- Accessors that read the same model and count their calls in the store. -/
def countingAccessors : Accessors (NifModel × Nat) :=
  { getHeaderIndex := fun s => (s.1.getHeaderIndex, (s.1, s.2 + 1))
    getIndex := fun s parent name => (s.1.getIndex parent name, (s.1, s.2 + 1))
    blockInherits := fun s i name => (s.1.blockInherits i name, (s.1, s.2 + 1))
    getItem := fun s i => (s.1.getItem i, (s.1, s.2 + 1)) }

/-! ## Facts about the string primitives -/

theorem find?_some_spec {s needle : QString} {p : Nat} (h : find? s needle = some p) :
    needle <+: s.drop p := by
  induction s generalizing p with
  | nil =>
    simp only [find?] at h
    split at h
    · rename_i hn
      simp only [Option.some.injEq] at h
      subst h
      simp only [List.isEmpty_eq_true] at hn
      simp [hn]
    · simp at h
  | cons c t ih =>
    simp only [find?] at h
    split at h
    · rename_i hpre
      simp only [Option.some.injEq] at h
      subst h
      simpa using List.isPrefixOf_iff_prefix.mp hpre
    · cases hq : find? t needle with
      | none => simp [hq] at h
      | some q =>
        simp only [hq, Option.map_some', Option.some.injEq] at h
        subst h
        simpa using ih hq

theorem find?_some_le {s needle : QString} {p : Nat} (h : find? s needle = some p) :
    p + needle.length ≤ s.length := by
  have h1 := (find?_some_spec h).length_le
  simp only [List.length_drop] at h1
  by_cases hn : needle.length = 0
  · have hp : p ≤ s.length := by
      clear h1
      induction s generalizing p with
      | nil =>
        simp only [find?] at h
        split at h <;> simp_all
      | cons c t ih =>
        simp only [find?] at h
        split at h
        · simp only [Option.some.injEq] at h
          omega
        · cases hq : find? t needle with
          | none => simp [hq] at h
          | some q =>
            simp only [hq, Option.map_some', Option.some.injEq] at h
            have := ih hq
            simp only [List.length_cons]
            omega
    omega
  · omega

theorem indexOf_eq_natCast {s needle : QString} {p : Nat} (h : indexOf s needle = (p : Int)) :
    find? s needle = some p := by
  unfold indexOf at h
  cases hq : find? s needle with
  | none => rw [hq] at h; simp only at h; omega
  | some q => rw [hq] at h; simp only at h; congr 1; omega

theorem indexOf_pos {s needle : QString} (h : 0 < indexOf s needle) :
    ∃ p : Nat, find? s needle = some p ∧ indexOf s needle = (p : Int) ∧ 0 < p := by
  unfold indexOf at h ⊢
  cases hq : find? s needle with
  | none => rw [hq] at h; simp at h
  | some q => rw [hq] at h; simp only at h; exact ⟨q, rfl, rfl, by omega⟩

theorem left_eq_take {s : QString} {p : Nat} (h : p < s.length) :
    QString.left s (p : Int) = s.take p := by
  unfold QString.left len
  rw [if_neg (by omega)]
  simp

theorem right_eq_drop {s : QString} {p k : Nat} (hp : 0 < p) (h : p + k ≤ s.length) :
    QString.right s (len s - (p : Int) - (k : Int)) = s.drop (p + k) := by
  unfold QString.right len
  rw [if_neg (by omega)]
  congr 1
  omega

theorem trimmed_eq_rdropWhile (s : QString) :
    trimmed s = List.rdropWhile isSpace (s.dropWhile isSpace) := rfl

theorem trimmed_of_ends {s : QString}
    (hhead : ∀ hl : 0 < s.length, isSpace (s.get ⟨0, hl⟩) = false)
    (hlast : ∀ hl : s ≠ [], isSpace (s.getLast hl) = false) : trimmed s = s := by
  rw [trimmed_eq_rdropWhile]
  have h1 : s.dropWhile isSpace = s :=
    List.dropWhile_eq_self_iff.mpr (fun hl => by rw [hhead hl]; simp)
  rw [h1]
  exact List.rdropWhile_eq_self_iff.mpr (fun hl => by rw [hlast hl]; simp)

theorem ends_of_trimmed {s : QString} (h : trimmed s = s) :
    (∀ hl : 0 < s.length, isSpace (s.get ⟨0, hl⟩) = false) ∧
    (∀ hl : s ≠ [], isSpace (s.getLast hl) = false) := by
  rw [trimmed_eq_rdropWhile] at h
  have hsuf : s.dropWhile isSpace <:+ s := List.dropWhile_suffix _
  have hpre : List.rdropWhile isSpace (s.dropWhile isSpace) <+: s.dropWhile isSpace :=
    List.rdropWhile_prefix _ _
  have hlen : (s.dropWhile isSpace).length = s.length := by
    have a := hsuf.length_le
    have b := hpre.length_le
    rw [h] at b
    omega
  have h1 : s.dropWhile isSpace = s := hsuf.eq_of_length hlen
  rw [h1] at h
  constructor
  · intro hl
    have := List.dropWhile_eq_self_iff.mp h1 hl
    simpa using this
  · intro hl
    have := List.rdropWhile_eq_self_iff.mp h hl
    simpa using this

theorem trimmed_cons_space {c : Char} {s : QString} (hc : isSpace c = true) :
    trimmed (c :: s) = trimmed s := by
  unfold trimmed
  rw [List.dropWhile_cons_of_pos hc]

/-! ## Facts about the operator table and the token scan -/

theorem compStrs_token_inj :
    ∀ e ∈ compStrs, ∀ e2 ∈ compStrs, e.2 = e2.2 → e = e2 := by decide

theorem compStrs_token_pos : ∀ e ∈ compStrs, 0 < e.2.length := by decide

theorem scanTokens_none {line : QString} {tbl : List (CompType × QString)}
    (h : ∀ e ∈ tbl, indexOf line e.2 ≤ 0) : scanTokens line tbl = none := by
  induction tbl with
  | nil => rfl
  | cons e rest ih =>
    obtain ⟨k, v⟩ := e
    have h1 : ¬ indexOf line v > 0 := by
      have := h (k, v) (List.mem_cons_self _ _)
      simp only at this
      omega
    simp only [scanTokens, h1, if_false]
    exact ih (fun e he => h e (List.mem_cons_of_mem _ he))

theorem scanTokens_single {line : QString} {tbl : List (CompType × QString)}
    {op : CompType} {tok : QString} (hmem : (op, tok) ∈ tbl) (hpos : 0 < indexOf line tok)
    (hothers : ∀ e ∈ tbl, e = (op, tok) ∨ indexOf line e.2 ≤ 0) :
    scanTokens line tbl = some (indexOf line tok, op, tok) := by
  induction tbl with
  | nil => simp at hmem
  | cons e rest ih =>
    obtain ⟨k, v⟩ := e
    rcases hothers (k, v) (List.mem_cons_self _ _) with heq | hle
    · simp only [Prod.mk.injEq] at heq
      obtain ⟨hk, hv⟩ := heq
      subst hk hv
      simp only [scanTokens, gt_iff_lt, hpos, if_true]
    · simp only at hle
      have h1 : ¬ indexOf line v > 0 := by omega
      simp only [scanTokens, h1, if_false]
      have hmem2 : (op, tok) ∈ rest := by
        rcases List.mem_cons.mp hmem with heq | h
        · simp only [Prod.mk.injEq] at heq
          rw [← heq.2] at h1
          exact absurd hpos h1
        · exact h
      exact ih hmem2 (fun e he => hothers e (List.mem_cons_of_mem _ he))

theorem scanTokens_some {line : QString} {tbl : List (CompType × QString)}
    {pos : Int} {k : CompType} {v : QString} (h : scanTokens line tbl = some (pos, k, v)) :
    (k, v) ∈ tbl ∧ pos = indexOf line v ∧ 0 < pos := by
  induction tbl with
  | nil => simp [scanTokens] at h
  | cons e rest ih =>
    obtain ⟨k2, v2⟩ := e
    simp only [scanTokens] at h
    split at h
    · rename_i hgt
      simp only [Option.some.injEq, Prod.mk.injEq] at h
      obtain ⟨h1, h2, h3⟩ := h
      subst h1 h2 h3
      exact ⟨List.mem_cons_self _ _, rfl, hgt⟩
    · have := ih h
      exact ⟨List.mem_cons_of_mem _ this.1, this.2⟩

/-- The constructor on a line in which the token `v` is the one that the scan
stops at, at position `p`. -/
theorem parse_of_scan {tbl : List (CompType × QString)} {line : QString} {neg : Bool}
    {p : Nat} {k : CompType} {v : QString}
    (hscan : scanTokens line tbl = some ((p : Int), k, v)) (hp : 0 < p)
    (hfind : find? line v = some p) (hv : 0 < v.length) :
    ConditionSingle.parse tbl line neg
      = ⟨trimmed (line.take p), k, stripQuotes (trimmed (line.drop (p + v.length))), neg⟩ := by
  have hle := find?_some_le hfind
  unfold ConditionSingle.parse
  rw [hscan]
  simp only
  rw [left_eq_take (by omega)]
  have : len v = ((v.length : Nat) : Int) := rfl
  rw [this, right_eq_drop hp hle]

theorem parse_no_token {tbl : List (CompType × QString)} (hperm : tbl.Perm compStrs)
    {line : QString} (h : ∀ e ∈ compStrs, indexOf line e.2 ≤ 0) (neg : Bool) :
    ConditionSingle.parse tbl line neg = ⟨line, NONE, [], neg⟩ := by
  unfold ConditionSingle.parse
  rw [scanTokens_none (fun e he => h e (hperm.mem_iff.mp he))]

theorem parse_one_token {tbl : List (CompType × QString)} (hperm : tbl.Perm compStrs)
    {op : CompType} {tok : QString} (hmem : (op, tok) ∈ compStrs) {line : QString} {p : Nat}
    (hp : indexOf line tok = (p : Int)) (hpos : 0 < p)
    (hothers : ∀ e ∈ compStrs, e.2 ≠ tok → indexOf line e.2 ≤ 0) (neg : Bool) :
    ConditionSingle.parse tbl line neg
      = ⟨trimmed (line.take p), op, stripQuotes (trimmed (line.drop (p + tok.length))), neg⟩ := by
  have hscan : scanTokens line tbl = some (indexOf line tok, op, tok) := by
    apply scanTokens_single (hperm.mem_iff.mpr hmem) (by omega)
    intro e he
    have he2 := hperm.mem_iff.mp he
    by_cases heq : e.2 = tok
    · left
      exact compStrs_token_inj e he2 (op, tok) hmem heq
    · right
      exact hothers e he2 heq
  rw [hp] at hscan
  exact parse_of_scan hscan hpos (indexOf_eq_natCast hp) (compStrs_token_pos _ hmem)

/-! ## The parser of `check` lines (claims C1 to C3) -/

theorem spaced_line_loads (tbl : List (CompType × QString)) (hperm : tbl.Perm compStrs)
    (op : CompType) (tok : QString) (hmem : (op, tok) ∈ compStrs) (l r : QString)
    (hl : l ≠ []) (hr : r ≠ []) (hlt : trimmed l = l) (hrt : trimmed r = r)
    (hnot : startsWith (l ++ tok ++ r) "not ".toList = false)
    (hfirst : indexOf (l ++ tok ++ r) tok = (l.length : Int))
    (hothers : ∀ e ∈ compStrs, e.2 ≠ tok → indexOf (l ++ tok ++ r) e.2 ≤ 0) :
    loadCheck tbl ("check ".toList ++ l ++ tok ++ r) = some ⟨l, op, stripQuotes r, false⟩ := by
  have hcheck : "check ".toList = ['c', 'h', 'e', 'c', 'k', ' '] := rfl
  obtain ⟨a, l2, rfl⟩ := List.exists_cons_of_ne_nil hl
  have ha : isSpace a = false := by simpa using (ends_of_trimmed hlt).1 (by simp)
  have hlast : ∀ hne : r ≠ [], isSpace (r.getLast hne) = false := (ends_of_trimmed hrt).2
  have hrest : trimmed (a :: l2 ++ tok ++ r) = a :: l2 ++ tok ++ r := by
    apply trimmed_of_ends
    · intro _
      simpa using ha
    · intro hne
      rw [List.getLast_append_of_ne_nil hr]
      exact hlast hr
  have hraw : trimmed ("check ".toList ++ (a :: l2) ++ tok ++ r)
      = "check ".toList ++ (a :: l2) ++ tok ++ r := by
    apply trimmed_of_ends
    · intro _
      simp only [hcheck, List.cons_append, List.get_eq_getElem, List.getElem_cons_zero]
      decide
    · intro hne
      rw [List.getLast_append_of_ne_nil hr]
      exact hlast hr
  have hpos : 0 < (a :: l2).length := by simp
  unfold loadCheck
  simp only [hraw]
  have h1 : startsWith ("check ".toList ++ (a :: l2) ++ tok ++ r) "shaders".toList = false := by
    rw [hcheck]; rfl
  have h2 : startsWith ("check ".toList ++ (a :: l2) ++ tok ++ r) "checkgroup".toList = false := by
    rw [hcheck]
    simp only [startsWith, List.cons_append, List.nil_append]
    have hg : "checkgroup".toList = ['c', 'h', 'e', 'c', 'k', 'g', 'r', 'o', 'u', 'p'] := rfl
    rw [hg]
    simp [List.isPrefixOf]
  have h3 : startsWith ("check ".toList ++ (a :: l2) ++ tok ++ r) "check".toList = true := by
    rw [hcheck]
    have hg : "check".toList = ['c', 'h', 'e', 'c', 'k'] := rfl
    rw [hg]
    simp [startsWith, List.isPrefixOf]
  have h4 : trimmed (remove0 ("check ".toList ++ (a :: l2) ++ tok ++ r) 5)
      = a :: l2 ++ tok ++ r := by
    rw [hcheck]
    simp only [remove0, List.cons_append, List.nil_append, List.drop_succ_cons, List.drop_zero]
    rw [trimmed_cons_space (by decide)]
    simpa using hrest
  simp only [h1, h2, h3, h4, hnot, Bool.false_eq_true, if_false, if_true]
  rw [parse_one_token hperm hmem (by simpa using hfirst) hpos
    (fun e he hne => by simpa using hothers e he hne) false]
  have e1 : List.take (a :: l2).length (a :: l2 ++ tok ++ r) = a :: l2 := by
    rw [List.append_assoc]
    exact List.take_left _ _
  have e2 : List.drop ((a :: l2).length + tok.length) (a :: l2 ++ tok ++ r) = r := by
    have : ((a :: l2) ++ tok).length = (a :: l2).length + tok.length := List.length_append _ _
    rw [← this]
    exact List.drop_left _ _
  rw [e1, e2, hlt, hrt]

/-- C1, as amended: the operator tokens of the table carry a space on either
side. For every enumeration of the table and every line `check <left> <op>
<right>` where `<op>` is one of the eight tokens with its spaces, `<left>` and
`<right>` are non-empty and trimmed, the text after `check` does not start
with `not `, the token does not occur before the place it is written at and no
other token of the table occurs at a position `> 0`, the loader builds the
expression with that left path, that operator, that right literal (quotes
stripped) and `invert = false`. -/
theorem loadCheck_spaced_operator (tbl : List (CompType × QString)) (hperm : tbl.Perm compStrs)
    (op : CompType) (tok : QString) (hmem : (op, tok) ∈ compStrs) (l r : QString)
    (hl : l ≠ []) (hr : r ≠ []) (hlt : trimmed l = l) (hrt : trimmed r = r)
    (hnot : startsWith (l ++ tok ++ r) "not ".toList = false)
    (hfirst : indexOf (l ++ tok ++ r) tok = (l.length : Int))
    (hothers : ∀ e ∈ compStrs, e.2 ≠ tok → indexOf (l ++ tok ++ r) e.2 ≤ 0) :
    loadCheck tbl ("check ".toList ++ l ++ tok ++ r) = some ⟨l, op, stripQuotes r, false⟩ :=
  spaced_line_loads tbl hperm op tok hmem l r hl hr hlt hrt hnot hfirst hothers

/-- C1, witness: `check DoubleSided == 1` in the order of the initialiser list. -/
theorem loadCheck_spaced_operator_witness :
    loadCheck compStrs "check DoubleSided == 1".toList
      = some ⟨"DoubleSided".toList, EQ, "1".toList, false⟩ :=
  loadCheck_spaced_operator compStrs (List.Perm.refl _) EQ " == ".toList (by decide)
    "DoubleSided".toList "1".toList (by decide) (by decide) (by decide) (by decide) (by decide)
    (by decide) (by decide)

/-- C1, counterexample: under no enumeration of the table does the line
`check DoubleSided==1` of the claim load as `DoubleSided`, `EQ`, `1`; without
the spaces no token is found and the whole text becomes the left path of an
existence test. -/
theorem loadCheck_unspaced_operator :
    (¬ ∃ tbl : List (CompType × QString), tbl.Perm compStrs ∧
        loadCheck tbl "check DoubleSided==1".toList
          = some ⟨"DoubleSided".toList, EQ, "1".toList, false⟩) ∧
    loadCheck compStrs "check DoubleSided==1".toList
      = some ⟨"DoubleSided==1".toList, NONE, [], false⟩ := by
  refine ⟨?_, by decide⟩
  rintro ⟨tbl, hperm, h⟩
  have hl : loadCheck tbl "check DoubleSided==1".toList
      = some (ConditionSingle.parse tbl "DoubleSided==1".toList false) := by
    simp only [loadCheck]
    rfl
  rw [hl, parse_no_token hperm (by decide)] at h
  simp at h

/-- C2, as amended: for every enumeration of the operator table and every
line in which one token of the table (with its spaces) occurs at a position
`> 0` and no other token of the table does, the constructor recognises that
token at its first occurrence `p`: `left` is the text before it, trimmed,
`right` is the text after it, trimmed and with surrounding quotes stripped.
The result is the same for every enumeration. -/
theorem parse_single_operator (tbl : List (CompType × QString)) (hperm : tbl.Perm compStrs)
    (op : CompType) (tok : QString) (hmem : (op, tok) ∈ compStrs) (line : QString) (p : Nat)
    (hp : indexOf line tok = (p : Int)) (hpos : 0 < p)
    (hothers : ∀ e ∈ compStrs, e.2 ≠ tok → indexOf line e.2 ≤ 0) (neg : Bool) :
    ConditionSingle.parse tbl line neg
      = ⟨trimmed (line.take p), op, stripQuotes (trimmed (line.drop (p + tok.length))), neg⟩ :=
  parse_one_token hperm hmem hp hpos hothers neg

/-- C2, witness: `Name == "x y"` under the enumeration that starts with `!=`. -/
theorem parse_single_operator_witness :
    ConditionSingle.parse compStrsNeFirst "Name == \"x y\"".toList true
      = ⟨"Name".toList, EQ, "x y".toList, true⟩ :=
  parse_single_operator compStrsNeFirst (List.Perm.swap _ _ _) EQ " == ".toList (by decide)
    "Name == \"x y\"".toList 4 (by decide) (by decide) (by decide) true

/-- C2, counterexample: on the line `a == b != c` the token `==` is the
leftmost (position 1, `!=` is at 6); the enumeration of the initialiser list
recognises `==`, the enumeration that starts with `!=` recognises `!=`, which
is not the leftmost, and the two results differ. -/
theorem parse_depends_on_enumeration :
    compStrsNeFirst.Perm compStrs ∧
    indexOf "a == b != c".toList " == ".toList = 1 ∧
    indexOf "a == b != c".toList " != ".toList = 6 ∧
    ConditionSingle.parse compStrs "a == b != c".toList false
      = ⟨"a".toList, EQ, "b != c".toList, false⟩ ∧
    ConditionSingle.parse compStrsNeFirst "a == b != c".toList false
      = ⟨"a == b".toList, NE, "c".toList, false⟩ :=
  ⟨List.Perm.swap _ _ _, by decide, by decide, by decide, by decide⟩

/-- C3: for every enumeration of the operator table and every line, the
constructor recognises at most one operator: the result is either an
existence test (`NONE`) or has one operator of the table, found at a position
`p > 0`, with all the text before it as `left` and all the text after it as
`right` (both trimmed, `right` with quotes stripped). On a line that contains
no token of the table the result is the existence test whose left path is the
whole line. -/
theorem parse_at_most_one_operator (tbl : List (CompType × QString))
    (hperm : tbl.Perm compStrs) (line : QString) (neg : Bool) :
    ((ConditionSingle.parse tbl line neg).comp = NONE ∨
      ∃ (tok : QString) (p : Nat),
        ((ConditionSingle.parse tbl line neg).comp, tok) ∈ compStrs ∧
        indexOf line tok = (p : Int) ∧ 0 < p ∧
        ConditionSingle.parse tbl line neg
          = ⟨trimmed (line.take p), (ConditionSingle.parse tbl line neg).comp,
              stripQuotes (trimmed (line.drop (p + tok.length))), neg⟩) ∧
    ((∀ e ∈ compStrs, indexOf line e.2 = -1) →
      ConditionSingle.parse tbl line neg = ⟨line, NONE, [], neg⟩) := by
  constructor
  · cases hs : scanTokens line tbl with
    | none =>
      left
      unfold ConditionSingle.parse
      rw [hs]
    | some r =>
      obtain ⟨pos, k, v⟩ := r
      right
      obtain ⟨hkv, hposeq, hgt⟩ := scanTokens_some hs
      rw [hposeq] at hgt
      obtain ⟨p, hfind, hidx, hp⟩ := indexOf_pos hgt
      have hkv2 : (k, v) ∈ compStrs := hperm.mem_iff.mp hkv
      rw [hposeq, hidx] at hs
      have hparse : ConditionSingle.parse tbl line neg = _ :=
        parse_of_scan hs hp hfind (compStrs_token_pos _ hkv2)
      refine ⟨v, p, ?_, hidx, hp, ?_⟩
      · rw [hparse]
        exact hkv2
      · rw [hparse]
  · intro h
    exact parse_no_token hperm (fun e he => by rw [h e he]; decide) neg

/-- C3, witness: the line `HasNormals` contains no token of the table. -/
theorem parse_at_most_one_operator_witness :
    (∀ e ∈ compStrs, indexOf "HasNormals".toList e.2 = -1) ∧
    ConditionSingle.parse compStrs "HasNormals".toList true
      = ⟨"HasNormals".toList, NONE, [], true⟩ :=
  ⟨by decide,
    (parse_at_most_one_operator compStrs (List.Perm.refl _) "HasNormals".toList true).2
      (by decide)⟩

/-! ## Evaluation of one expression (claims C4 to C6) -/

/-- C4: for every expression, whatever its operator, and every snapshot in
which the left path does not resolve to a valid index, `eval` returns the
expression's `invert` flag. -/
theorem eval_unresolved (X : Externals) (c : ConditionSingle) (nif : NifModel)
    (iBlocks : List QModelIndex) (h : (getIndex nif iBlocks c.left).isValid = false) :
    c.eval X nif iBlocks = c.invert := by
  unfold ConditionSingle.eval
  simp [h]

/-- C4, witness: no block of the example document is of type `Missing`. -/
theorem eval_unresolved_witness :
    (getIndex exampleNif exampleBlocks "Missing".toList).isValid = false ∧
    (ConditionSingle.mk "Missing".toList CompType.GE "3".toList true).eval
      exampleExternals exampleNif exampleBlocks = true :=
  ⟨by decide,
    eval_unresolved exampleExternals ⟨"Missing".toList, CompType.GE, "3".toList, true⟩
      exampleNif exampleBlocks (by decide)⟩

/-- C5: for every existence test (operator `NONE`) whose left path resolves to
a valid index, `eval` returns the negation of `invert`; the item behind the
index is not looked at. -/
theorem eval_existence (X : Externals) (c : ConditionSingle) (nif : NifModel)
    (iBlocks : List QModelIndex) (hc : c.comp = NONE)
    (h : (getIndex nif iBlocks c.left).isValid = true) :
    c.eval X nif iBlocks = !c.invert := by
  unfold ConditionSingle.eval
  simp [h, hc]

/-- C5, witness: `NiTriShapeData/Center` resolves in the example document, to
a value of no supported kind. -/
theorem eval_existence_witness :
    (getIndex exampleNif exampleBlocks "NiTriShapeData/Center".toList).isValid = true ∧
    (ConditionSingle.mk "NiTriShapeData/Center".toList NONE [] false).eval
      exampleExternals exampleNif exampleBlocks = true :=
  ⟨by decide,
    eval_existence exampleExternals ⟨"NiTriShapeData/Center".toList, NONE, [], false⟩
      exampleNif exampleBlocks rfl (by decide)⟩

/-- C6, as amended: for every expression with a comparison operator whose left
path resolves to an item of one of the kinds `eval` handles (string, count,
float, file version, vertex descriptor), the result is the result of the
comparison (what the expression gives with `invert` cleared) XORed with
`invert`, and evaluating with the flag flipped gives the opposite boolean. -/
theorem eval_xor_invert (X : Externals) (c : ConditionSingle) (nif : NifModel)
    (iBlocks : List QModelIndex) (item : NifItem) (hc : c.comp ≠ NONE)
    (hv : (getIndex nif iBlocks c.left).isValid = true)
    (hitem : nif.getItem (getIndex nif iBlocks c.left) = some item)
    (hkind : (item.isString || item.isCount || item.isFloat || item.isFileVersion
      || item.isBSVertexDesc) = true) :
    c.eval X nif iBlocks
        = xor (({ c with invert := false } : ConditionSingle).eval X nif iBlocks) c.invert ∧
    ({ c with invert := !c.invert } : ConditionSingle).eval X nif iBlocks
        = !(c.eval X nif iBlocks) := by
  unfold ConditionSingle.eval
  simp only [hv, hc, hitem, Bool.not_true, Bool.false_eq_true, if_false]
  unfold evalItem
  simp only [Bool.or_eq_true] at hkind
  cases h1 : item.isString <;> cases h2 : item.isCount <;> cases h3 : item.isFloat <;>
    cases h4 : item.isFileVersion <;> cases h5 : item.isBSVertexDesc <;>
    cases h6 : c.invert <;> simp_all

/-- C6, witness: the count `6` behind `Flags` compared with `>= 3`. -/
theorem eval_xor_invert_witness :
    (ConditionSingle.mk "Flags".toList CompType.GE "3".toList true).eval
        exampleExternals exampleNif exampleBlocks = false ∧
    (ConditionSingle.mk "Flags".toList CompType.GE "3".toList false).eval
        exampleExternals exampleNif exampleBlocks = true :=
  have h := eval_xor_invert exampleExternals ⟨"Flags".toList, CompType.GE, "3".toList, true⟩
    exampleNif exampleBlocks (NifItem.count 6) (by decide) (by decide) (by decide) (by decide)
  ⟨h.1.trans (by decide), h.2.trans (by decide)⟩

/-- C6, counterexample: the expression loaded from
`check NiTriShapeData/Center == 0` has a comparison operator and its left path
resolves, to a vector, a value of no supported kind; it evaluates to `false`,
and the one loaded from `check not NiTriShapeData/Center == 0`, the same with
`invert` set, evaluates to `false` again. -/
theorem eval_unsupported_kind_ignores_invert :
    loadCheck compStrs "check NiTriShapeData/Center == 0".toList
      = some ⟨"NiTriShapeData/Center".toList, EQ, "0".toList, false⟩ ∧
    loadCheck compStrs "check not NiTriShapeData/Center == 0".toList
      = some ⟨"NiTriShapeData/Center".toList, EQ, "0".toList, true⟩ ∧
    getIndex exampleNif exampleBlocks "NiTriShapeData/Center".toList = some 3 ∧
    (ConditionSingle.mk "NiTriShapeData/Center".toList EQ "0".toList false).eval
        exampleExternals exampleNif exampleBlocks = false ∧
    (ConditionSingle.mk "NiTriShapeData/Center".toList EQ "0".toList true).eval
        exampleExternals exampleNif exampleBlocks = false :=
  ⟨by decide, by decide, by decide, by decide, by decide⟩

/-! ## Condition groups (claims C8 and C9) -/

/-- C8: a group with an empty child list evaluates to `true` on every
snapshot, whether it is an AND-group or an OR-group (and no expression is
evaluated). -/
theorem group_empty_true (X : Externals) (nif : NifModel) (iBlocks : List QModelIndex)
    (isOr : Bool) :
    Condition.eval X nif iBlocks (.group isOr []) = true ∧
    Condition.evalTraced X nif iBlocks (.group isOr []) = (true, []) := by
  simp [Condition.eval, Condition.evalTraced]

theorem evalAnd_value (X : Externals) (nif : NifModel) (iBlocks : List QModelIndex)
    (cs : List Condition) :
    (Condition.evalAnd X nif iBlocks cs).1 = cs.all (fun c => Condition.eval X nif iBlocks c) := by
  induction cs with
  | nil => simp [Condition.evalAnd]
  | cons c rest ih =>
    simp only [Condition.evalAnd, List.all_cons, Condition.eval]
    cases h : (Condition.evalTraced X nif iBlocks c).1
    · simp
    · simpa [Condition.eval] using ih

theorem evalOr_value (X : Externals) (nif : NifModel) (iBlocks : List QModelIndex)
    (cs : List Condition) :
    (Condition.evalOr X nif iBlocks cs).1 = cs.any (fun c => Condition.eval X nif iBlocks c) := by
  induction cs with
  | nil => simp [Condition.evalOr]
  | cons c rest ih =>
    simp only [Condition.evalOr, List.any_cons, Condition.eval]
    cases h : (Condition.evalTraced X nif iBlocks c).1
    · simpa [Condition.eval] using ih
    · simp

theorem visited_cons (X : Externals) (nif : NifModel) (iBlocks : List QModelIndex)
    (c : Condition) (cs : List Condition) :
    Condition.visited X nif iBlocks (c :: cs)
      = (Condition.evalTraced X nif iBlocks c).2 ++ Condition.visited X nif iBlocks cs := by
  simp [Condition.visited]

theorem evalAnd_stops (X : Externals) (nif : NifModel) (iBlocks : List QModelIndex)
    (pre : List Condition) (c : Condition) (post : List Condition)
    (hpre : ∀ q ∈ pre, Condition.eval X nif iBlocks q = true)
    (hc : Condition.eval X nif iBlocks c = false) :
    Condition.evalAnd X nif iBlocks (pre ++ c :: post)
      = (false, Condition.visited X nif iBlocks (pre ++ [c])) := by
  induction pre with
  | nil =>
    simp only [Condition.eval] at hc
    simp [Condition.evalAnd, hc, Condition.visited]
  | cons q rest ih =>
    have hq : (Condition.evalTraced X nif iBlocks q).1 = true := hpre q (List.mem_cons_self _ _)
    have := ih (fun q2 h2 => hpre q2 (List.mem_cons_of_mem _ h2))
    rw [List.cons_append, Condition.evalAnd]
    simp only [hq, Bool.not_true, Bool.false_eq_true, if_false]
    rw [this, List.cons_append, visited_cons]

theorem evalOr_stops (X : Externals) (nif : NifModel) (iBlocks : List QModelIndex)
    (pre : List Condition) (c : Condition) (post : List Condition)
    (hpre : ∀ q ∈ pre, Condition.eval X nif iBlocks q = false)
    (hc : Condition.eval X nif iBlocks c = true) :
    Condition.evalOr X nif iBlocks (pre ++ c :: post)
      = (true, Condition.visited X nif iBlocks (pre ++ [c])) := by
  induction pre with
  | nil =>
    simp only [Condition.eval] at hc
    simp [Condition.evalOr, hc, Condition.visited]
  | cons q rest ih =>
    have hq : (Condition.evalTraced X nif iBlocks q).1 = false := hpre q (List.mem_cons_self _ _)
    have := ih (fun q2 h2 => hpre q2 (List.mem_cons_of_mem _ h2))
    rw [List.cons_append, Condition.evalOr]
    simp only [hq, Bool.false_eq_true, if_false]
    rw [this, List.cons_append, visited_cons]

theorem group_nonempty_traced (X : Externals) (nif : NifModel) (iBlocks : List QModelIndex)
    (isOr : Bool) {cs : List Condition} (hne : cs ≠ []) :
    Condition.evalTraced X nif iBlocks (.group isOr cs)
      = if isOr then Condition.evalOr X nif iBlocks cs else Condition.evalAnd X nif iBlocks cs := by
  cases cs with
  | nil => exact absurd rfl hne
  | cons c rest => simp [Condition.evalTraced]

/-- C9: for every non-empty group, an AND-group evaluates to `true` iff every
child does and an OR-group iff some child does; the children are evaluated in
order and evaluation stops at the first `false` child of an AND-group and at
the first `true` child of an OR-group: the expressions evaluated are those of
the children up to that one, and none of a later child. -/
theorem group_eval_short_circuit (X : Externals) (nif : NifModel) (iBlocks : List QModelIndex)
    (cs : List Condition) (hne : cs ≠ []) :
    (Condition.eval X nif iBlocks (.group false cs) = true
      ↔ ∀ c ∈ cs, Condition.eval X nif iBlocks c = true) ∧
    (Condition.eval X nif iBlocks (.group true cs) = true
      ↔ ∃ c ∈ cs, Condition.eval X nif iBlocks c = true) ∧
    (∀ pre c post, cs = pre ++ c :: post →
      (∀ q ∈ pre, Condition.eval X nif iBlocks q = true) →
      Condition.eval X nif iBlocks c = false →
      Condition.evalTraced X nif iBlocks (.group false cs)
        = (false, Condition.visited X nif iBlocks (pre ++ [c]))) ∧
    (∀ pre c post, cs = pre ++ c :: post →
      (∀ q ∈ pre, Condition.eval X nif iBlocks q = false) →
      Condition.eval X nif iBlocks c = true →
      Condition.evalTraced X nif iBlocks (.group true cs)
        = (true, Condition.visited X nif iBlocks (pre ++ [c]))) := by
  refine ⟨?_, ?_, ?_, ?_⟩
  · rw [Condition.eval, group_nonempty_traced X nif iBlocks false hne]
    simp [evalAnd_value]
  · rw [Condition.eval, group_nonempty_traced X nif iBlocks true hne]
    simp [evalOr_value]
  · intro pre c post hcs hpre hc
    rw [group_nonempty_traced X nif iBlocks false hne, hcs]
    simpa using evalAnd_stops X nif iBlocks pre c post hpre hc
  · intro pre c post hcs hpre hc
    rw [group_nonempty_traced X nif iBlocks true hne, hcs]
    simpa using evalOr_stops X nif iBlocks pre c post hpre hc

/-- C9, witness: the AND-group of `NiGeometryData`, `Missing`, `Flags` (existence
tests) on the example document stops at `Missing`; `Flags` is not evaluated. -/
theorem group_eval_short_circuit_witness :
    Condition.evalTraced exampleExternals exampleNif exampleBlocks
      (.group false [.single ⟨"NiGeometryData".toList, NONE, [], false⟩,
        .single ⟨"Missing".toList, NONE, [], false⟩,
        .single ⟨"Flags".toList, NONE, [], false⟩])
      = (false, [⟨"NiGeometryData".toList, NONE, [], false⟩,
          ⟨"Missing".toList, NONE, [], false⟩]) :=
  ((group_eval_short_circuit exampleExternals exampleNif exampleBlocks
      [.single ⟨"NiGeometryData".toList, NONE, [], false⟩,
        .single ⟨"Missing".toList, NONE, [], false⟩,
        .single ⟨"Flags".toList, NONE, [], false⟩] (by simp)).2.2.1
      [.single ⟨"NiGeometryData".toList, NONE, [], false⟩]
      (.single ⟨"Missing".toList, NONE, [], false⟩)
      [.single ⟨"Flags".toList, NONE, [], false⟩] rfl (by decide) (by decide)).trans (by decide)

/-! ## The bit tests (claim C7) -/

theorem eval_integer_compare (X : Externals) (hcount : X.compareCount = compareNum)
    (huint : X.compareUInt = compareNum) (c : ConditionSingle) (nif : NifModel)
    (iBlocks : List QModelIndex) (item : NifItem) (v m : Nat) (hc : c.comp ≠ NONE)
    (hv : (getIndex nif iBlocks c.left).isValid = true)
    (hitem : nif.getItem (getIndex nif iBlocks c.left) = some item)
    (hops : integerOperands X item c.right = some (v, m)) :
    c.eval X nif iBlocks = xor (compareNum c.comp v m) c.invert := by
  unfold ConditionSingle.eval
  simp only [hv, hc, hitem, Bool.not_true, Bool.false_eq_true, if_false]
  unfold evalItem
  unfold integerOperands at hops
  rw [hcount, huint]
  cases h1 : item.isString <;> cases h2 : item.isCount <;> cases h3 : item.isFloat <;>
    cases h4 : item.isFileVersion <;> cases h5 : item.isBSVertexDesc <;>
    simp_all

/-- C7, as amended: the operator tokens carry a space on either side. With
`compare` at the integer types as the spec describes it, for every enumeration
of the table, every path `F` and literal `m` (non-empty, trimmed, and such
that in `F & m` and in `F !& m` the written token is the only token of the
table at a position `> 0`) and every snapshot in which `F` resolves to an item
of an integer kind with value `v` while the literal converts to `lit`: the
expression loaded from `check F & m` evaluates to `(v & lit) != 0`, the one
loaded from `check F !& m` to `(v & lit) == 0`, and the two are
complementary. -/
theorem loaded_bit_tests (X : Externals) (hcount : X.compareCount = compareNum)
    (huint : X.compareUInt = compareNum)
    (tbl : List (CompType × QString)) (hperm : tbl.Perm compStrs) (F m : QString)
    (hF : F ≠ []) (hm : m ≠ []) (hFt : trimmed F = F) (hmt : trimmed m = m)
    (hnotA : startsWith (F ++ " & ".toList ++ m) "not ".toList = false)
    (hnotN : startsWith (F ++ " !& ".toList ++ m) "not ".toList = false)
    (hfirstA : indexOf (F ++ " & ".toList ++ m) " & ".toList = (F.length : Int))
    (hfirstN : indexOf (F ++ " !& ".toList ++ m) " !& ".toList = (F.length : Int))
    (hothersA : ∀ e ∈ compStrs, e.2 ≠ " & ".toList → indexOf (F ++ " & ".toList ++ m) e.2 ≤ 0)
    (hothersN : ∀ e ∈ compStrs, e.2 ≠ " !& ".toList →
      indexOf (F ++ " !& ".toList ++ m) e.2 ≤ 0)
    (nif : NifModel) (iBlocks : List QModelIndex) (item : NifItem) (v lit : Nat)
    (hv : (getIndex nif iBlocks F).isValid = true)
    (hitem : nif.getItem (getIndex nif iBlocks F) = some item)
    (hops : integerOperands X item (stripQuotes m) = some (v, lit)) :
    (loadCheck tbl ("check ".toList ++ F ++ " & ".toList ++ m)).map
        (fun e => e.eval X nif iBlocks) = some ((v &&& lit) != 0) ∧
    (loadCheck tbl ("check ".toList ++ F ++ " !& ".toList ++ m)).map
        (fun e => e.eval X nif iBlocks) = some ((v &&& lit) == 0) ∧
    (loadCheck tbl ("check ".toList ++ F ++ " !& ".toList ++ m)).map
        (fun e => e.eval X nif iBlocks)
      = (loadCheck tbl ("check ".toList ++ F ++ " & ".toList ++ m)).map
        (fun e => !e.eval X nif iBlocks) := by
  rw [spaced_line_loads tbl hperm AND " & ".toList (by decide) F m hF hm hFt hmt hnotA hfirstA
    hothersA]
  rw [spaced_line_loads tbl hperm NAND " !& ".toList (by decide) F m hF hm hFt hmt hnotN hfirstN
    hothersN]
  simp only [Option.map_some']
  rw [eval_integer_compare X hcount huint ⟨F, AND, stripQuotes m, false⟩ nif iBlocks item v lit
    (by simp) hv hitem hops]
  rw [eval_integer_compare X hcount huint ⟨F, NAND, stripQuotes m, false⟩ nif iBlocks item v lit
    (by simp) hv hitem hops]
  simp [compareNum, bne]

/-- C7, witness: on the example document, where `Flags` is the count `6`,
`check Flags & 4` evaluates to `true` and `check Flags !& 4` to `false`. -/
theorem loaded_bit_tests_witness :
    (loadCheck compStrs "check Flags & 4".toList).map
        (fun e => e.eval exampleExternals exampleNif exampleBlocks) = some true ∧
    (loadCheck compStrs "check Flags !& 4".toList).map
        (fun e => e.eval exampleExternals exampleNif exampleBlocks) = some false :=
  have h := loaded_bit_tests exampleExternals rfl rfl compStrs (List.Perm.refl _)
    "Flags".toList "4".toList (by decide) (by decide) (by decide) (by decide) (by decide)
    (by decide) (by decide) (by decide) (by decide) (by decide) exampleNif exampleBlocks
    (NifItem.count 6) 6 4 (by decide) (by decide) (by decide)
  ⟨h.1, h.2.1⟩

/-- C7, counterexample: in the example document `Flags` resolves to the count
`6`, and under no enumeration of the table does the expression loaded from the
claim's `check Flags&4` evaluate to `true`: without the spaces the text
`Flags&4` is the left path of an existence test, which does not resolve. -/
theorem unspaced_bit_test_is_existence_test :
    getIndex exampleNif exampleBlocks "Flags".toList = some 1 ∧
    (exampleNif.getItem (some 1)).map (fun item => (item.isCount, item.getCountValue))
      = some (true, 6) ∧
    (¬ ∃ tbl : List (CompType × QString), tbl.Perm compStrs ∧
      (loadCheck tbl "check Flags&4".toList).map
        (fun e => e.eval exampleExternals exampleNif exampleBlocks) = some true) ∧
    (loadCheck compStrs "check Flags&4".toList).map
        (fun e => e.eval exampleExternals exampleNif exampleBlocks) = some false := by
  refine ⟨by decide, by decide, ?_, by decide⟩
  rintro ⟨tbl, hperm, h⟩
  have hl : loadCheck tbl "check Flags&4".toList
      = some (ConditionSingle.parse tbl "Flags&4".toList false) := by
    simp only [loadCheck]
    rfl
  rw [hl, parse_no_token hperm (by decide)] at h
  revert h
  decide

/-! ## Purity of the evaluation (claim C10) -/

/-- The accessors that count their calls are not read-only, and `eval` run on
them leaves a store that differs from the one it was given: the store of the
model does record what an accessor writes. -/
theorem evalOn_counts_calls :
    (ConditionSingle.evalOn countingAccessors exampleExternals
      (ConditionSingle.parse compStrs "Flags == 6".toList false) exampleBlocks
      (exampleNif, 0)).2.2 = 2 ∧
    ¬ countingAccessors.readOnly := by
  refine ⟨by decide, ?_⟩
  intro h
  have := congrArg Prod.snd (h.1 (exampleNif, 0))
  simp [countingAccessors] at this

theorem find?_char_none {T : QString} {c : Char} (h : c ∉ T) : find? T [c] = none := by
  induction T with
  | nil => simp [find?]
  | cons a t ih =>
    have ha : a ≠ c := fun e => h (e ▸ List.mem_cons_self _ _)
    have ht : c ∉ t := fun m => h (List.mem_cons_of_mem _ m)
    have hne : ¬ c = a := fun e => ha e.symm
    simp [find?, List.isPrefixOf, ih ht, hne]

theorem find?_char_append {T F : QString} {c : Char} (h : c ∉ T) :
    find? (T ++ c :: F) [c] = some T.length := by
  induction T with
  | nil => simp [find?, List.isPrefixOf]
  | cons a t ih =>
    have ha : a ≠ c := fun e => h (e ▸ List.mem_cons_self _ _)
    have ht : c ∉ t := fun m => h (List.mem_cons_of_mem _ m)
    have hne : ¬ c = a := fun e => ha e.symm
    simp [find?, List.isPrefixOf, ih ht, hne]

theorem findBlock_eq_find (nif : NifModel) (blkid childid : QString)
    (iBlocks : List QModelIndex) :
    findBlock nif blkid childid iBlocks
      = match iBlocks.find? (fun i => nif.blockInherits i blkid) with
        | some i => if childid.isEmpty then i else nif.getIndex i childid
        | none => none := by
  induction iBlocks with
  | nil => rfl
  | cons i rest ih =>
    simp only [findBlock, List.find?_cons]
    cases h : nif.blockInherits i blkid
    · simpa using ih
    · simp

theorem not_header_of_no_slash {T : QString} (h : '/' ∉ T) :
    startsWith T "HEADER/".toList = false := by
  cases hs : startsWith T "HEADER/".toList
  · rfl
  · exfalso
    have hp : "HEADER/".toList <+: T := List.isPrefixOf_iff_prefix.mp hs
    exact h (hp.subset (by decide))

/-- C11: for every path that is not a header path and names a block type `T`
(non-empty, without `/`), alone or followed by `/` and a child field `F`, and
every active-block list, `getIndex` resolves against the first instance in
list order that inherits `T`: alone (or with an empty field) it returns that
instance, with a field it returns the lookup of the field inside that same
instance, whatever comes later in the list, and it returns the invalid index
when no instance inherits `T`. -/
theorem getIndex_block_path (nif : NifModel) (iBlocks : List QModelIndex) (T F : QString)
    (hT : T ≠ []) (hslash : '/' ∉ T)
    (hhead : startsWith (T ++ '/' :: F) "HEADER/".toList = false) :
    getIndex nif iBlocks T
      = (match iBlocks.find? (fun i => nif.blockInherits i T) with
        | some i => i
        | none => none) ∧
    getIndex nif iBlocks (T ++ '/' :: F)
      = (match iBlocks.find? (fun i => nif.blockInherits i T) with
        | some i => if F.isEmpty then i else nif.getIndex i F
        | none => none) := by
  constructor
  · unfold getIndex
    have h1 : indexOf T "/".toList = -1 := by
      unfold indexOf
      rw [show "/".toList = ['/'] from rfl, find?_char_none hslash]
    rw [not_header_of_no_slash hslash, h1]
    simp only [Bool.false_eq_true, if_false]
    rw [if_neg (by decide), findBlock_eq_find]
    cases iBlocks.find? (fun i => nif.blockInherits i T) <;> simp
  · unfold getIndex
    have hlen : 0 < T.length := List.length_pos.mpr hT
    have h1 : indexOf (T ++ '/' :: F) "/".toList = (T.length : Int) := by
      unfold indexOf
      rw [show "/".toList = ['/'] from rfl, find?_char_append hslash]
    rw [hhead, h1]
    simp only [Bool.false_eq_true, if_false]
    rw [if_pos (by omega), left_eq_take (by simp)]
    have h2 : QString.right (T ++ '/' :: F) (len (T ++ '/' :: F) - (T.length : Int) - 1) = F := by
      have := @right_eq_drop (T ++ '/' :: F) T.length 1 hlen (by simp)
      simp only [Nat.cast_one] at this
      rw [this]
      have e : T.length + 1 = (T ++ ['/']).length := by simp
      rw [e, show T ++ '/' :: F = (T ++ ['/']) ++ F by simp]
      exact List.drop_left _ _
    rw [h2, List.take_left, findBlock_eq_find]

/-- C11, witness: in the example document the path `NiGeometryData/Center`
resolves inside block `2`, the first of the list that inherits the type. -/
theorem getIndex_block_path_witness :
    getIndex exampleNif exampleBlocks "NiGeometryData".toList = some 2 ∧
    getIndex exampleNif exampleBlocks "NiGeometryData/Center".toList = some 3 :=
  getIndex_block_path exampleNif exampleBlocks "NiGeometryData".toList "Center".toList
    (by decide) (by decide) (by decide)

/-! ## Facts about the loader -/

theorem loadLines_append (P : Platform) (shaders : List (QString × Shader)) (st : LoadState)
    (xs ys : List QString) :
    loadLines P shaders st (xs ++ ys)
      = match loadLines P shaders st xs with
        | (st2, some e) => (st2, some e)
        | (st2, none) => loadLines P shaders st2 ys := by
  induction xs generalizing st with
  | nil => simp [loadLines]
  | cons x rest ih =>
    simp only [List.cons_append, loadLines]
    rcases h : applyDirective P shaders st (classify P x) with ⟨st2, _ | e⟩
    · simp only
      exact ih st2
    · simp only

theorem loadLines_append_ok {P : Platform} {shaders : List (QString × Shader)} {st st2 : LoadState}
    {xs ys : List QString} (h : loadLines P shaders st (xs ++ ys) = (st2, none)) :
    ∃ s1, loadLines P shaders st xs = (s1, none) ∧ loadLines P shaders s1 ys = (st2, none) := by
  rw [loadLines_append] at h
  rcases hx : loadLines P shaders st xs with ⟨s1, _ | e⟩
  · rw [hx] at h
    exact ⟨s1, rfl, h⟩
  · rw [hx] at h
    simp at h

theorem loadLines_cons_ok {P : Platform} {shaders : List (QString × Shader)} {st st2 : LoadState}
    {x : QString} {ys : List QString} (h : loadLines P shaders st (x :: ys) = (st2, none)) :
    ∃ s1, applyDirective P shaders st (classify P x) = (s1, none)
      ∧ loadLines P shaders s1 ys = (st2, none) := by
  simp only [loadLines] at h
  rcases hx : applyDirective P shaders st (classify P x) with ⟨s1, _ | e⟩
  · rw [hx] at h
    exact ⟨s1, rfl, h⟩
  · rw [hx] at h
    simp at h

theorem loadLines_error_mid (P : Platform) (shaders : List (QString × Shader)) (st : LoadState)
    (a : List QString) (l : QString) (c : List QString)
    (h : ∀ st2, loadLines P shaders st a = (st2, none) →
      (applyDirective P shaders st2 (classify P l)).2 ≠ none) :
    (loadLines P shaders st (a ++ l :: c)).2 ≠ none := by
  rw [loadLines_append]
  rcases ha : loadLines P shaders st a with ⟨st2, _ | e⟩
  · simp only [loadLines]
    have := h st2 ha
    rcases hl : applyDirective P shaders st2 (classify P l) with ⟨st3, _ | e⟩
    · rw [hl] at this
      exact absurd rfl this
    · simp
  · simp

theorem load_of_error {P : Platform} {shaders : List (QString × Shader)} {prog : Program}
    {lines : List QString} (h : (loadLines P shaders (LoadState.start prog) lines).2 ≠ none) :
    (Program.load P shaders prog (some lines)).2 = false ∧
    (Program.load P shaders prog (some lines)).1.status = false ∧
    (Program.load P shaders prog (some lines)).1.linkCalled = prog.linkCalled := by
  simp only [Program.load]
  cases hr : (loadLines P shaders (LoadState.start prog) lines).2 with
  | none => exact absurd hr h
  | some e => simp

theorem load_conditions (P : Platform) (shaders : List (QString × Shader)) (prog : Program)
    (lines : List QString) :
    (Program.load P shaders prog (some lines)).1.conditions
      = rebuild (loadLines P shaders (LoadState.start prog) lines).1.top
          (loadLines P shaders (LoadState.start prog) lines).1.below := by
  simp only [Program.load]
  cases hr : (loadLines P shaders (LoadState.start prog) lines).2 with
  | none =>
    simp only
    split <;> rfl
  | some e => rfl

theorem load_texcoords (P : Platform) (shaders : List (QString × Shader)) (prog : Program)
    (lines : List QString) :
    (Program.load P shaders prog (some lines)).1.texcoords
      = (loadLines P shaders (LoadState.start prog) lines).1.texcoords := by
  simp only [Program.load]
  cases hr : (loadLines P shaders (LoadState.start prog) lines).2 with
  | none =>
    simp only
    split <;> rfl
  | some e => rfl

theorem load_success {P : Platform} {shaders : List (QString × Shader)} {prog : Program}
    {lines : List QString} (h : (Program.load P shaders prog (some lines)).2 = true) :
    (loadLines P shaders (LoadState.start prog) lines).2 = none := by
  cases hr : (loadLines P shaders (LoadState.start prog) lines).2 with
  | none => rfl
  | some e =>
    have := (@load_of_error P shaders prog lines (by rw [hr]; simp)).1
    rw [this] at h
    exact absurd h (by decide)

theorem attachShaders_keeps (shaders : List (QString × Shader)) (names : List QString)
    (st : LoadState) :
    (attachShaders shaders names st).1.top = st.top ∧
    (attachShaders shaders names st).1.below = st.below ∧
    (attachShaders shaders names st).1.texcoords = st.texcoords := by
  induction names generalizing st with
  | nil => simp [attachShaders]
  | cons n rest ih =>
    simp only [attachShaders]
    cases shaders.lookup n with
    | none => simp
    | some shader =>
      simp only
      split
      · have := ih { st with attached := st.attached ++ [shader.id] }
        simpa using this
      · simp

theorem attachShaders_bad (shaders : List (QString × Shader)) (names : List QString)
    (st : LoadState) (n : QString) (hn : n ∈ names)
    (hbad : ∀ shader, shaders.lookup n = some shader → shader.status = false) :
    (attachShaders shaders names st).2 ≠ none := by
  induction names generalizing st with
  | nil => simp at hn
  | cons m rest ih =>
    simp only [attachShaders]
    cases hl : shaders.lookup m with
    | none => simp
    | some shader =>
      simp only
      cases hs : shader.status
      · simp
      · simp only [if_true]
        rcases List.mem_cons.mp hn with heq | hmem
        · subst heq
          have := hbad shader hl
          rw [hs] at this
          exact absurd this (by decide)
        · exact ih _ hmem

theorem load_name (P : Platform) (shaders : List (QString × Shader)) (prog : Program)
    (file : Option (List QString)) : (Program.load P shaders prog file).1.name = prog.name := by
  cases file with
  | none => rfl
  | some lines =>
    simp only [Program.load]
    cases hr : (loadLines P shaders (LoadState.start prog) lines).2 with
    | none =>
      simp only
      split <;> rfl
    | some e => rfl

theorem mapContains_insert (m : List (Int × Int)) (k v u : Int) :
    mapContains (mapInsert m k v) u = (k == u || mapContains m u) := by
  induction m with
  | nil => simp [mapInsert, mapContains]
  | cons e rest ih =>
    obtain ⟨k2, v2⟩ := e
    unfold mapContains at ih
    simp only [mapInsert]
    split
    · simp [mapContains]
    · split
      · rename_i h2
        subst h2
        simp only [mapContains, List.any_cons]
        cases (k == u) <;> simp
      · simp only [mapContains, List.any_cons, ih]
        cases (k == u) <;> cases (k2 == u) <;> simp

theorem applyDirective_texcoords_mono {P : Platform} {shaders : List (QString × Shader)}
    {st st2 : LoadState} {d : Directive} (h : applyDirective P shaders st d = (st2, none))
    (u : Int) :
    (if d.texUnit = some u then 1 else 0) + (if mapContains st.texcoords u then 1 else 0)
      = (if mapContains st2.texcoords u then 1 else 0) := by
  cases d with
  | shaders names =>
    have hk := (attachShaders_keeps shaders names st).2.2
    simp only [applyDirective] at h
    rw [h] at hk
    simp only at hk
    simp [Directive.texUnit, hk]
  | groupBegin isOr =>
    simp only [applyDirective, Prod.mk.injEq, and_true] at h
    subst h
    simp [Directive.texUnit]
  | groupEnd =>
    simp only [applyDirective] at h
    cases hb : st.below with
    | nil => rw [hb] at h; simp at h
    | cons parent rest =>
      rw [hb] at h
      simp only [Prod.mk.injEq, and_true] at h
      subst h
      simp [Directive.texUnit]
  | groupOther => simp [applyDirective] at h
  | check c =>
    simp only [applyDirective, Prod.mk.injEq, and_true] at h
    subst h
    simp [Directive.texUnit]
  | texcoords unit idStr =>
    cases unit with
    | none => simp [applyDirective] at h
    | some w =>
      simp only [applyDirective] at h
      split at h
      · simp at h
      · split at h
        · simp at h
        · split at h
          · simp at h
          · rename_i hc
            simp only [Prod.mk.injEq, and_true] at h
            subst h
            simp only [Directive.texUnit, Option.some.injEq, mapContains_insert]
            by_cases huw : w = u
            · subst huw
              simp only [Bool.not_eq_true] at hc
              simp [hc]
            · have hwu : (w == u) = false := by simpa using huw
              simp [huw, hwu]
  | ignored =>
    simp only [applyDirective, Prod.mk.injEq, and_true] at h
    subst h
    simp [Directive.texUnit]

theorem loadLines_texcoords_count {P : Platform} {shaders : List (QString × Shader)}
    {st st2 : LoadState} {lines : List QString}
    (h : loadLines P shaders st lines = (st2, none)) (u : Int) :
    lines.countP (fun l => decide ((classify P l).texUnit = some u))
        + (if mapContains st.texcoords u then 1 else 0)
      = (if mapContains st2.texcoords u then 1 else 0) := by
  induction lines generalizing st with
  | nil =>
    simp only [loadLines, Prod.mk.injEq, and_true] at h
    subst h
    simp
  | cons x rest ih =>
    obtain ⟨s1, h1, h2⟩ := loadLines_cons_ok h
    have e1 := applyDirective_texcoords_mono h1 u
    have e2 := ih h2
    rw [List.countP_cons]
    by_cases hx : (classify P x).texUnit = some u
    · simp only [hx, decide_True, if_true] at e1 ⊢
      omega
    · simp only [hx, decide_False, if_false] at e1 ⊢
      simp only [Bool.false_eq_true, if_false]
      omega

theorem applyDirective_unit_taken {P : Platform} {shaders : List (QString × Shader)}
    {st : LoadState} {d : Directive} {u : Int} (hd : d.texUnit = some u)
    (hc : mapContains st.texcoords u = true) :
    (applyDirective P shaders st d).2 ≠ none := by
  cases d with
  | texcoords unit idStr =>
    simp only [Directive.texUnit] at hd
    subst hd
    simp only [applyDirective]
    split
    · simp
    · split
      · simp
      · simp [hc]
  | _ => simp [Directive.texUnit] at hd

/-! ## The loader: condition groups and texture units (claims C13 and C14) -/

/-- C13: for every program file in which a `checkgroup end` comes when no
nested group is open (the lines before it load without error and leave only
the root group on the stack), `load` fails: it returns `false`, the status of
the program is `false`, and the program is not linked; the condition tree it
leaves is exactly the tree that the lines before the offending `end` build,
with the root group still in place. -/
theorem load_rejects_unmatched_end (P : Platform) (shaders : List (QString × Shader))
    (prog : Program) (pre : List QString) (e : QString) (post : List QString)
    (hend : classify P e = .groupEnd)
    (hpre : (loadLines P shaders (LoadState.start prog) pre).2 = none)
    (hroot : (loadLines P shaders (LoadState.start prog) pre).1.below = []) :
    (Program.load P shaders prog (some (pre ++ e :: post))).2 = false ∧
    (Program.load P shaders prog (some (pre ++ e :: post))).1.status = false ∧
    (Program.load P shaders prog (some (pre ++ e :: post))).1.linkCalled = prog.linkCalled ∧
    (Program.load P shaders prog (some (pre ++ e :: post))).1.conditions
      = (Program.load P shaders prog (some pre)).1.conditions ∧
    (Program.load P shaders prog (some (pre ++ e :: post))).1.conditions
      = (loadLines P shaders (LoadState.start prog) pre).1.top := by
  have hrun : loadLines P shaders (LoadState.start prog) (pre ++ e :: post)
      = ((loadLines P shaders (LoadState.start prog) pre).1, some .mismatchingEnd) := by
    rw [loadLines_append]
    rcases hp : loadLines P shaders (LoadState.start prog) pre with ⟨st, err⟩
    rw [hp] at hpre hroot
    simp only at hpre hroot
    subst hpre
    simp [loadLines, hend, applyDirective, hroot]
  have herr : (loadLines P shaders (LoadState.start prog) (pre ++ e :: post)).2 ≠ none := by
    rw [hrun]
    simp
  obtain ⟨h1, h2, h3⟩ := load_of_error herr
  refine ⟨h1, h2, h3, ?_, ?_⟩
  · rw [load_conditions, load_conditions, hrun]
  · rw [load_conditions, hrun, hroot]
    rfl

/-- C13, witness: a group is opened and closed, then a second `end` comes. -/
theorem load_rejects_unmatched_end_witness :
    (Program.load examplePlatform exampleShaders (Program.create "p.prog".toList 4)
      (some ([ "check BSTriShape".toList, "checkgroup begin or".toList,
          "check NiSkinInstance".toList, "checkgroup end".toList ]
        ++ "checkgroup end".toList :: [ "check NiAlphaProperty".toList ]))).1.status = false :=
  (load_rejects_unmatched_end examplePlatform exampleShaders (Program.create "p.prog".toList 4)
    [ "check BSTriShape".toList, "checkgroup begin or".toList,
      "check NiSkinInstance".toList, "checkgroup end".toList ]
    "checkgroup end".toList [ "check NiAlphaProperty".toList ] (by decide) (by decide) rfl).2.1

/-- C14: a program file in which two `texcoords` lines give the same unit
number never loads: `load` returns `false` and the status of the program is
`false` (the exception is caught inside `load`). Conversely, after a load
that returned `true`, every unit of the program's table of texture
coordinates is the unit of exactly one line of the file. -/
theorem texcoords_units_unique (P : Platform) (shaders : List (QString × Shader))
    (name : QString) (id : Nat) (lines : List QString) :
    (∀ (a : List QString) (l1 : QString) (b : List QString) (l2 : QString) (c : List QString)
        (u : Int), lines = a ++ l1 :: (b ++ l2 :: c) →
        (classify P l1).texUnit = some u → (classify P l2).texUnit = some u →
        (Program.load P shaders (Program.create name id) (some lines)).2 = false ∧
        (Program.load P shaders (Program.create name id) (some lines)).1.status = false) ∧
    ((Program.load P shaders (Program.create name id) (some lines)).2 = true →
      ∀ u : Int,
        mapContains (Program.load P shaders (Program.create name id) (some lines)).1.texcoords u
          = true →
        lines.countP (fun l => decide ((classify P l).texUnit = some u)) = 1) := by
  constructor
  · intro a l1 b l2 c u hlines h1 h2
    have herr : (loadLines P shaders (LoadState.start (Program.create name id)) lines).2
        ≠ none := by
      rw [hlines, show a ++ l1 :: (b ++ l2 :: c) = (a ++ l1 :: b) ++ l2 :: c by simp]
      apply loadLines_error_mid
      intro st2 hst2
      obtain ⟨sa, _, hrest⟩ := loadLines_append_ok hst2
      obtain ⟨sb, hstep, hb⟩ := loadLines_cons_ok hrest
      have e1 := applyDirective_texcoords_mono hstep u
      have e2 := loadLines_texcoords_count hb u
      have hc : mapContains st2.texcoords u = true := by
        by_contra hne
        simp only [h1, if_true] at e1
        simp only [hne, Bool.false_eq_true, if_false] at e2
        omega
      exact applyDirective_unit_taken h2 hc
    exact ⟨(load_of_error herr).1, (load_of_error herr).2.1⟩
  · intro hok u hu
    have hrun := load_success hok
    rw [load_texcoords] at hu
    have hcount := @loadLines_texcoords_count P shaders
      (LoadState.start (Program.create name id))
      (loadLines P shaders (LoadState.start (Program.create name id)) lines).1
      lines (by rw [← hrun]) u
    simp only [hu, if_true] at hcount
    have h0 : mapContains (LoadState.start (Program.create name id)).texcoords u = false := rfl
    simp only [h0, Bool.false_eq_true, if_false] at hcount
    omega

/-- C14, witness: two `texcoords 3` lines; the program does not load. -/
theorem texcoords_units_unique_witness :
    (Program.load examplePlatform exampleShaders (Program.create "p.prog".toList 4)
      (some [ "shaders sf_default.vert".toList, "texcoords 3 tangents".toList,
        "check BSTriShape".toList, "texcoords 3 base".toList ])).2 = false ∧
    (Program.load examplePlatform exampleShaders (Program.create "p.prog".toList 4)
      (some [ "shaders sf_default.vert".toList, "texcoords 3 tangents".toList,
        "check BSTriShape".toList, "texcoords 3 base".toList ])).1.status = false :=
  (texcoords_units_unique examplePlatform exampleShaders "p.prog".toList 4
    [ "shaders sf_default.vert".toList, "texcoords 3 tangents".toList,
      "check BSTriShape".toList, "texcoords 3 base".toList ]).1
    [ "shaders sf_default.vert".toList ] "texcoords 3 tangents".toList
    [ "check BSTriShape".toList ] "texcoords 3 base".toList [] 3 rfl (by decide) (by decide)

/-! ## The loader: nesting of groups (claim C12) -/

theorem directivesList_append (xs ys : List Condition) :
    Condition.directivesList (xs ++ ys)
      = Condition.directivesList xs ++ Condition.directivesList ys := by
  induction xs with
  | nil => simp [Condition.directivesList]
  | cons c rest ih => simp [Condition.directivesList, ih]

theorem directivesList_single (c : Condition) :
    Condition.directivesList [c] = Condition.directives c := by
  simp [Condition.directivesList]

theorem openDirectives_add (g : ConditionGroup) (below : List ConditionGroup) (c : Condition) :
    openDirectives { g with conditions := g.conditions ++ [c] } below
      = openDirectives g below ++ Condition.directives c := by
  cases below with
  | nil => simp [openDirectives, directivesList_append, directivesList_single]
  | cons parent rest => simp [openDirectives, directivesList_append, directivesList_single]

theorem applyDirective_written {P : Platform} {shaders : List (QString × Shader)}
    {st st2 : LoadState} {d : Directive} (h : applyDirective P shaders st d = (st2, none)) :
    openDirectives st2.top st2.below
      = openDirectives st.top st.below ++ (if d.isStructural then [d] else []) := by
  cases d with
  | shaders names =>
    have hk := attachShaders_keeps shaders names st
    simp only [applyDirective] at h
    rw [h] at hk
    simp only at hk
    simp [Directive.isStructural, hk.1, hk.2.1]
  | groupBegin isOr =>
    simp only [applyDirective, Prod.mk.injEq, and_true] at h
    subst h
    simp [Directive.isStructural, openDirectives, Condition.directivesList]
  | groupEnd =>
    simp only [applyDirective] at h
    cases hb : st.below with
    | nil => rw [hb] at h; simp at h
    | cons parent rest =>
      rw [hb] at h
      simp only [Prod.mk.injEq, and_true] at h
      subst h
      simp only [Directive.isStructural, if_true]
      rw [openDirectives_add]
      simp [openDirectives, ConditionGroup.toCondition, Condition.directives]
  | groupOther => simp [applyDirective] at h
  | check c =>
    simp only [applyDirective, Prod.mk.injEq, and_true] at h
    subst h
    simp only [Directive.isStructural, if_true]
    rw [openDirectives_add]
    simp [Condition.directives]
  | texcoords unit idStr =>
    cases unit with
    | none => simp [applyDirective] at h
    | some w =>
      simp only [applyDirective] at h
      split at h
      · simp at h
      · split at h
        · simp at h
        · split at h
          · simp at h
          · simp only [Prod.mk.injEq, and_true] at h
            subst h
            simp [Directive.isStructural]
  | ignored =>
    simp only [applyDirective, Prod.mk.injEq, and_true] at h
    subst h
    simp [Directive.isStructural]

theorem loadLines_written {P : Platform} {shaders : List (QString × Shader)}
    {st st2 : LoadState} {lines : List QString}
    (h : loadLines P shaders st lines = (st2, none)) :
    openDirectives st2.top st2.below
      = openDirectives st.top st.below
        ++ (lines.map (classify P)).filter Directive.isStructural := by
  induction lines generalizing st with
  | nil =>
    simp only [loadLines, Prod.mk.injEq, and_true] at h
    subst h
    simp
  | cons x rest ih =>
    obtain ⟨s1, h1, h2⟩ := loadLines_cons_ok h
    rw [ih h2, applyDirective_written h1, List.map_cons, List.filter_cons]
    split <;> simp

theorem loadLines_closes {P : Platform} {shaders : List (QString × Shader)}
    {st st2 : LoadState} {lines : List QString}
    (h : loadLines P shaders st lines = (st2, none))
    (hbal : closes st.below.length (lines.map (classify P)) = true) : st2.below = [] := by
  induction lines generalizing st with
  | nil =>
    simp only [loadLines, Prod.mk.injEq, and_true] at h
    subst h
    simpa [closes] using hbal
  | cons x rest ih =>
    obtain ⟨s1, h1, h2⟩ := loadLines_cons_ok h
    apply ih h2
    rw [List.map_cons] at hbal
    cases hd : classify P x with
    | shaders names =>
      rw [hd] at h1 hbal
      have hk := attachShaders_keeps shaders names st
      simp only [applyDirective] at h1
      rw [h1] at hk
      simp only at hk
      rw [hk.2.1]
      simpa [closes] using hbal
    | groupBegin isOr =>
      rw [hd] at h1 hbal
      simp only [applyDirective, Prod.mk.injEq, and_true] at h1
      subst h1
      simpa [closes] using hbal
    | groupEnd =>
      rw [hd] at h1 hbal
      simp only [applyDirective] at h1
      cases hb : st.below with
      | nil => rw [hb] at h1; simp at h1
      | cons parent rest2 =>
        rw [hb] at h1 hbal
        simp only [Prod.mk.injEq, and_true] at h1
        subst h1
        simpa [closes] using hbal
    | groupOther =>
      rw [hd] at h1
      simp [applyDirective] at h1
    | check c =>
      rw [hd] at h1 hbal
      simp only [applyDirective, Prod.mk.injEq, and_true] at h1
      subst h1
      simpa [closes] using hbal
    | texcoords unit idStr =>
      rw [hd] at h1 hbal
      cases unit with
      | none => simp [applyDirective] at h1
      | some w =>
        simp only [applyDirective] at h1
        split at h1
        · simp at h1
        · split at h1
          · simp at h1
          · split at h1
            · simp at h1
            · simp only [Prod.mk.injEq, and_true] at h1
              subst h1
              simpa [closes] using hbal
    | ignored =>
      rw [hd] at h1 hbal
      simp only [applyDirective, Prod.mk.injEq, and_true] at h1
      subst h1
      simpa [closes] using hbal

theorem peak_ge (d : Nat) (ds : List Directive) : d ≤ peak d ds := by
  induction ds generalizing d with
  | nil => simp [peak]
  | cons x rest ih =>
    cases x <;> simp only [peak] <;> first | exact ih d | exact le_max_left _ _

theorem peak_filter (d : Nat) (ds : List Directive) :
    peak d (ds.filter Directive.isStructural) = peak d ds := by
  induction ds generalizing d with
  | nil => rfl
  | cons x rest ih =>
    cases x <;> simp [List.filter_cons, Directive.isStructural, peak, ih]

mutual
theorem peak_directives (c : Condition) (d : Nat) (rest : List Directive) :
    peak d (Condition.directives c ++ rest) = max (d + Condition.levels c) (peak d rest) := by
  match c with
  | .single e =>
    simp only [Condition.directives, Condition.levels, List.singleton_append, peak, Nat.add_zero]
    exact (max_eq_right (peak_ge d rest)).symm
  | .group isOr cs =>
    have e : Condition.directives (.group isOr cs) ++ rest
        = .groupBegin isOr :: (Condition.directivesList cs ++ (.groupEnd :: rest)) := by
      simp [Condition.directives]
    rw [e]
    simp only [peak, Condition.levels]
    rw [peak_directivesList cs (d + 1) (.groupEnd :: rest)]
    simp only [peak, Nat.add_sub_cancel]
    have := peak_ge d rest
    omega
theorem peak_directivesList (cs : List Condition) (d : Nat) (rest : List Directive) :
    peak d (Condition.directivesList cs ++ rest)
      = max (d + Condition.levelsList cs) (peak d rest) := by
  match cs with
  | [] =>
    simp only [Condition.directivesList, Condition.levelsList, List.nil_append, Nat.add_zero]
    exact (max_eq_right (peak_ge d rest)).symm
  | c :: more =>
    simp only [Condition.directivesList, Condition.levelsList, List.append_assoc]
    rw [peak_directives c d, peak_directivesList more d rest]
    omega
end

mutual
theorem directives_unique (c c2 : Condition) (r r2 : List Directive)
    (h : Condition.directives c ++ r = Condition.directives c2 ++ r2) : c = c2 ∧ r = r2 := by
  match c, c2 with
  | .single e, .single e2 =>
    simp only [Condition.directives, List.singleton_append, List.cons.injEq,
      Directive.check.injEq] at h
    exact ⟨by rw [h.1], h.2⟩
  | .single e, .group isOr2 cs2 =>
    simp [Condition.directives] at h
  | .group isOr cs, .single e2 =>
    simp [Condition.directives] at h
  | .group isOr cs, .group isOr2 cs2 =>
    simp only [Condition.directives, List.cons_append, List.append_assoc, List.singleton_append,
      List.cons.injEq, Directive.groupBegin.injEq] at h
    obtain ⟨h1, h2⟩ := directivesList_unique cs cs2 r r2 h.2
    exact ⟨by rw [h.1, h1], h2⟩
theorem directivesList_unique (cs cs2 : List Condition) (r r2 : List Directive)
    (h : Condition.directivesList cs ++ .groupEnd :: r
      = Condition.directivesList cs2 ++ .groupEnd :: r2) : cs = cs2 ∧ r = r2 := by
  match cs, cs2 with
  | [], [] =>
    simp only [Condition.directivesList, List.nil_append, List.cons.injEq, true_and] at h
    exact ⟨rfl, h⟩
  | [], c2 :: more2 =>
    cases c2 <;> simp [Condition.directivesList, Condition.directives] at h
  | c :: more, [] =>
    cases c <;> simp [Condition.directivesList, Condition.directives] at h
  | c :: more, c2 :: more2 =>
    simp only [Condition.directivesList, List.append_assoc] at h
    obtain ⟨h1, h2⟩ := directives_unique c c2 _ _ h
    obtain ⟨h3, h4⟩ := directivesList_unique more more2 r r2 h2
    exact ⟨by rw [h1, h3], h4⟩
end

theorem directivesList_injective {cs cs2 : List Condition}
    (h : Condition.directivesList cs = Condition.directivesList cs2) : cs = cs2 :=
  (directivesList_unique cs cs2 [] [] (by rw [h])).1

theorem rebuild_isOr_congr (g g2 : ConditionGroup) (below : List ConditionGroup)
    (h : g.isOr = g2.isOr) : (rebuild g below).isOr = (rebuild g2 below).isOr := by
  cases below with
  | nil => exact h
  | cons p r =>
    simp only [rebuild]
    have aux : ∀ (a b : ConditionGroup) (l : List ConditionGroup), a.isOr = b.isOr →
        (rebuild a l).isOr = (rebuild b l).isOr := by
      intro a b l
      induction l generalizing a b with
      | nil => exact fun e => e
      | cons q t ih =>
        intro _
        simp only [rebuild]
        exact ih _ _ rfl
    exact aux _ _ r rfl

theorem applyDirective_rootKind {P : Platform} {shaders : List (QString × Shader)}
    {st st2 : LoadState} {d : Directive} (h : applyDirective P shaders st d = (st2, none)) :
    (rebuild st2.top st2.below).isOr = (rebuild st.top st.below).isOr := by
  cases d with
  | shaders names =>
    have hk := attachShaders_keeps shaders names st
    simp only [applyDirective] at h
    rw [h] at hk
    simp only at hk
    rw [hk.1, hk.2.1]
  | groupBegin isOr =>
    simp only [applyDirective, Prod.mk.injEq, and_true] at h
    subst h
    simp only [rebuild]
    exact rebuild_isOr_congr _ _ _ rfl
  | groupEnd =>
    simp only [applyDirective] at h
    cases hb : st.below with
    | nil => rw [hb] at h; simp at h
    | cons parent rest =>
      rw [hb] at h
      simp only [Prod.mk.injEq, and_true] at h
      subst h
      rfl
  | groupOther => simp [applyDirective] at h
  | check c =>
    simp only [applyDirective, Prod.mk.injEq, and_true] at h
    subst h
    exact rebuild_isOr_congr _ _ _ rfl
  | texcoords unit idStr =>
    cases unit with
    | none => simp [applyDirective] at h
    | some w =>
      simp only [applyDirective] at h
      split at h
      · simp at h
      · split at h
        · simp at h
        · split at h
          · simp at h
          · simp only [Prod.mk.injEq, and_true] at h
            subst h
            rfl
  | ignored =>
    simp only [applyDirective, Prod.mk.injEq, and_true] at h
    subst h
    rfl

theorem loadLines_rootKind {P : Platform} {shaders : List (QString × Shader)}
    {st st2 : LoadState} {lines : List QString}
    (h : loadLines P shaders st lines = (st2, none)) :
    (rebuild st2.top st2.below).isOr = (rebuild st.top st.below).isOr := by
  induction lines generalizing st with
  | nil =>
    simp only [loadLines, Prod.mk.injEq, and_true] at h
    subst h
    rfl
  | cons x rest ih =>
    obtain ⟨s1, h1, h2⟩ := loadLines_cons_ok h
    rw [ih h2, applyDirective_rootKind h1]

theorem startsWith_checkgroup_not_shaders {line : QString}
    (h : startsWith line "checkgroup".toList = true) :
    startsWith line "shaders".toList = false := by
  cases line with
  | nil => simp [startsWith] at h
  | cons c t =>
    have hc : c = 'c' := by
      simp only [startsWith, String.toList, List.isPrefixOf, Bool.and_eq_true, beq_iff_eq] at h
      exact h.1.symm
    subst hc
    simp [startsWith, List.isPrefixOf]

theorem classify_groupBegin (P : Platform) (raw : QString) (isOr : Bool) :
    classify P raw = .groupBegin isOr ↔
      (startsWith (trimmed raw) "checkgroup".toList = true ∧
        (split (simplified (trimmed raw)) ' ').getD 1 [] = "begin".toList ∧
        isOr = ((split (simplified (trimmed raw)) ' ').getD 2 [] == "or".toList)) := by
  cases hg : startsWith (trimmed raw) "checkgroup".toList with
  | true =>
    have hs := startsWith_checkgroup_not_shaders hg
    by_cases hb : (split (simplified (trimmed raw)) ' ').getD 1 [] = "begin".toList
    · have hc : classify P raw
          = .groupBegin ((split (simplified (trimmed raw)) ' ').getD 2 [] == "or".toList) := by
        simp only [classify, hs, hg, hb]
        rfl
      rw [hc]
      constructor
      · intro h
        simp only [Directive.groupBegin.injEq] at h
        exact ⟨rfl, hb, h.symm⟩
      · rintro ⟨_, _, h⟩
        rw [h]
    · constructor
      · intro h
        simp only [classify, hs, hg, hb] at h
        revert h
        simp only [Bool.false_eq_true, if_false, if_true]
        split <;> simp
      · rintro ⟨_, h, _⟩
        exact absurd h hb
  | false =>
    constructor
    · intro h
      simp only [classify, hg] at h
      revert h
      simp only [Bool.false_eq_true, if_false]
      split
      · simp
      · split
        · split <;> simp
        · split <;> simp
    · rintro ⟨h, _, _⟩
      exact absurd h (by simp)

/-- C12: for every program file whose `checkgroup begin` and `checkgroup end`
lines are balanced and which `load` reads to its end without throwing, `load`
leaves a root AND-group which, written out in order (`begin` with its kind,
children, `end`), is the sequence of the `check`, `begin` and `end` directives
of the file: each expression sits in the group that was innermost-open at its
line, each group has the kind of its `begin` line, and no other tree is
written that way. The nesting depth of the groups inside the root equals the
greatest number of groups open at once in the file. A line opens a group
exactly when its trimmed text starts with `checkgroup` and its second word is
`begin`, and the group is an OR-group exactly when the third word of the line
is `or`. -/
theorem load_group_nesting (P : Platform) (shaders : List (QString × Shader))
    (name : QString) (id : Nat) (lines : List QString)
    (hbal : closes 0 (lines.map (classify P)) = true)
    (hok : (loadLines P shaders (LoadState.start (Program.create name id)) lines).2 = none) :
    (Program.load P shaders (Program.create name id) (some lines)).1.conditions.isOr = false ∧
    Condition.directivesList
        (Program.load P shaders (Program.create name id) (some lines)).1.conditions.conditions
      = (lines.map (classify P)).filter Directive.isStructural ∧
    (∀ cs : List Condition,
      Condition.directivesList cs = (lines.map (classify P)).filter Directive.isStructural →
      (Program.load P shaders (Program.create name id) (some lines)).1.conditions.conditions
        = cs) ∧
    Condition.levelsList
        (Program.load P shaders (Program.create name id) (some lines)).1.conditions.conditions
      = peak 0 (lines.map (classify P)) ∧
    (∀ (raw : QString) (isOr : Bool), classify P raw = .groupBegin isOr ↔
      (startsWith (trimmed raw) "checkgroup".toList = true ∧
        (split (simplified (trimmed raw)) ' ').getD 1 [] = "begin".toList ∧
        isOr = ((split (simplified (trimmed raw)) ' ').getD 2 [] == "or".toList))) := by
  rcases hrun : loadLines P shaders (LoadState.start (Program.create name id)) lines
    with ⟨st, err⟩
  rw [hrun] at hok
  simp only at hok
  subst hok
  have hbelow : st.below = [] := loadLines_closes hrun hbal
  have hwritten := loadLines_written hrun
  rw [hbelow] at hwritten
  simp only [openDirectives, LoadState.start, Program.create, Condition.directivesList,
    List.nil_append] at hwritten
  have hcond : (Program.load P shaders (Program.create name id) (some lines)).1.conditions
      = st.top := by
    rw [load_conditions, hrun, hbelow]
    rfl
  have hroot : st.top.isOr = false := by
    have h := loadLines_rootKind hrun
    rw [hbelow] at h
    exact h
  rw [hcond]
  refine ⟨hroot, hwritten, ?_, ?_, classify_groupBegin P⟩
  · intro cs hcs
    exact directivesList_injective (hwritten.trans hcs.symm)
  · have h := peak_directivesList st.top.conditions 0 []
    simp only [List.append_nil, Nat.zero_add, peak] at h
    rw [← peak_filter, ← hwritten, h]
    simp

/-- C12, witness: a file with an AND-group inside an OR-group, between lines
of other kinds. The root holds the first expression and the OR-group; the
OR-group holds the second expression and the AND-group, which holds the
third: two levels of groups. -/
theorem load_group_nesting_witness :
    (Program.load examplePlatform exampleShaders (Program.create "p.prog".toList 4)
      (some [ "shaders sf_default.vert sf_default.frag".toList, "check BSTriShape".toList,
        "checkgroup begin or".toList, "check NiSkinInstance".toList,
        "checkgroup begin".toList, "check NiAlphaProperty".toList, "checkgroup end".toList,
        "checkgroup end".toList, "texcoords 0 base".toList ])).1.conditions.conditions
      = [ .single (ConditionSingle.parse compStrs "BSTriShape".toList false),
          .group true
            [ .single (ConditionSingle.parse compStrs "NiSkinInstance".toList false),
              .group false
                [ .single (ConditionSingle.parse compStrs "NiAlphaProperty".toList false) ] ] ] ∧
    Condition.levelsList
        (Program.load examplePlatform exampleShaders (Program.create "p.prog".toList 4)
          (some [ "shaders sf_default.vert sf_default.frag".toList, "check BSTriShape".toList,
            "checkgroup begin or".toList, "check NiSkinInstance".toList,
            "checkgroup begin".toList, "check NiAlphaProperty".toList, "checkgroup end".toList,
            "checkgroup end".toList, "texcoords 0 base".toList ])).1.conditions.conditions
      = 2 :=
  ⟨(load_group_nesting examplePlatform exampleShaders "p.prog".toList 4
      [ "shaders sf_default.vert sf_default.frag".toList, "check BSTriShape".toList,
        "checkgroup begin or".toList, "check NiSkinInstance".toList,
        "checkgroup begin".toList, "check NiAlphaProperty".toList, "checkgroup end".toList,
        "checkgroup end".toList, "texcoords 0 base".toList ] (by decide) (by decide)).2.2.1
      [ .single (ConditionSingle.parse compStrs "BSTriShape".toList false),
        .group true
          [ .single (ConditionSingle.parse compStrs "NiSkinInstance".toList false),
            .group false
              [ .single (ConditionSingle.parse compStrs "NiAlphaProperty".toList false) ] ] ]
      (by decide),
    (load_group_nesting examplePlatform exampleShaders "p.prog".toList 4
      [ "shaders sf_default.vert sf_default.frag".toList, "check BSTriShape".toList,
        "checkgroup begin or".toList, "check NiSkinInstance".toList,
        "checkgroup begin".toList, "check NiAlphaProperty".toList, "checkgroup end".toList,
        "checkgroup end".toList, "texcoords 0 base".toList ] (by decide) (by decide)).2.2.2.1.trans
      (by decide)⟩

/-- A file that `load` does not read to its end: its `begin` and `end` are
balanced and nest one deep, but its first line names a shader that the table
does not have; `load` throws there and leaves a root with no group inside
it. -/
theorem load_stops_before_groups :
    closes 0 ([ "shaders missing.vert".toList, "checkgroup begin".toList,
        "check BSTriShape".toList, "checkgroup end".toList ].map (classify examplePlatform))
      = true ∧
    peak 0 ([ "shaders missing.vert".toList, "checkgroup begin".toList,
        "check BSTriShape".toList, "checkgroup end".toList ].map (classify examplePlatform))
      = 1 ∧
    Condition.levelsList
        (Program.load examplePlatform exampleShaders (Program.create "p.prog".toList 4)
          (some [ "shaders missing.vert".toList, "checkgroup begin".toList,
            "check BSTriShape".toList, "checkgroup end".toList ])).1.conditions.conditions
      = 0 :=
  ⟨by decide, by decide, by decide⟩

/-! ## Facts about the binder -/

theorem lookup_mem {α : Type} {l : List (QString × α)} {k : QString} {v : α}
    (h : l.lookup k = some v) : (k, v) ∈ l := by
  induction l with
  | nil => simp at h
  | cons e rest ih =>
    obtain ⟨k2, v2⟩ := e
    simp only [List.lookup] at h
    cases hk : (k == k2) with
    | true =>
      rw [hk] at h
      simp only [Option.some.injEq] at h
      have : k = k2 := by simpa using hk
      subst this
      subst h
      exact List.mem_cons_self _ _
    | false =>
      rw [hk] at h
      exact List.mem_cons_of_mem _ (ih h)

theorem setupProgramFor_checked (X : Externals) (P : Platform) (prog : Program) (mesh : Shape)
    (nif : NifModel) (iBlocks : List QModelIndex) (hnif : mesh.nif = some nif) :
    (setupProgramFor X P prog mesh iBlocks true).1
      = (prog.conditions.eval X nif iBlocks && P.bindUniforms prog mesh
          && bindTexcoords P mesh prog.texcoords) := by
  unfold setupProgramFor
  rw [hnif]
  simp only [Bool.true_and]
  cases prog.conditions.eval X nif iBlocks <;> cases P.bindUniforms prog mesh <;>
    cases bindTexcoords P mesh prog.texcoords <;> simp

theorem setupProgramFor_unchecked (X : Externals) (P : Platform) (prog : Program) (mesh : Shape)
    (nif : NifModel) (iBlocks : List QModelIndex) (hnif : mesh.nif = some nif) :
    (setupProgramFor X P prog mesh iBlocks false).1
      = (P.bindUniforms prog mesh && bindTexcoords P mesh prog.texcoords) := by
  unfold setupProgramFor
  rw [hnif]
  simp only [Bool.false_and]
  cases P.bindUniforms prog mesh <;> cases bindTexcoords P mesh prog.texcoords <;> simp

theorem scanPrograms_eq_find (X : Externals) (P : Platform) (mesh : Shape)
    (iBlocks : List QModelIndex) (programs : List (QString × Program)) :
    (scanPrograms X P mesh iBlocks programs).1
      = (programs.find? (fun e => e.2.status
          && (setupProgramFor X P e.2 mesh iBlocks evalByDefault).1)).map
        (fun e => e.2.name) := by
  induction programs with
  | nil => rfl
  | cons e rest ih =>
    obtain ⟨k, program⟩ := e
    simp only [scanPrograms, List.find?_cons]
    cases hs : program.status
    · simpa using ih
    · cases hr : (setupProgramFor X P program mesh iBlocks evalByDefault).1
      · simpa [hr] using ih
      · simp [hr]

theorem scanPrograms_name {X : Externals} {P : Platform} {mesh : Shape}
    {iBlocks : List QModelIndex} {programs : List (QString × Program)} {n : QString}
    (h : (scanPrograms X P mesh iBlocks programs).1 = some n) :
    ∃ e ∈ programs, e.2.status = true ∧ e.2.name = n := by
  rw [scanPrograms_eq_find] at h
  cases hf : programs.find? (fun e => e.2.status
      && (setupProgramFor X P e.2 mesh iBlocks evalByDefault).1) with
  | none => rw [hf] at h; simp at h
  | some e =>
    rw [hf] at h
    simp only [Option.map_some', Option.some.injEq] at h
    have hp := List.find?_some hf
    simp only [Bool.and_eq_true] at hp
    exact ⟨e, List.mem_of_find?_eq_some hf, hp.1, h⟩

theorem scanOrFallback_name (X : Externals) (P : Platform) (R : RendererState) (mesh : Shape)
    (iBlocks : List QModelIndex) (before : List Event) :
    (scanOrFallback X P R mesh iBlocks before).1
      = (scanPrograms X P mesh iBlocks R.programs).1 := by
  simp only [scanOrFallback]
  cases (scanPrograms X P mesh iBlocks R.programs).1 <;> rfl

theorem scanOrFallback_none {X : Externals} {P : Platform} {R : RendererState} {mesh : Shape}
    {iBlocks : List QModelIndex} {before : List Event}
    (h : (scanPrograms X P mesh iBlocks R.programs).1 = none) :
    (scanOrFallback X P R mesh iBlocks before).2.getLast? = some .fixedFunction := by
  simp only [scanOrFallback]
  rw [h]
  simp

theorem setupProgram_unfold (X : Externals) (P : Platform) (R : RendererState) (mesh : Shape)
    (hint : Option QString) :
    R.setupProgram X P mesh hint
      = if (!R.shaderReady || hint.isNone || mesh.disableShaders || mesh.visSilhouette
            || mesh.nif.isNone || mesh.bsVersion == 0) = true then
          (none, [.fixedFunction])
        else
          match hintedProgram R hint with
          | some program =>
            if program.status = true then
              if (setupProgramFor X P program mesh
                  (mesh.index :: mesh.iData :: mesh.props) false).1 = true then
                (some program.name, (setupProgramFor X P program mesh
                  (mesh.index :: mesh.iData :: mesh.props) false).2)
              else
                scanOrFallback X P R mesh (mesh.index :: mesh.iData :: mesh.props)
                  (setupProgramFor X P program mesh
                    (mesh.index :: mesh.iData :: mesh.props) false).2
            else scanOrFallback X P R mesh (mesh.index :: mesh.iData :: mesh.props) []
          | none => scanOrFallback X P R mesh (mesh.index :: mesh.iData :: mesh.props) [] :=
  rfl

theorem setupProgram_name {X : Externals} {P : Platform} {R : RendererState} {mesh : Shape}
    {hint : Option QString} {n : QString} (h : (R.setupProgram X P mesh hint).1 = some n) :
    ∃ e ∈ R.programs, e.2.status = true ∧ e.2.name = n := by
  rw [setupProgram_unfold] at h
  split at h
  · simp at h
  · split at h
    · rename_i program hp
      split at h
      · rename_i hstatus
        split at h
        · simp only [Option.some.injEq] at h
          have hl : ∃ k, R.programs.lookup k = some program := by
            unfold hintedProgram at hp
            cases hint with
            | none => simp at hp
            | some hh =>
              simp only at hp
              split at hp
              · simp at hp
              · exact ⟨hh, hp⟩
          obtain ⟨k, hk⟩ := hl
          exact ⟨(k, program), lookup_mem hk, hstatus, h⟩
        · rw [scanOrFallback_name] at h
          exact scanPrograms_name h
      · rw [scanOrFallback_name] at h
        exact scanPrograms_name h
    · rw [scanOrFallback_name] at h
      exact scanPrograms_name h

/-! ## Unusable programs (claims C15 and C16) -/

/-- C15: for every program file with a `shaders` line that names a unit which
is not in the renderer's table or did not compile, `load` fails without
reaching the link step (`glLinkProgram` is not called), the status of the
program is `false`, and in a registry whose programs have distinct names
`setupProgram` never returns the name of that program, for any drawable and
any hint. -/
theorem load_rejects_bad_shader (X : Externals) (P : Platform)
    (shaders : List (QString × Shader)) (name : QString) (id : Nat)
    (a : List QString) (l : QString) (c : List QString) (names : List QString) (n : QString)
    (hl : classify P l = .shaders names) (hn : n ∈ names)
    (hbad : ∀ shader, shaders.lookup n = some shader → shader.status = false) :
    (Program.load P shaders (Program.create name id) (some (a ++ l :: c))).2 = false ∧
    (Program.load P shaders (Program.create name id) (some (a ++ l :: c))).1.status = false ∧
    (Program.load P shaders (Program.create name id) (some (a ++ l :: c))).1.linkCalled
      = false ∧
    ∀ (R : RendererState) (mesh : Shape) (hint : Option QString) (key : QString),
      (R.programs.map (fun e => e.2.name)).Nodup →
      (key, (Program.load P shaders (Program.create name id) (some (a ++ l :: c))).1)
        ∈ R.programs →
      (R.setupProgram X P mesh hint).1 ≠ some name := by
  have herr : (loadLines P shaders (LoadState.start (Program.create name id))
      (a ++ l :: c)).2 ≠ none := by
    apply loadLines_error_mid
    intro st2 _
    rw [hl]
    exact attachShaders_bad shaders names st2 n hn hbad
  obtain ⟨h1, h2, h3⟩ := load_of_error herr
  refine ⟨h1, h2, h3, ?_⟩
  intro R mesh hint key hnodup hmem hres
  obtain ⟨e, he, hstatus, hname⟩ := setupProgram_name hres
  have hsame := List.inj_on_of_nodup_map hnodup he hmem
    (by simp only [hname, load_name]; rfl)
  rw [hsame] at hstatus
  simp only at hstatus
  rw [h2] at hstatus
  exact absurd hstatus (by decide)

/-- C15, witness: a program file that names `broken.frag`, which did not
compile. -/
theorem load_rejects_bad_shader_witness :
    (Program.load examplePlatform exampleShaders (Program.create "p.prog".toList 4)
      (some ([ "check BSTriShape".toList ] ++ "shaders sf_default.vert broken.frag".toList
        :: [ "texcoords 0 base".toList ]))).1.linkCalled = false :=
  (load_rejects_bad_shader exampleExternals examplePlatform exampleShaders "p.prog".toList 4
    [ "check BSTriShape".toList ] "shaders sf_default.vert broken.frag".toList
    [ "texcoords 0 base".toList ] [ "sf_default.vert".toList, "broken.frag".toList ]
    "broken.frag".toList (by decide) (by decide) (by decide)).2.2.1

/-- C16, the code at the failing input: GL reports that the link failed and
leaves the information log empty; `load` returns `true`, the status of the
program is `true`, and `setupProgram` selects the program. -/
theorem link_failure_with_empty_log :
    (silentLinkPlatform.link [1, 2]).ok = false ∧
    (Program.load silentLinkPlatform exampleShaders (Program.create "p2.prog".toList 5)
      (some p2Lines)).2 = true ∧
    (Program.load silentLinkPlatform exampleShaders (Program.create "p2.prog".toList 5)
      (some p2Lines)).1.status = true ∧
    (RendererState.setupProgram exampleExternals silentLinkPlatform
      (exampleRenderer [("p2.prog".toList,
        (Program.load silentLinkPlatform exampleShaders (Program.create "p2.prog".toList 5)
          (some p2Lines)).1)]) exampleShape (some [])).1 = some "p2.prog".toList :=
  ⟨by decide, by decide, by decide, by decide⟩

/-! ## The registry load (claim C17) -/

theorem lookup_registryInsert_self {α : Type} (m : List (QString × α)) (k : QString) (v : α) :
    (registryInsert m k v).lookup k = some v := by
  induction m with
  | nil => simp [registryInsert, List.lookup]
  | cons e rest ih =>
    obtain ⟨k2, v2⟩ := e
    simp only [registryInsert]
    split
    · simp [List.lookup]
    · rename_i hne
      have : (k == k2) = false := by simpa using fun e => hne e.symm
      simp [List.lookup, this, ih]

theorem lookup_registryInsert_other {α : Type} (m : List (QString × α)) (k k3 : QString) (v : α)
    (h : k3 ≠ k) : (registryInsert m k v).lookup k3 = m.lookup k3 := by
  induction m with
  | nil =>
    have : (k3 == k) = false := by simpa using h
    simp [registryInsert, List.lookup, this]
  | cons e rest ih =>
    obtain ⟨k2, v2⟩ := e
    simp only [registryInsert]
    split
    · rename_i heq
      subst heq
      have : (k3 == k2) = false := by simpa using h
      simp [List.lookup, this]
    · simp only [List.lookup]
      cases (k3 == k2) <;> simp [ih]

theorem loadProgramFiles_shaders (P : Platform) (files : List (QString × Option (List QString)))
    (R : RendererState) : (loadProgramFiles P files R).shaders = R.shaders := by
  induction files generalizing R with
  | nil => rfl
  | cons f rest ih =>
    obtain ⟨name, file⟩ := f
    simp only [loadProgramFiles]
    rw [ih]

theorem loadProgramFiles_other (P : Platform) (files : List (QString × Option (List QString)))
    (R : RendererState) (k : QString) (h : k ∉ files.map Prod.fst) :
    (loadProgramFiles P files R).programs.lookup k = R.programs.lookup k := by
  induction files generalizing R with
  | nil => rfl
  | cons f rest ih =>
    obtain ⟨name, file⟩ := f
    simp only [List.map_cons, List.mem_cons, not_or] at h
    simp only [loadProgramFiles]
    rw [ih _ h.2]
    exact lookup_registryInsert_other _ _ _ _ h.1

theorem load_parsed_id (P : Platform) (shaders : List (QString × Shader)) (name : QString)
    (id id2 : Nat) (file : Option (List QString)) :
    (Program.load P shaders (Program.create name id) file).1.parsed
      = (Program.load P shaders (Program.create name id2) file).1.parsed := by
  cases file with
  | none => rfl
  | some lines =>
    have hs : LoadState.start (Program.create name id) = LoadState.start (Program.create name id2) :=
      rfl
    simp only [Program.load, hs]
    cases (loadLines P shaders (LoadState.start (Program.create name id2)) lines).2 with
    | none =>
      simp only
      split <;> rfl
    | some e => rfl

theorem loadProgramFiles_entry (P : Platform) (files : List (QString × Option (List QString)))
    (R : RendererState) (hnames : (files.map Prod.fst).Nodup)
    (f : QString × Option (List QString)) (hf : f ∈ files) :
    ((loadProgramFiles P files R).programs.lookup f.1).map Program.parsed
      = some (Program.load P R.shaders (Program.create f.1 0) f.2).1.parsed := by
  induction files generalizing R with
  | nil => simp at hf
  | cons g rest ih =>
    obtain ⟨name, file⟩ := g
    simp only [List.map_cons, List.nodup_cons] at hnames
    simp only [loadProgramFiles]
    rcases List.mem_cons.mp hf with heq | hmem
    · subst heq
      rw [loadProgramFiles_other _ _ _ _ hnames.1, lookup_registryInsert_self]
      simp only [Option.map_some', Option.some.injEq]
      exact load_parsed_id _ _ _ _ _ _
    · exact ih _ hnames.2 hmem

theorem registryInsert_mem {α : Type} {m : List (QString × α)} {k : QString} {v : α}
    {e : QString × α} (h : e ∈ registryInsert m k v) : e = (k, v) ∨ e ∈ m := by
  induction m with
  | nil => simpa [registryInsert] using h
  | cons g rest ih =>
    obtain ⟨k2, v2⟩ := g
    simp only [registryInsert] at h
    split at h
    · rcases List.mem_cons.mp h with h1 | h1
      · exact Or.inl h1
      · exact Or.inr (List.mem_cons_of_mem _ h1)
    · rcases List.mem_cons.mp h with h1 | h1
      · exact Or.inr (h1 ▸ List.mem_cons_self _ _)
      · rcases ih h1 with h2 | h2
        · exact Or.inl h2
        · exact Or.inr (List.mem_cons_of_mem _ h2)

theorem registryInsert_keys_nodup {α : Type} (m : List (QString × α)) (k : QString) (v : α)
    (h : (m.map Prod.fst).Nodup) : ((registryInsert m k v).map Prod.fst).Nodup := by
  induction m with
  | nil => simp [registryInsert]
  | cons g rest ih =>
    obtain ⟨k2, v2⟩ := g
    simp only [List.map_cons, List.nodup_cons] at h
    simp only [registryInsert]
    split
    · rename_i heq
      subst heq
      simp only [List.map_cons, List.nodup_cons]
      exact h
    · rename_i hne
      simp only [List.map_cons, List.nodup_cons]
      refine ⟨?_, ih h.2⟩
      intro hk2
      obtain ⟨e, he, hfst⟩ := List.mem_map.mp hk2
      rcases registryInsert_mem he with h1 | h1
      · rw [h1] at hfst
        exact hne hfst.symm
      · exact h.1 (List.mem_map.mpr ⟨e, h1, hfst⟩)

theorem loadProgramFiles_names (P : Platform) (files : List (QString × Option (List QString)))
    (R : RendererState) (hkeys : (R.programs.map Prod.fst).Nodup)
    (hname : ∀ e ∈ R.programs, e.2.name = e.1) :
    ((loadProgramFiles P files R).programs.map Prod.fst).Nodup ∧
    ∀ e ∈ (loadProgramFiles P files R).programs, e.2.name = e.1 := by
  induction files generalizing R with
  | nil => exact ⟨hkeys, hname⟩
  | cons f rest ih =>
    obtain ⟨name, file⟩ := f
    simp only [loadProgramFiles]
    apply ih
    · exact registryInsert_keys_nodup _ _ _ hkeys
    · intro e he
      rcases registryInsert_mem he with h1 | h1
      · rw [h1]
        exact load_name _ _ _ _
      · exact hname e h1

/-- The registry that `updateShaders` builds on a ready renderer holds each
program under its own name, and no two of its programs have the same name. -/
theorem updateShaders_names_nodup (P : Platform) (R : RendererState) (dir : ShaderDir)
    (hready : R.shaderReady = true) :
    ((R.updateShaders P dir).programs.map (fun e => e.2.name)).Nodup ∧
    ∀ e ∈ (R.updateShaders P dir).programs, e.2.name = e.1 := by
  have hunfold : R.updateShaders P dir
      = loadProgramFiles P dir.prog
          (loadShaderFiles P dir.frag (loadShaderFiles P dir.vert R.releaseShaders)) := by
    simp [RendererState.updateShaders, hready]
  have hshaders : ∀ (files : List (QString × Option QString)) (S : RendererState),
      (loadShaderFiles P files S).programs = S.programs := by
    intro files
    induction files with
    | nil => intro S; rfl
    | cons f rest ih =>
      intro S
      obtain ⟨name, file⟩ := f
      simp only [loadShaderFiles]
      rw [ih]
  have hempty : (loadShaderFiles P dir.frag
      (loadShaderFiles P dir.vert R.releaseShaders)).programs = [] := by
    rw [hshaders, hshaders]
    simp [RendererState.releaseShaders, hready]
  have h := loadProgramFiles_names P dir.prog
    (loadShaderFiles P dir.frag (loadShaderFiles P dir.vert R.releaseShaders))
    (by rw [hempty]; simp) (by rw [hempty]; simp)
  rw [hunfold]
  refine ⟨?_, h.2⟩
  have hmap : (loadProgramFiles P dir.prog
      (loadShaderFiles P dir.frag (loadShaderFiles P dir.vert R.releaseShaders))).programs.map
        (fun e => e.2.name)
      = (loadProgramFiles P dir.prog
      (loadShaderFiles P dir.frag (loadShaderFiles P dir.vert R.releaseShaders))).programs.map
        Prod.fst :=
    List.map_congr_left (fun e he => h.2 e he)
  rw [hmap]
  exact h.1

/-- C17: for every directory whose program files have distinct names,
`updateShaders` on a ready renderer gives every program file an entry in the
registry, whatever its `load` returned, and the status and the parsed contents
of each entry are those that `load` makes of that file alone against the
shader table: an error in one file leaves the entries of the others as they
are when that file is not in the directory. -/
theorem updateShaders_isolates_programs (P : Platform) (R : RendererState) (dir : ShaderDir)
    (hready : R.shaderReady = true) (hnames : (dir.prog.map Prod.fst).Nodup) :
    (∀ f ∈ dir.prog,
      ((R.updateShaders P dir).programs.lookup f.1).map Program.parsed
        = some (Program.load P (R.updateShaders P dir).shaders
            (Program.create f.1 0) f.2).1.parsed) ∧
    (∀ bad ∈ dir.prog, ∀ f ∈ dir.prog, f.1 ≠ bad.1 →
      ((R.updateShaders P
          { dir with prog := dir.prog.filter (fun g => decide (g.1 ≠ bad.1)) }).programs.lookup
            f.1).map Program.parsed
        = ((R.updateShaders P dir).programs.lookup f.1).map Program.parsed) := by
  have hunfold : ∀ d : ShaderDir, R.updateShaders P d
      = loadProgramFiles P d.prog
          (loadShaderFiles P d.frag (loadShaderFiles P d.vert R.releaseShaders)) := by
    intro d
    simp [RendererState.updateShaders, hready]
  have hfirst : ∀ (d : ShaderDir), (d.prog.map Prod.fst).Nodup → ∀ f ∈ d.prog,
      ((R.updateShaders P d).programs.lookup f.1).map Program.parsed
        = some (Program.load P
            (loadShaderFiles P d.frag (loadShaderFiles P d.vert R.releaseShaders)).shaders
            (Program.create f.1 0) f.2).1.parsed := by
    intro d hd f hf
    rw [hunfold]
    exact loadProgramFiles_entry P d.prog _ hd f hf
  constructor
  · intro f hf
    rw [hfirst dir hnames f hf, hunfold, loadProgramFiles_shaders]
  · intro bad _ f hf hne
    have hsub : ((dir.prog.filter (fun g => decide (g.1 ≠ bad.1))).map Prod.fst).Nodup :=
      hnames.sublist (List.Sublist.map _ (List.filter_sublist _))
    have hmem : f ∈ dir.prog.filter (fun g => decide (g.1 ≠ bad.1)) := by
      rw [List.mem_filter]
      exact ⟨hf, by simpa using hne⟩
    rw [hfirst dir hnames f hf]
    exact hfirst { dir with prog := dir.prog.filter (fun g => decide (g.1 ≠ bad.1)) } hsub f hmem

/-- C17, witness: a directory with the two shaders of the examples, a program
file that names a missing shader and the file `p2.prog`; the entry of
`p2.prog` is what its own lines load to. -/
theorem updateShaders_isolates_programs_witness :
    ((RendererState.updateShaders examplePlatform (exampleRenderer [])
        { vert := [("sf_default.vert".toList, some "#version 120".toList)],
          frag := [("sf_default.frag".toList, some "#version 120".toList)],
          prog := [("bad.prog".toList, some [ "shaders missing.vert".toList ]),
            ("p2.prog".toList, some p2Lines)] }).programs.lookup "p2.prog".toList).map
        Program.parsed
      = some ("p2.prog".toList, true, false, [], [], [10, 11], true) :=
  ((updateShaders_isolates_programs examplePlatform (exampleRenderer [])
      { vert := [("sf_default.vert".toList, some "#version 120".toList)],
        frag := [("sf_default.frag".toList, some "#version 120".toList)],
        prog := [("bad.prog".toList, some [ "shaders missing.vert".toList ]),
          ("p2.prog".toList, some p2Lines)] } rfl (by decide)).1
      ("p2.prog".toList, some p2Lines) (by simp)).trans (by rfl)

/-! ## Program selection (claims C18 to C20) -/

theorem setupProgram_ready {R : RendererState} {mesh : Shape} {nif : NifModel}
    (hready : R.shaderReady = true) (hopt : mesh.disableShaders = false)
    (hvis : mesh.visSilhouette = false) (hnif : mesh.nif = some nif)
    (hver : mesh.bsVersion ≠ 0) (h : QString) :
    ¬ ((!R.shaderReady || (some h).isNone || mesh.disableShaders || mesh.visSilhouette
        || mesh.nif.isNone || mesh.bsVersion == 0) = true) := by
  simp [hready, hopt, hvis, hnif, hver]

theorem setupProgram_scan (X : Externals) (P : Platform) (R : RendererState) (mesh : Shape)
    (nif : NifModel) (hready : R.shaderReady = true) (hopt : mesh.disableShaders = false)
    (hvis : mesh.visSilhouette = false) (hnif : mesh.nif = some nif)
    (hver : mesh.bsVersion ≠ 0) :
    (R.setupProgram X P mesh (some [])).1
      = (R.programs.find? (fun e => e.2.status
          && e.2.conditions.eval X nif (mesh.index :: mesh.iData :: mesh.props)
          && P.bindUniforms e.2 mesh && bindTexcoords P mesh e.2.texcoords)).map
        (fun e => e.2.name) := by
  rw [setupProgram_unfold, if_neg (setupProgram_ready hready hopt hvis hnif hver [])]
  have hh : hintedProgram R (some []) = none := rfl
  rw [hh]
  simp only
  rw [scanOrFallback_name, scanPrograms_eq_find]
  congr 2
  funext e
  rw [show evalByDefault = true from rfl, setupProgramFor_checked X P e.2 mesh nif _ hnif]
  cases e.2.status <;> simp [Bool.and_assoc]

/-- C18, as amended: for every registry and every drawable that meets the
selection preconditions, `setupProgram` called with an empty, non-null hint
returns the first program in registry iteration order that is linked, whose
conditions evaluate true on the drawable's block list and whose binding (of
uniforms, samplers and texture coordinates) succeeds, and the null string when
there is none. -/
theorem setupProgram_first_match (X : Externals) (P : Platform) (R : RendererState)
    (mesh : Shape) (nif : NifModel) (hready : R.shaderReady = true)
    (hopt : mesh.disableShaders = false) (hvis : mesh.visSilhouette = false)
    (hnif : mesh.nif = some nif) (hver : mesh.bsVersion ≠ 0) :
    (R.setupProgram X P mesh (some [])).1
      = (R.programs.find? (fun e => e.2.status
          && e.2.conditions.eval X nif (mesh.index :: mesh.iData :: mesh.props)
          && P.bindUniforms e.2 mesh && bindTexcoords P mesh e.2.texcoords)).map
        (fun e => e.2.name) :=
  setupProgram_scan X P R mesh nif hready hopt hvis hnif hver

/-- C18, witness: P1 (`p1.prog`, header version `>= 172`) before P2
(`p2.prog`, no conditions) on a document of version `172` gives P1; P2 alone
gives P2, and so does P1 before P2 on a document of version `130`, where the
condition of P1 fails. -/
theorem setupProgram_first_match_witness :
    (RendererState.setupProgram exampleExternals examplePlatform
      (exampleRenderer [exampleProgram "p1.prog" 4 p1Lines, exampleProgram "p2.prog" 5 p2Lines])
      exampleShape (some [])).1 = some "p1.prog".toList ∧
    (RendererState.setupProgram exampleExternals examplePlatform
      (exampleRenderer [exampleProgram "p2.prog" 5 p2Lines])
      exampleShape (some [])).1 = some "p2.prog".toList ∧
    (RendererState.setupProgram exampleExternals examplePlatform
      (exampleRenderer [exampleProgram "p1.prog" 4 p1Lines, exampleProgram "p2.prog" 5 p2Lines])
      olderShape (some [])).1 = some "p2.prog".toList :=
  ⟨(setupProgram_first_match exampleExternals examplePlatform
      (exampleRenderer [exampleProgram "p1.prog" 4 p1Lines, exampleProgram "p2.prog" 5 p2Lines])
      exampleShape (headerNif 172) rfl rfl rfl rfl (by decide)).trans (by decide),
    by decide, by decide⟩

/-- C18, counterexample: `p0.prog` has no conditions (they evaluate true), is
linked and comes first, but asks for tangents on unit `1`, which the drawable
does not have; with an empty hint `setupProgram` passes it over and returns
`p2.prog`. -/
theorem setupProgram_skips_unbindable :
    (exampleProgram "p0.prog" 4 tangentLines).2.status = true ∧
    (exampleProgram "p0.prog" 4 tangentLines).2.conditions.eval exampleExternals
      (headerNif 172) [some 1, none] = true ∧
    (RendererState.setupProgram exampleExternals examplePlatform
      (exampleRenderer [exampleProgram "p0.prog" 4 tangentLines,
        exampleProgram "p2.prog" 5 p2Lines])
      exampleShape (some [])).1 = some "p2.prog".toList :=
  ⟨by decide, by decide, by decide⟩

/-- C19, as amended: the conditions of the hinted program are not evaluated.
For every registry and every drawable that meets the selection preconditions,
the program that a non-null hint names is selected through the hint exactly
when it is known, linked and its binding succeeds; in every other case the
result is the one of the exhaustive scan, which is what `setupProgram` returns
for the empty hint. -/
theorem setupProgram_hint (X : Externals) (P : Platform) (R : RendererState)
    (mesh : Shape) (nif : NifModel) (hready : R.shaderReady = true)
    (hopt : mesh.disableShaders = false) (hvis : mesh.visSilhouette = false)
    (hnif : mesh.nif = some nif) (hver : mesh.bsVersion ≠ 0) (h : QString) :
    (R.setupProgram X P mesh (some h)).1
      = match hintedProgram R (some h) with
        | some program =>
          if (program.status && P.bindUniforms program mesh
              && bindTexcoords P mesh program.texcoords) = true then some program.name
          else (R.setupProgram X P mesh (some [])).1
        | none => (R.setupProgram X P mesh (some [])).1 := by
  have hscan : (R.setupProgram X P mesh (some [])).1
      = (scanPrograms X P mesh (mesh.index :: mesh.iData :: mesh.props) R.programs).1 := by
    rw [setupProgram_unfold, if_neg (setupProgram_ready hready hopt hvis hnif hver [])]
    have hh : hintedProgram R (some []) = none := rfl
    rw [hh]
    simp only
    rw [scanOrFallback_name]
  rw [hscan, setupProgram_unfold, if_neg (setupProgram_ready hready hopt hvis hnif hver h)]
  cases hintedProgram R (some h) with
  | none =>
    simp only
    rw [scanOrFallback_name]
  | some program =>
    simp only
    rw [setupProgramFor_unchecked X P program mesh nif _ hnif]
    cases hs : program.status
    · simp only [Bool.false_eq_true, if_false, Bool.false_and]
      rw [scanOrFallback_name]
    · simp only [if_true, Bool.true_and]
      split
      · rfl
      · rw [scanOrFallback_name]

/-- C19, witness: the hint `p2.prog` on the registry of P1 and P2 selects
`p2.prog`, which the scan would not reach. -/
theorem setupProgram_hint_witness :
    (RendererState.setupProgram exampleExternals examplePlatform
      (exampleRenderer [exampleProgram "p1.prog" 4 p1Lines, exampleProgram "p2.prog" 5 p2Lines])
      exampleShape (some "p2.prog".toList)).1 = some "p2.prog".toList :=
  (setupProgram_hint exampleExternals examplePlatform
    (exampleRenderer [exampleProgram "p1.prog" 4 p1Lines, exampleProgram "p2.prog" 5 p2Lines])
    exampleShape (headerNif 172) rfl rfl rfl rfl (by decide) "p2.prog".toList).trans (by decide)

/-- C19, counterexample: the conditions of `skin.prog` evaluate false on the
drawable (it has no `NiSkinInstance`); with the hint `skin.prog` it is
selected all the same, while the exhaustive scan gives `p2.prog`. -/
theorem setupProgram_hint_skips_conditions :
    (exampleProgram "skin.prog" 4 skinLines).2.conditions.eval exampleExternals
      (headerNif 172) [some 1, none] = false ∧
    (RendererState.setupProgram exampleExternals examplePlatform
      (exampleRenderer [exampleProgram "skin.prog" 4 skinLines,
        exampleProgram "p2.prog" 5 p2Lines])
      exampleShape (some "skin.prog".toList)).1 = some "skin.prog".toList ∧
    (RendererState.setupProgram exampleExternals examplePlatform
      (exampleRenderer [exampleProgram "skin.prog" 4 skinLines,
        exampleProgram "p2.prog" 5 p2Lines])
      exampleShape (some [])).1 = some "p2.prog".toList :=
  ⟨by decide, by decide, by decide⟩

theorem scanPrograms_none_of_conditions (X : Externals) (P : Platform) (mesh : Shape)
    (iBlocks : List QModelIndex) (programs : List (QString × Program))
    (h : ∀ nif, mesh.nif = some nif → ∀ e ∈ programs, e.2.conditions.eval X nif iBlocks = false) :
    (scanPrograms X P mesh iBlocks programs).1 = none := by
  rw [scanPrograms_eq_find]
  have : programs.find? (fun e => e.2.status
      && (setupProgramFor X P e.2 mesh iBlocks evalByDefault).1) = none := by
    rw [List.find?_eq_none]
    intro e he
    cases hn : mesh.nif with
    | none => simp [setupProgramFor, hn]
    | some nif =>
      rw [show evalByDefault = true from rfl, setupProgramFor_checked X P e.2 mesh nif _ hn,
        h nif hn e he]
      simp
  rw [this]
  rfl

/-- C20, as amended: `setupProgram` calls the fixed-function binding last and
returns the null string (no program name) in each of these cases: the shader
subsystem is not ready; the hint is null; every registered program's
conditions evaluate false for the drawable and the hint is empty or names no
program that is known, linked and binds. It is a total function: nothing is
raised. -/
theorem setupProgram_fallback (X : Externals) (P : Platform) (R : RendererState)
    (mesh : Shape) (hint : Option QString)
    (h : R.shaderReady = false ∨ hint = none ∨
      ((∀ program, hintedProgram R hint = some program →
          (program.status && P.bindUniforms program mesh
            && bindTexcoords P mesh program.texcoords) = false) ∧
        ∀ nif, mesh.nif = some nif → ∀ e ∈ R.programs,
          e.2.conditions.eval X nif (mesh.index :: mesh.iData :: mesh.props) = false)) :
    (R.setupProgram X P mesh hint).1 = none ∧
    (R.setupProgram X P mesh hint).2.getLast? = some .fixedFunction := by
  rw [setupProgram_unfold]
  rcases h with h | h | ⟨hhint, hcond⟩
  · simp [h]
  · simp [h]
  · have hscan := scanPrograms_none_of_conditions X P mesh
      (mesh.index :: mesh.iData :: mesh.props) R.programs hcond
    split
    · simp
    · rename_i hpre
      have hfall : ∀ before,
          (scanOrFallback X P R mesh (mesh.index :: mesh.iData :: mesh.props) before).1 = none ∧
          (scanOrFallback X P R mesh (mesh.index :: mesh.iData :: mesh.props)
            before).2.getLast? = some .fixedFunction :=
        fun before => ⟨by rw [scanOrFallback_name, hscan], scanOrFallback_none hscan⟩
      cases hp : hintedProgram R hint with
      | none => exact hfall []
      | some program =>
        simp only
        have hb := hhint program hp
        cases hs : program.status
        · simp only [Bool.false_eq_true, if_false]
          exact hfall []
        · simp only [if_true]
          have hnif : ∃ nif, mesh.nif = some nif := by
            cases hn : mesh.nif with
            | none => simp [hn] at hpre
            | some nif => exact ⟨nif, rfl⟩
          obtain ⟨nif, hn⟩ := hnif
          rw [setupProgramFor_unchecked X P program mesh nif _ hn]
          rw [hs, Bool.true_and] at hb
          rw [hb]
          simp only [Bool.false_eq_true, if_false]
          exact hfall _

/-- C20, witness: the only program of the registry is `skin.prog`, whose
conditions fail on the drawable; with the empty hint `setupProgram` ends in
the fixed-function binding and returns the null string. -/
theorem setupProgram_fallback_witness :
    RendererState.setupProgram exampleExternals examplePlatform
      (exampleRenderer [exampleProgram "skin.prog" 4 skinLines]) exampleShape (some [])
      = (none, [.stopProgram, .fixedFunction]) :=
  have h := setupProgram_fallback exampleExternals examplePlatform
    (exampleRenderer [exampleProgram "skin.prog" 4 skinLines]) exampleShape (some [])
    (Or.inr (Or.inr ⟨fun program hp => by simp [hintedProgram] at hp,
      fun nif hn e he => by
        have h1 : nif = headerNif 172 := (Option.some.inj hn).symm
        have h2 : e = exampleProgram "skin.prog" 4 skinLines := by
          simpa [exampleRenderer] using he
        subst h1 h2
        decide⟩))
  Prod.ext h.1 (by decide)

/-- C20, counterexample: the registry holds `skin.prog` alone, so the
conditions of every registered program evaluate false for the drawable; with
the hint `skin.prog` the program is made current and its name is returned:
the fixed-function binding is not called. -/
theorem setupProgram_hint_beats_fallback :
    (exampleProgram "skin.prog" 4 skinLines).2.conditions.eval exampleExternals
      (headerNif 172) [some 1, none] = false ∧
    RendererState.setupProgram exampleExternals examplePlatform
      (exampleRenderer [exampleProgram "skin.prog" 4 skinLines]) exampleShape
      (some "skin.prog".toList) = (some "skin.prog".toList, [.useProgram 4]) :=
  ⟨by decide, by decide⟩

/-! ## The registry state machine (claims C22 and C23) -/

theorem loadShaderFiles_flags (P : Platform) (files : List (QString × Option QString))
    (R : RendererState) :
    (loadShaderFiles P files R).shaderReady = R.shaderReady ∧
    (loadShaderFiles P files R).shaderInitialized = R.shaderInitialized ∧
    (loadShaderFiles P files R).programs = R.programs := by
  induction files generalizing R with
  | nil => exact ⟨rfl, rfl, rfl⟩
  | cons f rest ih =>
    obtain ⟨name, file⟩ := f
    simp only [loadShaderFiles]
    exact ih _

theorem loadProgramFiles_flags (P : Platform) (files : List (QString × Option (List QString)))
    (R : RendererState) :
    (loadProgramFiles P files R).shaderReady = R.shaderReady ∧
    (loadProgramFiles P files R).shaderInitialized = R.shaderInitialized := by
  induction files generalizing R with
  | nil => exact ⟨rfl, rfl⟩
  | cons f rest ih =>
    obtain ⟨name, file⟩ := f
    simp only [loadProgramFiles]
    exact ih _

theorem updateShaders_flags (P : Platform) (R : RendererState) (dir : ShaderDir) :
    (R.updateShaders P dir).shaderReady = R.shaderReady ∧
    (R.updateShaders P dir).shaderInitialized = R.shaderInitialized := by
  unfold RendererState.updateShaders
  split
  · exact ⟨rfl, rfl⟩
  · rename_i h
    have hr : R.shaderReady = true := by simpa using h
    rw [(loadProgramFiles_flags P _ _).1, (loadProgramFiles_flags P _ _).2,
      (loadShaderFiles_flags P _ _).1, (loadShaderFiles_flags P _ _).2.1,
      (loadShaderFiles_flags P _ _).1, (loadShaderFiles_flags P _ _).2.1]
    simp [RendererState.releaseShaders, hr]

theorem updateSettings_ready (P : Platform) (S : SettingsState) (setting feature : Bool)
    (dir : ShaderDir) :
    (S.updateSettings P setting feature dir).renderer.shaderReady = (setting && feature) := by
  simp only [SettingsState.updateSettings]
  split
  · exact (updateShaders_flags P _ dir).1
  · rfl

theorem updateSettings_of_ready (P : Platform) (S : SettingsState) (setting feature : Bool)
    (dir : ShaderDir) (h : S.renderer.shaderReady = true) :
    (S.updateSettings P setting feature dir).renderer
      = { S.renderer with shaderReady := setting && feature } := by
  simp [SettingsState.updateSettings, h]

/-- C22, as amended: `updateSettings` recomputes `shader_ready` on every call,
in every state: afterwards it is set exactly when the setting is on and the
feature is there, and the feature is asked for exactly when the setting is on,
so a subsystem that is not ready becomes ready on a later settings change, and
one that is ready stops being ready when the setting is off or the probe
fails. Only `initialize()` stops probing: once `shader_initialized` is set it
asks nothing and changes nothing, and before that it asks whenever the
setting is on. `shader_initialized`, once set, stays set. -/
theorem settings_state_machine (P : Platform) (S : SettingsState) (setting feature : Bool)
    (dir : ShaderDir) :
    (S.updateSettings P setting feature dir).renderer.shaderReady = (setting && feature) ∧
    (S.updateSettings P setting feature dir).probes
      = (if setting then S.probes + 1 else S.probes) ∧
    (S.renderer.shaderInitialized = true →
      (S.updateSettings P setting feature dir).renderer.shaderInitialized = true ∧
      S.initialise feature = (S.renderer.shaderReady, S)) ∧
    (S.renderer.shaderInitialized = false →
      (S.initialise feature).1 = (S.useShaders && feature) ∧
      (S.initialise feature).2.renderer.shaderReady = (S.useShaders && feature) ∧
      (S.initialise feature).2.renderer.shaderInitialized = (S.useShaders && feature) ∧
      (S.initialise feature).2.probes = (if S.useShaders then S.probes + 1 else S.probes)) := by
  refine ⟨updateSettings_ready P S setting feature dir, rfl, ?_, ?_⟩
  · intro h
    constructor
    · simp [SettingsState.updateSettings, h]
    · simp [SettingsState.initialise, h]
  · intro h
    simp only [SettingsState.initialise, h]
    cases hu : S.useShaders <;> cases feature <;> simp

/-- C22, witness: a renderer that is not ready becomes ready when a settings
change finds the setting on and the feature there; from there a settings
change with the setting off leaves it not ready, and `initialize()` asks
nothing. -/
theorem settings_state_machine_witness :
    (SettingsState.updateSettings examplePlatform
        ⟨{ exampleRenderer [] with shaderReady := false, shaderInitialized := false }, true, 1⟩
        true true exampleDir).renderer.shaderReady = true ∧
    (SettingsState.updateSettings examplePlatform (readySettings []) false true
        exampleDir).renderer.shaderReady = false ∧
    ((readySettings []).initialise true).2.probes = 1 :=
  ⟨(settings_state_machine examplePlatform
      ⟨{ exampleRenderer [] with shaderReady := false, shaderInitialized := false }, true, 1⟩
      true true exampleDir).1,
    (settings_state_machine examplePlatform (readySettings []) false true exampleDir).1,
    congrArg (fun r => r.2.probes)
      ((settings_state_machine examplePlatform (readySettings []) false true
        exampleDir).2.2.1 rfl).2⟩

/-- C22, counterexample: the subsystem is ready and initialised; a settings
change with the setting on asks for the feature again, and one with the
setting off, or with the feature gone, leaves `shader_ready` unset. -/
theorem updateSettings_leaves_ready :
    (readySettings []).renderer.shaderReady = true ∧
    (readySettings []).renderer.shaderInitialized = true ∧
    (SettingsState.updateSettings examplePlatform (readySettings []) true true
        exampleDir).probes = (readySettings []).probes + 1 ∧
    (SettingsState.updateSettings examplePlatform (readySettings []) false true
        exampleDir).renderer.shaderReady = false ∧
    (SettingsState.updateSettings examplePlatform (readySettings []) true false
        exampleDir).renderer.shaderReady = false := by
  decide
theorem registryInsert_keys {α : Type} (m : List (QString × α)) (k : QString) (v : α)
    (k3 : QString) :
    k3 ∈ registryKeys (registryInsert m k v) ↔ k3 = k ∨ k3 ∈ registryKeys m := by
  induction m with
  | nil =>
    simp only [registryInsert, registryKeys, List.map_cons, List.map_nil, List.mem_singleton,
      List.not_mem_nil, or_false]
  | cons e rest ih =>
    obtain ⟨k2, v2⟩ := e
    simp only [registryInsert]
    split
    · rename_i heq
      subst heq
      simp only [registryKeys, List.map_cons, List.mem_cons]
      tauto
    · simp only [registryKeys, List.map_cons, List.mem_cons] at ih ⊢
      rw [ih]
      tauto

theorem loadShaderFiles_keys (P : Platform) (files : List (QString × Option QString))
    (R : RendererState) (k : QString) :
    k ∈ registryKeys (loadShaderFiles P files R).shaders
      ↔ k ∈ registryKeys R.shaders ∨ k ∈ registryKeys files := by
  induction files generalizing R with
  | nil =>
    simp only [loadShaderFiles, registryKeys, List.map_nil, List.not_mem_nil, or_false]
  | cons f rest ih =>
    obtain ⟨name, file⟩ := f
    simp only [loadShaderFiles]
    rw [ih, registryInsert_keys]
    simp only [registryKeys, List.map_cons, List.mem_cons]
    tauto

theorem loadProgramFiles_keys (P : Platform) (files : List (QString × Option (List QString)))
    (R : RendererState) (k : QString) :
    k ∈ registryKeys (loadProgramFiles P files R).programs
      ↔ k ∈ registryKeys R.programs ∨ k ∈ registryKeys files := by
  induction files generalizing R with
  | nil =>
    simp only [loadProgramFiles, registryKeys, List.map_nil, List.not_mem_nil, or_false]
  | cons f rest ih =>
    obtain ⟨name, file⟩ := f
    simp only [loadProgramFiles]
    rw [ih, registryInsert_keys]
    simp only [registryKeys, List.map_cons, List.mem_cons]
    tauto

theorem updateShaders_unfold (P : Platform) (R : RendererState) (dir : ShaderDir)
    (hready : R.shaderReady = true) :
    R.updateShaders P dir
      = loadProgramFiles P dir.prog
          (loadShaderFiles P dir.frag (loadShaderFiles P dir.vert
            { R with programs := [], shaders := [] })) := by
  simp [RendererState.updateShaders, RendererState.releaseShaders, hready]

theorem updateSettings_registry_unchanged (P : Platform) (S : SettingsState)
    (setting feature : Bool) (dir : ShaderDir)
    (h : S.renderer.shaderReady = true ∨ S.renderer.shaderInitialized = true
      ∨ (setting && feature) = false) :
    (S.updateSettings P setting feature dir).renderer.shaders = S.renderer.shaders ∧
    (S.updateSettings P setting feature dir).renderer.programs = S.renderer.programs := by
  rcases h with h | h | h
  · simp [SettingsState.updateSettings, h]
  · simp [SettingsState.updateSettings, h]
  · simp [SettingsState.updateSettings, h]

/-- C23, as amended: the full reload is what `updateShaders` does on a ready
renderer, not what a settings change does. A settings change on a ready
renderer leaves the registry as it is. `updateShaders` on a ready renderer
clears the registry and loads the shader units and then the programs: what it
builds does not depend on the entries held before, its shader table holds
exactly the names of the `*.vert` and `*.frag` entries and its program table
exactly the names of the `*.prog` entries, and the programs are loaded after
the shader table is complete. A settings change calls it only when it makes a
renderer ready that was neither ready nor initialised. -/
theorem updateShaders_full_reload (P : Platform) (S : SettingsState) (setting feature : Bool)
    (dir : ShaderDir) (R : RendererState) (hready : R.shaderReady = true) :
    (S.renderer.shaderReady = true →
      (S.updateSettings P setting feature dir).renderer.shaders = S.renderer.shaders ∧
      (S.updateSettings P setting feature dir).renderer.programs = S.renderer.programs) ∧
    (S.renderer.shaderReady = false → S.renderer.shaderInitialized = false →
      setting = true → feature = true →
      (S.updateSettings P setting feature dir).renderer
        = { RendererState.updateShaders P { S.renderer with shaderReady := true } dir with
            shaderInitialized := true }) ∧
    R.updateShaders P dir
      = RendererState.updateShaders P { R with shaders := [], programs := [] } dir ∧
    (∀ k, k ∈ registryKeys (R.updateShaders P dir).shaders
      ↔ k ∈ registryKeys dir.vert ∨ k ∈ registryKeys dir.frag) ∧
    (∀ k, k ∈ registryKeys (R.updateShaders P dir).programs ↔ k ∈ registryKeys dir.prog) ∧
    (∃ T : RendererState, T.programs = [] ∧ T.shaders = (R.updateShaders P dir).shaders ∧
      R.updateShaders P dir = loadProgramFiles P dir.prog T) := by
  refine ⟨?_, ?_, ?_, ?_, ?_, ?_⟩
  · intro h
    rw [updateSettings_of_ready P S setting feature dir h]
    exact ⟨rfl, rfl⟩
  · intro h1 h2 h3 h4
    simp [SettingsState.updateSettings, h1, h2, h3, h4]
  · rw [updateShaders_unfold P R dir hready,
      updateShaders_unfold P { R with shaders := [], programs := [] } dir hready]
  · intro k
    rw [updateShaders_unfold P R dir hready, loadProgramFiles_shaders, loadShaderFiles_keys,
      loadShaderFiles_keys]
    simp [registryKeys]
  · intro k
    rw [updateShaders_unfold P R dir hready, loadProgramFiles_keys,
      (loadShaderFiles_flags P _ _).2.2, (loadShaderFiles_flags P _ _).2.2]
    simp [registryKeys]
  · refine ⟨loadShaderFiles P dir.frag (loadShaderFiles P dir.vert
      { R with programs := [], shaders := [] }), ?_, ?_, ?_⟩
    · rw [(loadShaderFiles_flags P _ _).2.2, (loadShaderFiles_flags P _ _).2.2]
    · rw [updateShaders_unfold P R dir hready, loadProgramFiles_shaders]
    · exact updateShaders_unfold P R dir hready

/-- C23, witness: a renderer that is ready and holds `skin.prog`; a settings
change leaves the registry as it is, and `updateShaders` on the directory with
`p2.prog` leaves exactly `p2.prog`. -/
theorem updateShaders_full_reload_witness :
    registryKeys (SettingsState.updateSettings examplePlatform
      (readySettings [exampleProgram "skin.prog" 4 skinLines]) true true
      exampleDir).renderer.programs = ["skin.prog".toList] ∧
    (∀ k, k ∈ registryKeys (RendererState.updateShaders examplePlatform
        (exampleRenderer [exampleProgram "skin.prog" 4 skinLines]) exampleDir).programs
      ↔ k ∈ registryKeys exampleDir.prog) :=
  ⟨congrArg registryKeys
      ((updateShaders_full_reload examplePlatform
        (readySettings [exampleProgram "skin.prog" 4 skinLines]) true true exampleDir
        (exampleRenderer [exampleProgram "skin.prog" 4 skinLines]) rfl).1 rfl).2,
    (updateShaders_full_reload examplePlatform
      (readySettings [exampleProgram "skin.prog" 4 skinLines]) true true exampleDir
      (exampleRenderer [exampleProgram "skin.prog" 4 skinLines]) rfl).2.2.2.2.1⟩

/-- C23, counterexample: the subsystem is ready and its registry holds
`skin.prog`; the directory holds `p2.prog` only. After a settings change the
registry still holds `skin.prog` and not `p2.prog`: nothing was unloaded and
nothing was loaded. -/
theorem updateSettings_keeps_registry :
    (readySettings [exampleProgram "skin.prog" 4 skinLines]).renderer.shaderReady = true ∧
    registryKeys exampleDir.prog = ["p2.prog".toList] ∧
    registryKeys (SettingsState.updateSettings examplePlatform
      (readySettings [exampleProgram "skin.prog" 4 skinLines]) true true
      exampleDir).renderer.programs = ["skin.prog".toList] ∧
    registryKeys (RendererState.updateShaders examplePlatform
      (exampleRenderer [exampleProgram "skin.prog" 4 skinLines]) exampleDir).programs
      = ["p2.prog".toList] := by
  decide

/-! ## Groups left open (claim C28) -/

theorem loadLines_endsMatched {P : Platform} {shaders : List (QString × Shader)}
    {st st2 : LoadState} {lines : List QString}
    (h : loadLines P shaders st lines = (st2, none)) :
    endsMatched st.below.length (lines.map (classify P)) = true ∧
    st2.below.length = openAfter st.below.length (lines.map (classify P)) := by
  induction lines generalizing st with
  | nil =>
    simp only [loadLines, Prod.mk.injEq, and_true] at h
    subst h
    simp [endsMatched, openAfter]
  | cons x rest ih =>
    obtain ⟨s1, h1, h2⟩ := loadLines_cons_ok h
    have ih2 := ih h2
    rw [List.map_cons]
    cases hd : classify P x with
    | shaders names =>
      rw [hd] at h1
      have hk := attachShaders_keeps shaders names st
      simp only [applyDirective] at h1
      rw [h1] at hk
      simp only at hk
      rw [hk.2.1] at ih2
      simpa [endsMatched, openAfter] using ih2
    | groupBegin isOr =>
      rw [hd] at h1
      simp only [applyDirective, Prod.mk.injEq, and_true] at h1
      subst h1
      simpa [endsMatched, openAfter] using ih2
    | groupEnd =>
      rw [hd] at h1
      simp only [applyDirective] at h1
      cases hb : st.below with
      | nil => rw [hb] at h1; simp at h1
      | cons parent rest2 =>
        rw [hb] at h1
        simp only [Prod.mk.injEq, and_true] at h1
        subst h1
        simpa [endsMatched, openAfter] using ih2
    | groupOther =>
      rw [hd] at h1
      simp [applyDirective] at h1
    | check c =>
      rw [hd] at h1
      simp only [applyDirective, Prod.mk.injEq, and_true] at h1
      subst h1
      simpa [endsMatched, openAfter] using ih2
    | texcoords unit idStr =>
      rw [hd] at h1
      cases unit with
      | none => simp [applyDirective] at h1
      | some w =>
        simp only [applyDirective] at h1
        split at h1
        · simp at h1
        · split at h1
          · simp at h1
          · split at h1
            · simp at h1
            · simp only [Prod.mk.injEq, and_true] at h1
              subst h1
              simpa [endsMatched, openAfter] using ih2
    | ignored =>
      rw [hd] at h1
      simp only [applyDirective, Prod.mk.injEq, and_true] at h1
      subst h1
      simpa [endsMatched, openAfter] using ih2

theorem load_result (P : Platform) (shaders : List (QString × Shader)) (prog : Program)
    (lines : List QString) :
    (Program.load P shaders prog (some lines)).2
      = ((loadLines P shaders (LoadState.start prog) lines).2.isNone
          && !(!(P.link (loadLines P shaders (LoadState.start prog) lines).1.attached).ok
            && (P.link (loadLines P shaders (LoadState.start prog) lines).1.attached).logLen
              != 0)) := by
  simp only [Program.load]
  cases hr : (loadLines P shaders (LoadState.start prog) lines).2 with
  | none =>
    simp only [Option.isNone_none, Bool.true_and]
    split
    · rename_i h
      rw [h]
      rfl
    · rename_i h
      simp only [Bool.not_eq_true] at h
      rw [h]
      rfl
  | some e => rfl

/-- C28, as amended: `load` reports success only for files in which every
`checkgroup end` closes a group that is open; a group still open when the text
ends is not an error. For every file that loads, no `end` comes with no group
open, the groups left open at the end are those that the count of `begin` and
`end` gives, and the file with one more `checkgroup begin` line at its end
loads as well. -/
theorem load_success_ends_matched (P : Platform) (shaders : List (QString × Shader))
    (prog : Program) (lines : List QString)
    (h : (Program.load P shaders prog (some lines)).2 = true) :
    endsMatched 0 (lines.map (classify P)) = true ∧
    (loadLines P shaders (LoadState.start prog) lines).1.below.length
      = openAfter 0 (lines.map (classify P)) ∧
    ∀ (b : QString) (isOr : Bool), classify P b = .groupBegin isOr →
      (Program.load P shaders prog (some (lines ++ [b]))).2 = true := by
  have hnone := load_success h
  rcases hr : loadLines P shaders (LoadState.start prog) lines with ⟨st2, err⟩
  rw [hr] at hnone
  simp only at hnone
  subst hnone
  have hm := loadLines_endsMatched hr
  refine ⟨hm.1, hm.2, ?_⟩
  intro b isOr hb
  have hrun : loadLines P shaders (LoadState.start prog) (lines ++ [b])
      = ({ st2 with top := ⟨isOr, []⟩, below := st2.top :: st2.below }, none) := by
    rw [loadLines_append, hr]
    simp [loadLines, hb, applyDirective]
  rw [load_result] at h ⊢
  rw [hrun]
  rw [hr] at h
  exact h

/-- C28, witness: a file with a group that is opened and closed loads, no `end`
of it is unmatched, and it still loads with a `checkgroup begin` added at its
end. -/
theorem load_success_ends_matched_witness :
    endsMatched 0 (([ "shaders sf_default.vert sf_default.frag".toList,
        "checkgroup begin or".toList, "check BSTriShape".toList,
        "checkgroup end".toList ]).map (classify examplePlatform)) = true ∧
    (Program.load examplePlatform exampleShaders (Program.create "g.prog".toList 4)
      (some ([ "shaders sf_default.vert sf_default.frag".toList,
        "checkgroup begin or".toList, "check BSTriShape".toList,
        "checkgroup end".toList ] ++ ["checkgroup begin".toList]))).2 = true :=
  ⟨(load_success_ends_matched examplePlatform exampleShaders
      (Program.create "g.prog".toList 4)
      [ "shaders sf_default.vert sf_default.frag".toList,
        "checkgroup begin or".toList, "check BSTriShape".toList,
        "checkgroup end".toList ] (by decide)).1,
    (load_success_ends_matched examplePlatform exampleShaders
      (Program.create "g.prog".toList 4)
      [ "shaders sf_default.vert sf_default.frag".toList,
        "checkgroup begin or".toList, "check BSTriShape".toList,
        "checkgroup end".toList ] (by decide)).2.2 "checkgroup begin".toList false
      (by decide)⟩

/-- C28, counterexample: a file that opens a group with `checkgroup begin or`
and ends without closing it; its directives are not balanced, one group is
open at the end, and `load` returns `true` and sets the status. -/
theorem load_accepts_open_group :
    closes 0 (openGroupLines.map (classify examplePlatform)) = false ∧
    openAfter 0 (openGroupLines.map (classify examplePlatform)) = 1 ∧
    (Program.load examplePlatform exampleShaders (Program.create "open.prog".toList 4)
      (some openGroupLines)).2 = true ∧
    (Program.load examplePlatform exampleShaders (Program.create "open.prog".toList 4)
      (some openGroupLines)).1.status = true := by
  decide

/-! ## A binding that fails in the scan (claim C21) -/

theorem setupProgram_empty_hint (X : Externals) (P : Platform) (R : RendererState)
    (mesh : Shape) (nif : NifModel) (hready : R.shaderReady = true)
    (hopt : mesh.disableShaders = false) (hvis : mesh.visSilhouette = false)
    (hnif : mesh.nif = some nif) (hver : mesh.bsVersion ≠ 0) :
    R.setupProgram X P mesh (some [])
      = scanOrFallback X P R mesh (mesh.index :: mesh.iData :: mesh.props) [] := by
  rw [setupProgram_unfold, if_neg (setupProgram_ready hready hopt hvis hnif hver [])]
  rfl

/-- C21, as amended: a program whose texture-coordinate binding fails is passed
over, and the scan goes on. For every registry and every drawable that meets
the selection preconditions, if the first linked program whose conditions hold
fails its texture-coordinate binding, the per-program `setupProgram` returns
`false` for it and `setupProgram`, called with the empty hint, returns what it
returns on the programs that come after it in the registry; the draw ends in
the fixed-function binding with the null string only when none of those is
selected. -/
theorem setupProgram_texcoord_failure (X : Externals) (P : Platform) (R : RendererState)
    (mesh : Shape) (nif : NifModel) (pre post : List (QString × Program)) (k : QString)
    (p : Program) (hready : R.shaderReady = true) (hopt : mesh.disableShaders = false)
    (hvis : mesh.visSilhouette = false) (hnif : mesh.nif = some nif)
    (hver : mesh.bsVersion ≠ 0) (hreg : R.programs = pre ++ (k, p) :: post)
    (hpre : ∀ e ∈ pre, (e.2.status
      && e.2.conditions.eval X nif (mesh.index :: mesh.iData :: mesh.props)) = false)
    (hstatus : p.status = true)
    (hcond : p.conditions.eval X nif (mesh.index :: mesh.iData :: mesh.props) = true)
    (hbind : bindTexcoords P mesh p.texcoords = false) :
    R.programs.find? (fun e => e.2.status
      && e.2.conditions.eval X nif (mesh.index :: mesh.iData :: mesh.props)) = some (k, p) ∧
    (setupProgramFor X P p mesh (mesh.index :: mesh.iData :: mesh.props) evalByDefault).1
      = false ∧
    (R.setupProgram X P mesh (some [])).1
      = (RendererState.setupProgram X P { R with programs := post } mesh (some [])).1 ∧
    ((RendererState.setupProgram X P { R with programs := post } mesh (some [])).1 = none →
      (R.setupProgram X P mesh (some [])).1 = none ∧
      (R.setupProgram X P mesh (some [])).2.getLast? = some .fixedFunction) := by
  have hsel : (R.setupProgram X P mesh (some [])).1
      = (RendererState.setupProgram X P { R with programs := post } mesh (some [])).1 := by
    rw [setupProgram_scan X P R mesh nif hready hopt hvis hnif hver,
      setupProgram_scan X P { R with programs := post } mesh nif hready hopt hvis hnif hver,
      hreg, List.find?_append]
    have hnone : pre.find? (fun e => e.2.status
        && e.2.conditions.eval X nif (mesh.index :: mesh.iData :: mesh.props)
        && P.bindUniforms e.2 mesh && bindTexcoords P mesh e.2.texcoords) = none := by
      rw [List.find?_eq_none]
      intro e he
      rw [hpre e he]
      simp
    rw [hnone]
    simp [List.find?_cons, hbind]
  refine ⟨?_, ?_, hsel, ?_⟩
  · rw [hreg, List.find?_append]
    have hnone : pre.find? (fun e => e.2.status
        && e.2.conditions.eval X nif (mesh.index :: mesh.iData :: mesh.props)) = none := by
      rw [List.find?_eq_none]
      intro e he
      rw [hpre e he]
      simp
    rw [hnone]
    simp [List.find?_cons, hstatus, hcond]
  · rw [show evalByDefault = true from rfl, setupProgramFor_checked X P p mesh nif _ hnif,
      hbind]
    simp
  · intro hpost
    rw [← hsel] at hpost
    refine ⟨hpost, ?_⟩
    rw [setupProgram_empty_hint X P R mesh nif hready hopt hvis hnif hver] at hpost ⊢
    rw [scanOrFallback_name] at hpost
    exact scanOrFallback_none hpost

/-- C21, witness: `b.prog` has no conditions, is linked and asks for
bitangents, which the drawable does not have; after it comes `skin.prog`,
whose conditions fail. Nothing is selected and the draw ends in the
fixed-function binding. -/
theorem setupProgram_texcoord_failure_witness :
    (RendererState.setupProgram exampleExternals examplePlatform
      (exampleRenderer [exampleProgram "b.prog" 4 bitangentLines,
        exampleProgram "skin.prog" 5 skinLines]) exampleShape (some [])).1 = none ∧
    (RendererState.setupProgram exampleExternals examplePlatform
      (exampleRenderer [exampleProgram "b.prog" 4 bitangentLines,
        exampleProgram "skin.prog" 5 skinLines]) exampleShape (some [])).2.getLast?
      = some .fixedFunction :=
  (setupProgram_texcoord_failure exampleExternals examplePlatform
    (exampleRenderer [exampleProgram "b.prog" 4 bitangentLines,
      exampleProgram "skin.prog" 5 skinLines]) exampleShape (headerNif 172) []
    [exampleProgram "skin.prog" 5 skinLines] "b.prog".toList
    (exampleProgram "b.prog" 4 bitangentLines).2 rfl rfl rfl rfl (by decide) rfl
    (fun e he => by simp at he) (by decide) (by decide) (by decide)).2.2.2 (by decide)

/-- C21, counterexample: `b.prog` is the first linked program whose conditions
hold and its texture-coordinate binding fails, the drawable having no
bitangents; `setupProgram` goes on to `p2.prog`, makes it current and returns
its name: the fixed-function binding is not called. -/
theorem setupProgram_selects_after_failure :
    (exampleProgram "b.prog" 4 bitangentLines).2.status = true ∧
    (exampleProgram "b.prog" 4 bitangentLines).2.conditions.eval exampleExternals
      (headerNif 172) [some 1, none] = true ∧
    bindTexcoords examplePlatform exampleShape
      (exampleProgram "b.prog" 4 bitangentLines).2.texcoords = false ∧
    RendererState.setupProgram exampleExternals examplePlatform
      (exampleRenderer [exampleProgram "b.prog" 4 bitangentLines,
        exampleProgram "p2.prog" 5 p2Lines])
      exampleShape (some []) = (some "p2.prog".toList, [.useProgram 4, .useProgram 5]) := by
  decide

/-! ## The null string and the hint of the next draw (claim C29) -/

theorem setupProgramFor_events (X : Externals) (P : Platform) (prog : Program) (mesh : Shape)
    (iBlocks : List QModelIndex) (eval : Bool) :
    Event.fixedFunction ∉ (setupProgramFor X P prog mesh iBlocks eval).2 := by
  unfold setupProgramFor
  split
  · simp
  · split
    · simp
    · split
      · simp
      · split <;> simp

theorem scanPrograms_events (X : Externals) (P : Platform) (mesh : Shape)
    (iBlocks : List QModelIndex) (programs : List (QString × Program)) :
    Event.fixedFunction ∉ (scanPrograms X P mesh iBlocks programs).2 := by
  induction programs with
  | nil => simp [scanPrograms]
  | cons e rest ih =>
    obtain ⟨k, program⟩ := e
    simp only [scanPrograms]
    split
    · split
      · exact setupProgramFor_events X P program mesh iBlocks evalByDefault
      · simp only [List.mem_append, not_or]
        exact ⟨setupProgramFor_events X P program mesh iBlocks evalByDefault, ih⟩
    · exact ih

theorem scanOrFallback_fixed (X : Externals) (P : Platform) (R : RendererState) (mesh : Shape)
    (iBlocks : List QModelIndex) (before : List Event)
    (hb : Event.fixedFunction ∉ before) :
    (scanOrFallback X P R mesh iBlocks before).1 = none
      ↔ Event.fixedFunction ∈ (scanOrFallback X P R mesh iBlocks before).2 := by
  have hs := scanPrograms_events X P mesh iBlocks R.programs
  simp only [scanOrFallback]
  cases h : (scanPrograms X P mesh iBlocks R.programs).1 with
  | none => simp
  | some n =>
    simp only [List.mem_append, false_iff, not_or, reduceCtorEq]
    exact ⟨hb, hs⟩

theorem setupProgram_null_iff (X : Externals) (P : Platform) (R : RendererState) (mesh : Shape)
    (hint : Option QString) :
    (R.setupProgram X P mesh hint).1 = none
      ↔ Event.fixedFunction ∈ (R.setupProgram X P mesh hint).2 := by
  rw [setupProgram_unfold]
  split
  · simp
  · split
    · rename_i program hp
      split
      · split
        · simp only [false_iff, reduceCtorEq]
          exact setupProgramFor_events X P program mesh _ false
        · exact scanOrFallback_fixed X P R mesh _ _
            (setupProgramFor_events X P program mesh _ false)
      · exact scanOrFallback_fixed X P R mesh _ [] (by simp)
    · exact scanOrFallback_fixed X P R mesh _ [] (by simp)

theorem drawFrames_null (X : Externals) (P : Platform) (frames : List (RendererState × Shape)) :
    ∀ r ∈ drawFrames X P frames none, r = (none, [Event.fixedFunction]) := by
  induction frames with
  | nil => simp [drawFrames]
  | cons f rest ih =>
    obtain ⟨R, mesh⟩ := f
    have h0 : drawShapes X P R mesh none = (none, [Event.fixedFunction]) := by
      simp [drawShapes, setupProgram_unfold]
    intro r hr
    simp only [drawFrames, h0, List.mem_cons] at hr
    rcases hr with hr | hr
    · exact hr
    · exact ih r hr

theorem drawFrames_sticky (X : Externals) (P : Platform)
    (frames : List (RendererState × Shape)) (shader : Option QString) (i j : Nat)
    (ri rj : Option QString × List Event) (hij : i < j)
    (hi : (drawFrames X P frames shader)[i]? = some ri) (hnull : ri.1 = none)
    (hj : (drawFrames X P frames shader)[j]? = some rj) :
    rj = (none, [Event.fixedFunction]) := by
  induction frames generalizing shader i j with
  | nil => simp [drawFrames] at hi
  | cons f rest ih =>
    obtain ⟨R, mesh⟩ := f
    simp only [drawFrames] at hi hj
    cases j with
    | zero => omega
    | succ j2 =>
      simp only [List.getElem?_cons_succ] at hj
      cases i with
      | zero =>
        simp only [List.getElem?_cons_zero, Option.some.injEq] at hi
        rw [hi, hnull] at hj
        exact drawFrames_null X P rest rj (List.mem_iff_getElem?.mpr ⟨_, hj⟩)
      | succ i2 =>
        simp only [List.getElem?_cons_succ] at hi
        exact ih _ i2 j2 (by omega) hi hj

/-- C29: `setupProgram` returns the null string exactly when it called the
fixed-function binding, and otherwise the name of a registered program, which
is not empty when no registered program has an empty name; a null hint gives
the fixed-function binding whatever the renderer, the registry and the
drawable are, so no condition is evaluated. Hence, when each draw of a
drawable passes as hint what the draw before returned, after a draw that
returned the null string every later draw calls the fixed-function binding
only and returns the null string, whatever the registry holds by then. -/
theorem setupProgram_null_hint_sticks (X : Externals) (P : Platform) (R : RendererState)
    (mesh : Shape) (hint : Option QString) (frames : List (RendererState × Shape))
    (shader : Option QString) (hnames : ∀ e ∈ R.programs, e.2.name ≠ []) :
    ((R.setupProgram X P mesh hint).1 = none
      ↔ Event.fixedFunction ∈ (R.setupProgram X P mesh hint).2) ∧
    (∀ n, (R.setupProgram X P mesh hint).1 = some n →
      n ≠ [] ∧ ∃ e ∈ R.programs, e.2.name = n) ∧
    R.setupProgram X P mesh none = (none, [.fixedFunction]) ∧
    (∀ (i j : Nat) (ri rj : Option QString × List Event), i < j →
      (drawFrames X P frames shader)[i]? = some ri → ri.1 = none →
      (drawFrames X P frames shader)[j]? = some rj → rj = (none, [.fixedFunction])) := by
  refine ⟨setupProgram_null_iff X P R mesh hint, ?_, ?_, ?_⟩
  · intro n hn
    obtain ⟨e, he, _, hname⟩ := setupProgram_name hn
    exact ⟨hname ▸ hnames e he, e, he, hname⟩
  · simp [setupProgram_unfold]
  · intro i j ri rj hij hi hnull hj
    exact drawFrames_sticky X P frames shader i j ri rj hij hi hnull hj

/-- C29, witness: three draws of the example drawable, the first with the
empty hint. At the first draw the registry holds only `skin.prog`, whose
conditions fail: the draw falls back and returns the null string. At the
second and third the registry holds `p2.prog`, which has no conditions: the
draws take the fixed-function binding all the same, while a draw with the
empty hint selects `p2.prog`. -/
theorem setupProgram_null_hint_sticks_witness :
    drawFrames exampleExternals examplePlatform
      [(exampleRenderer [exampleProgram "skin.prog" 4 skinLines], exampleShape),
        (exampleRenderer [exampleProgram "p2.prog" 5 p2Lines], exampleShape),
        (exampleRenderer [exampleProgram "p2.prog" 5 p2Lines], exampleShape)] (some [])
      = [(none, [.stopProgram, .fixedFunction]), (none, [.fixedFunction]),
          (none, [.fixedFunction])] ∧
    (RendererState.setupProgram exampleExternals examplePlatform
      (exampleRenderer [exampleProgram "p2.prog" 5 p2Lines]) exampleShape (some [])).1
      = some "p2.prog".toList ∧
    "p2.prog".toList ≠ [] :=
  ⟨by decide, by decide,
    ((setupProgram_null_hint_sticks exampleExternals examplePlatform
      (exampleRenderer [exampleProgram "p2.prog" 5 p2Lines]) exampleShape (some [])
      [] none (fun e he => by
        have h2 : e = exampleProgram "p2.prog" 5 p2Lines := by
          simpa [exampleRenderer] using he
        subst h2
        decide)).2.1 "p2.prog".toList (by decide)).1⟩

/-! ## The per-program set-up with its state (claim C30) -/

theorem setupProgramSt_result (X : Externals) (P : Platform) (loc : UniformType → Int)
    (prog : Program) (mesh : Shape) (D : ShapeProps) (iBlocks : List QModelIndex) (eval : Bool)
    (d : DrawState) (h : P.bindUniforms prog mesh = (bindingPass P loc mesh D).1) :
    (setupProgramSt X P loc prog mesh D iBlocks eval d).1
      = (setupProgramFor X P prog mesh iBlocks eval).1 := by
  unfold setupProgramSt setupProgramFor
  cases mesh.nif with
  | none => rfl
  | some nif =>
    simp only [h]
    split
    · rfl
    · split
      · rfl
      · split <;> rfl

/-- C30: for every program and drawable, the per-program `setupProgram` called
with `eval` set on a program whose conditions evaluate false returns `false`
and leaves the state as it found it: no GL call is made, so the program is not
made current and no texture unit, uniform or render state is touched, and the
flags `depthTest` and `depthWrite` of the drawable keep their values. The
cursor `texunit` is a local that is declared after this return. -/
theorem setupProgram_conditions_false (X : Externals) (P : Platform)
    (loc : UniformType → Int) (prog : Program) (mesh : Shape) (D : ShapeProps) (nif : NifModel)
    (iBlocks : List QModelIndex) (d : DrawState) (hnif : mesh.nif = some nif)
    (hcond : prog.conditions.eval X nif iBlocks = false) :
    setupProgramSt X P loc prog mesh D iBlocks true d = (false, d) ∧
    setupProgramFor X P prog mesh iBlocks true = (false, []) := by
  constructor
  · simp [setupProgramSt, hnif, hcond]
  · simp [setupProgramFor, hnif, hcond]

/-- C30, witness: `skin.prog` on the example drawable, which has no
`NiSkinInstance`, at version `172` with a lighting property and no material:
the state is returned as it was, while with `eval` cleared the program is made
current and the depth flags are set. -/
theorem setupProgram_conditions_false_witness :
    setupProgramSt exampleExternals examplePlatform allUniforms
      (exampleProgram "skin.prog" 4 skinLines).2 exampleShape (litProps exampleShaderProperty)
      [some 1, none] true ⟨false, false, []⟩ = (false, ⟨false, false, []⟩) ∧
    (setupProgramSt exampleExternals examplePlatform allUniforms
      (exampleProgram "skin.prog" 4 skinLines).2 exampleShape (litProps exampleShaderProperty)
      [some 1, none] false ⟨false, false, []⟩).2.depthTest = true ∧
    (setupProgramSt exampleExternals examplePlatform allUniforms
      (exampleProgram "skin.prog" 4 skinLines).2 exampleShape (litProps exampleShaderProperty)
      [some 1, none] false ⟨false, false, []⟩).2.calls.head? = some (.useProgram 4) :=
  ⟨(setupProgram_conditions_false exampleExternals examplePlatform allUniforms
      (exampleProgram "skin.prog" 4 skinLines).2 exampleShape (litProps exampleShaderProperty)
      (headerNif 172) [some 1, none] ⟨false, false, []⟩ rfl (by decide)).1,
    by decide, by decide⟩

/-! ## The fixed-function binding (claim C27) -/

theorem stageAttempts_append (a b : List FixedCall) :
    stageAttempts (a ++ b) = stageAttempts a ++ stageAttempts b := by
  induction a with
  | nil => rfl
  | cons c rest ih =>
    cases c <;> simp [stageAttempts, ih]

theorem stageAttempts_preamble (I : FixedInput) : stageAttempts (fixedPreamble I) = [] := by
  unfold fixedPreamble
  cases I.depthTest <;> cases I.depthWrite <;> rfl

theorem bindStages_attempts (bind : Int → Int → Bool) (slots : List Int) (stage : Int) :
    (stageAttempts (bindStages bind slots stage).2).map (fun a => a.1) = slots ∧
    (bindStages bind slots stage).1
      = stage + (((stageAttempts (bindStages bind slots stage).2).filter
          (fun a => a.2.2)).length : Int) ∧
    ∀ (pre : List (Int × Int × Bool)) (a : Int × Int × Bool) (post : List (Int × Int × Bool)),
      stageAttempts (bindStages bind slots stage).2 = pre ++ a :: post →
      a.2.1 = stage + ((pre.filter (fun a => a.2.2)).length : Int) ∧
      a.2.2 = bind a.1 a.2.1 := by
  induction slots generalizing stage with
  | nil =>
    refine ⟨rfl, by simp [bindStages, stageAttempts], ?_⟩
    intro pre a post h
    simp [bindStages, stageAttempts] at h
  | cons slot rest ih =>
    cases hb : bind slot stage with
    | true =>
      obtain ⟨h1, h2, h3⟩ := ih (stage + 1)
      have hs : stageAttempts (bindStages bind (slot :: rest) stage).2
          = (slot, stage, true) :: stageAttempts (bindStages bind rest (stage + 1)).2 := by
        simp [bindStages, hb, stageAttempts]
      have hv : (bindStages bind (slot :: rest) stage).1
          = (bindStages bind rest (stage + 1)).1 := by
        simp [bindStages, hb]
      rw [hs, hv]
      refine ⟨by simp [h1], ?_, ?_⟩
      · rw [h2]
        simp only [List.filter_cons, if_true, List.length_cons]
        push_cast
        ring
      · intro pre a post h
        cases pre with
        | nil =>
          simp only [List.nil_append, List.cons.injEq] at h
          rw [← h.1]
          simp [hb]
        | cons q pre2 =>
          simp only [List.cons_append, List.cons.injEq] at h
          obtain ⟨hq, hrest⟩ := h
          obtain ⟨h4, h5⟩ := h3 pre2 a post hrest
          refine ⟨?_, h5⟩
          rw [h4, ← hq]
          simp only [List.filter_cons, if_true, List.length_cons]
          push_cast
          ring
    | false =>
      obtain ⟨h1, h2, h3⟩ := ih stage
      have hs : stageAttempts (bindStages bind (slot :: rest) stage).2
          = (slot, stage, false) :: stageAttempts (bindStages bind rest stage).2 := by
        simp [bindStages, hb, stageAttempts]
      have hv : (bindStages bind (slot :: rest) stage).1 = (bindStages bind rest stage).1 := by
        simp [bindStages, hb]
      rw [hs, hv]
      refine ⟨by simp [h1], ?_, ?_⟩
      · rw [h2]
        simp
      · intro pre a post h
        cases pre with
        | nil =>
          simp only [List.nil_append, List.cons.injEq] at h
          rw [← h.1]
          simp [hb]
        | cons q pre2 =>
          simp only [List.cons_append, List.cons.injEq] at h
          obtain ⟨hq, hrest⟩ := h
          obtain ⟨h4, h5⟩ := h3 pre2 a post hrest
          refine ⟨?_, h5⟩
          rw [h4, ← hq]
          simp

theorem setupFixedFunction_texturing_off (I : FixedInput) (h : I.doTexturing = false) :
    setupFixedFunction I = (0, fixedPreamble I) ∧
    stageAttempts (setupFixedFunction I).2 = [] := by
  have hrun : setupFixedFunction I = (0, fixedPreamble I) := by
    simp [setupFixedFunction, h]
  exact ⟨hrun, by rw [hrun]; exact stageAttempts_preamble I⟩

/-- C27, as amended: `setupFixedFunction` has no failure exit, and the stages
are tried only when the scene has texturing on, the function returning before
them otherwise. With texturing on and a multi-texturing property, the slots
dark, base, detail, the four decals and glow are each tried exactly once, in
this order, whatever the earlier ones did; each is tried with the stage index
that counts the slots that bound before it, its outcome is that of the bind at
that index, and the final stage count is the number of slots that bound. -/
theorem fixed_function_stages (I : FixedInput) (bind : Int → Int → Bool)
    (htex : I.doTexturing = true) (hprop : I.texturing = some bind) :
    (stageAttempts (setupFixedFunction I).2).map (fun a => a.1) = [1, 0, 2, 6, 7, 8, 9, 4] ∧
    (setupFixedFunction I).1
      = (((stageAttempts (setupFixedFunction I).2).filter (fun a => a.2.2)).length : Int) ∧
    ∀ (pre : List (Int × Int × Bool)) (a : Int × Int × Bool) (post : List (Int × Int × Bool)),
      stageAttempts (setupFixedFunction I).2 = pre ++ a :: post →
      a.2.1 = ((pre.filter (fun a => a.2.2)).length : Int) ∧ a.2.2 = bind a.1 a.2.1 := by
  have hrun : setupFixedFunction I
      = ((bindStages bind fixedSlots 0).1, fixedPreamble I ++ (bindStages bind fixedSlots 0).2) := by
    simp [setupFixedFunction, htex, hprop]
  have hs : stageAttempts (setupFixedFunction I).2
      = stageAttempts (bindStages bind fixedSlots 0).2 := by
    rw [hrun, stageAttempts_append, stageAttempts_preamble, List.nil_append]
  obtain ⟨h1, h2, h3⟩ := bindStages_attempts bind fixedSlots 0
  rw [hs]
  refine ⟨h1, ?_, ?_⟩
  · rw [hrun]
    simpa using h2
  · intro pre a post h
    simpa using h3 pre a post h

/-- C27, witness: a multi-texturing property whose base and glow slots bind:
the eight slots are tried, base at stage `0` and glow at stage `1`, and the
final stage count is `2`. -/
theorem fixed_function_stages_witness :
    stageAttempts (setupFixedFunction (fixedExample true)).2
      = [(1, 0, false), (0, 0, true), (2, 1, false), (6, 1, false), (7, 1, false),
          (8, 1, false), (9, 1, false), (4, 1, true)] ∧
    (setupFixedFunction (fixedExample true)).1 = 2 :=
  ⟨by decide,
    (fixed_function_stages (fixedExample true) (fun slot _ => decide (slot = 0 ∨ slot = 4))
      rfl rfl).2.1.trans (by decide)⟩

/-- C27, counterexample: the drawable has a multi-texturing property whose base
and glow slots would bind, and the scene has texturing off:
`setupFixedFunction` tries no stage at all. -/
theorem fixed_function_without_texturing :
    (fixedExample false).texturing.isSome = true ∧
    stageAttempts (setupFixedFunction (fixedExample false)).2 = [] ∧
    (setupFixedFunction (fixedExample false)).1 = 0 := by
  decide

/-! ## The sampler helper (claim C25) -/

/-- C25, as amended: `uniSampler` returns nothing and has no failure exit. When
its sampler uniform is there and the file name it resolves is not empty: if
the unit is activated and neither the name nor `alternate` binds, the
placeholder is bound, that is the unit is activated, `glBindTexture` is
called with `0`, the uniform is given the unit and the cursor moves on by
one; if the unit cannot be activated, nothing is bound, the uniform is left
unassigned and the cursor stays where it is. -/
theorem uniSampler_failure (P : Platform) (loc : UniformType → Int) (bsprop : BSShaderProperty)
    (var : UniformType) (textureSlot : Int) (alternate : QString) (clamp : TextureClampMode)
    (forced : QString) (st : BindState) (hloc : loc var ≥ 0)
    (hname : samplerFile bsprop textureSlot alternate forced ≠ []) :
    (P.activateTextureUnit st.texunit = true →
      bsprop.bind textureSlot (samplerFile bsprop textureSlot alternate forced) clamp = false →
      bsprop.bind textureSlot alternate .WrapS_WrapT = false →
      uniSampler P loc bsprop var textureSlot alternate clamp forced st
        = ⟨st.texunit + 1, st.calls ++ [.activeTexture st.texunit,
            .bindTexture textureSlot (samplerFile bsprop textureSlot alternate forced) clamp
              false,
            .bindTexture textureSlot alternate .WrapS_WrapT false,
            .activeTexture st.texunit, .unbindTexture, .sampler var st.texunit]⟩) ∧
    (P.activateTextureUnit st.texunit = false →
      uniSampler P loc bsprop var textureSlot alternate clamp forced st = st) := by
  have hne : (samplerFile bsprop textureSlot alternate forced).isEmpty = false := by
    cases h : samplerFile bsprop textureSlot alternate forced with
    | nil => exact absurd h hname
    | cons c t => rfl
  constructor
  · intro hact h1 h2
    simp [uniSampler, hloc, hne, hact, h1, h2, uniSamplerBlank, setSampler]
  · intro hact
    simp [uniSampler, hloc, hne, hact, uniSamplerBlank]

/-- C25, witness: none of the texture files can be read; on unit `0` of a
platform with eight units the tint sampler gets the placeholder, and at
cursor `8` nothing is done. -/
theorem uniSampler_failure_witness :
    uniSampler examplePlatform allUniforms missingFiles .SAMP_TINT 6 gray .WrapS_WrapT []
        ⟨0, []⟩
      = ⟨1, [.activeTexture 0, .bindTexture 6 gray .WrapS_WrapT false,
          .bindTexture 6 gray .WrapS_WrapT false, .activeTexture 0, .unbindTexture,
          .sampler .SAMP_TINT 0]⟩ ∧
    uniSampler examplePlatform allUniforms missingFiles .SAMP_TINT 6 gray .WrapS_WrapT []
        ⟨8, []⟩ = ⟨8, []⟩ :=
  ⟨(uniSampler_failure examplePlatform allUniforms missingFiles .SAMP_TINT 6 gray
      .WrapS_WrapT [] ⟨0, []⟩ (by decide) (by decide)).1 (by decide) rfl rfl,
    (uniSampler_failure examplePlatform allUniforms missingFiles .SAMP_TINT 6 gray
      .WrapS_WrapT [] ⟨8, []⟩ (by decide) (by decide)).2 (by decide)⟩

/-- C25, counterexample: the program has the tint sampler, the name resolved
for it is not empty, and the cursor is at `8` on a platform with eight units,
so the unit cannot be activated: `uniSampler` leaves the state as it is. No
texture is unbound and the sampler uniform is given no unit. -/
theorem uniSampler_exhausted_binds_nothing :
    allUniforms .SAMP_TINT ≥ 0 ∧
    samplerFile exampleShaderProperty 6 gray [] = gray ∧
    examplePlatform.activateTextureUnit 8 = false ∧
    uniSampler examplePlatform allUniforms exampleShaderProperty .SAMP_TINT 6 gray
      .WrapS_WrapT [] ⟨8, []⟩ = ⟨8, []⟩ := by
  decide

/-! ## The texture-unit cursor (claim C26) -/

theorem samplerUnits_append (a b : List GLCall) :
    samplerUnits (a ++ b) = samplerUnits a ++ samplerUnits b := by
  induction a with
  | nil => rfl
  | cons c rest ih =>
    cases c <;> simp [samplerUnits, ih]

theorem setSampler_advanced (var : UniformType) (st : BindState) (extra : List GLCall)
    (h : samplerUnits extra = []) :
    Advanced st (setSampler var { st with calls := st.calls ++ extra }) := by
  right
  simp [setSampler, samplerUnits_append, h, samplerUnits]

theorem uniSamplerBlank_advanced (P : Platform) (loc : UniformType → Int) (var : UniformType)
    (st : BindState) (extra : List GLCall) (h : samplerUnits extra = []) :
    Advanced st (uniSamplerBlank P loc var { st with calls := st.calls ++ extra }) := by
  unfold uniSamplerBlank
  split
  · right
    simp [setSampler, samplerUnits_append, h, samplerUnits]
  · left
    simp [samplerUnits_append, h]

theorem uniSampler_advanced (P : Platform) (loc : UniformType → Int) (bsprop : BSShaderProperty)
    (var : UniformType) (textureSlot : Int) (alternate : QString) (clamp : TextureClampMode)
    (forced : QString) (st : BindState) :
    Advanced st (uniSampler P loc bsprop var textureSlot alternate clamp forced st) := by
  unfold uniSampler
  split
  · simp only
    split
    · simpa using setSampler_advanced var st [] rfl
    · split
      · simpa using uniSamplerBlank_advanced P loc var st [] rfl
      · split
        · exact setSampler_advanced var st _ rfl
        · split
          · exact setSampler_advanced var st _ rfl
          · exact uniSamplerBlank_advanced P loc var st _ rfl
  · left
    exact ⟨rfl, rfl⟩

theorem bindBaseMap_advanced (P : Platform) (loc : UniformType → Int) (mesh : Shape)
    (D : ShapeProps) (st : BindState) : Advanced st (bindBaseMap P loc mesh D st) := by
  unfold bindBaseMap
  split
  · split
    · simpa using uniSamplerBlank_advanced P loc .SAMP_BASE st [] rfl
    · split
      · split
        · exact uniSamplerBlank_advanced P loc .SAMP_BASE st _ rfl
        · exact setSampler_advanced .SAMP_BASE st _ rfl
      · exact setSampler_advanced .SAMP_BASE st _ rfl
  · left
    exact ⟨rfl, rfl⟩

theorem bindDerivedMap_advanced (P : Platform) (loc : UniformType → Int) (mesh : Shape)
    (D : ShapeProps) (var : UniformType) (tag : QString) (st : BindState) :
    Advanced st (bindDerivedMap P loc mesh D var tag st) := by
  unfold bindDerivedMap
  split
  · simp only
    split
    · simpa using setSampler_advanced var st [] rfl
    · split
      · simpa using uniSamplerBlank_advanced P loc var st [] rfl
      · split
        · exact uniSamplerBlank_advanced P loc var st _ rfl
        · exact setSampler_advanced var st _ rfl
  · left
    exact ⟨rfl, rfl⟩

theorem bindCubeMap_advanced (P : Platform) (loc : UniformType → Int) (bsprop : BSShaderProperty)
    (textureSlot : Int) (st : BindState) :
    Advanced st (bindCubeMap P loc bsprop textureSlot st).2 := by
  simp only [bindCubeMap]
  split_ifs <;>
    first
    | exact Or.inl ⟨rfl, rfl⟩
    | exact setSampler_advanced .SAMP_CUBE st _ (by rfl)
    | exact Or.inl ⟨rfl, by simp [samplerUnits_append, samplerUnits]⟩

theorem runStep_advanced (P : Platform) (loc : UniformType → Int) (mesh : Shape)
    (D : ShapeProps) (s : BindStep) (st : BindState) :
    Advanced st (runStep P loc mesh D s st).2 := by
  cases s with
  | uni var =>
    left
    simp [runStep, samplerUnits_append, samplerUnits]
  | uni4m var =>
    left
    simp only [runStep]
    split
    · simp [samplerUnits_append, samplerUnits]
    · exact ⟨rfl, rfl⟩
  | uniSampler var textureSlot alternate clamp forced =>
    exact uniSampler_advanced P loc D.shader var textureSlot alternate clamp forced st
  | baseMap => exact bindBaseMap_advanced P loc mesh D st
  | derivedMap var tag => exact bindDerivedMap_advanced P loc mesh D var tag st
  | cubeMap textureSlot => exact bindCubeMap_advanced P loc D.shader textureSlot st

theorem runSteps_units (P : Platform) (loc : UniformType → Int) (mesh : Shape)
    (D : ShapeProps) (steps : List BindStep) (st : BindState) :
    ∃ n : Nat, (runSteps P loc mesh D steps st).2.texunit = st.texunit + n ∧
      samplerUnits (runSteps P loc mesh D steps st).2.calls
        = samplerUnits st.calls ++ unitsFrom st.texunit n := by
  induction steps generalizing st with
  | nil => exact ⟨0, by simp [runSteps], by simp [runSteps, unitsFrom]⟩
  | cons s rest ih =>
    have hadv := runStep_advanced P loc mesh D s st
    simp only [runSteps]
    split
    · obtain ⟨n, h1, h2⟩ := ih (runStep P loc mesh D s st).2
      rcases hadv with ⟨ha, hb⟩ | ⟨ha, hb⟩
      · exact ⟨n, by rw [h1, ha], by rw [h2, ha, hb]⟩
      · refine ⟨n + 1, ?_, ?_⟩
        · rw [h1, ha]
          push_cast
          ring
        · rw [h2, ha, hb, List.append_assoc]
          rfl
    · rcases hadv with ⟨ha, hb⟩ | ⟨ha, hb⟩
      · exact ⟨0, by simp [ha], by simp [hb, unitsFrom]⟩
      · exact ⟨1, by simp [ha], by simp [hb, unitsFrom]⟩

/-- C26: within one binding pass of the per-program `setupProgram` the cursor
`texunit` starts at `0` and only moves forward. Every call of `uniSampler` and
of `uniSamplerBlank` leaves it as it is or adds one to it, and leaves the
whole state as it is when the program does not have the sampler uniform. When
the pass ends, having come to its end or left through a `return false`, the
units given to sampler uniforms are, in call order, `0`, `1`, ..., up to the
cursor less one: no unit is skipped and none is given twice. -/
theorem texunit_cursor (P : Platform) (loc : UniformType → Int) (mesh : Shape) (D : ShapeProps)
    (bsprop : BSShaderProperty) (var : UniformType) (textureSlot : Int) (alternate : QString)
    (clamp : TextureClampMode) (forced : QString) (st : BindState) :
    ((uniSampler P loc bsprop var textureSlot alternate clamp forced st).texunit = st.texunit ∨
      (uniSampler P loc bsprop var textureSlot alternate clamp forced st).texunit
        = st.texunit + 1) ∧
    ((uniSamplerBlank P loc var st).texunit = st.texunit ∨
      (uniSamplerBlank P loc var st).texunit = st.texunit + 1) ∧
    (loc var < 0 →
      uniSampler P loc bsprop var textureSlot alternate clamp forced st = st ∧
      uniSamplerBlank P loc var st = st) ∧
    (∃ n : Nat, (bindingPass P loc mesh D).2.texunit = n ∧
      samplerUnits (bindingPass P loc mesh D).2.calls = unitsFrom 0 n) := by
  refine ⟨?_, ?_, ?_, ?_⟩
  · rcases uniSampler_advanced P loc bsprop var textureSlot alternate clamp forced st with h | h
    · exact Or.inl h.1
    · exact Or.inr h.1
  · rcases uniSamplerBlank_advanced P loc var st [] rfl with h | h
    · left
      simpa using h.1
    · right
      simpa using h.1
  · intro h
    have hn : ¬ (loc var ≥ 0) := by omega
    constructor
    · simp [uniSampler, hn]
    · simp [uniSamplerBlank, hn]
  · obtain ⟨n, h1, h2⟩ := runSteps_units P loc mesh D (passSteps mesh D) ⟨0, []⟩
    exact ⟨n, by simpa [bindingPass] using h1, by simpa [bindingPass, samplerUnits] using h2⟩

/-- C26, witness: the lit drawable of version `130` drawn with a program that
has every uniform, on a platform with eight units: the samplers are given the
units `0` to `7` in this order, and the pass is left at the cube map, for
which no unit is free; without the tint sampler in the program, the call for
it changes nothing. -/
theorem texunit_cursor_witness :
    samplerUnits (bindingPass examplePlatform allUniforms olderShape
      (litProps exampleShaderProperty)).2.calls = [0, 1, 2, 3, 4, 5, 6, 7] ∧
    (bindingPass examplePlatform allUniforms olderShape
      (litProps exampleShaderProperty)).2.texunit = 8 ∧
    uniSampler examplePlatform cubeOnly exampleShaderProperty .SAMP_TINT 6 gray .WrapS_WrapT []
      ⟨3, []⟩ = ⟨3, []⟩ :=
  ⟨by decide, by decide,
    ((texunit_cursor examplePlatform cubeOnly olderShape (litProps exampleShaderProperty)
      exampleShaderProperty .SAMP_TINT 6 gray .WrapS_WrapT [] ⟨3, []⟩).2.2.1 (by decide)).1⟩

/-! ## The version gates of the lit-material binding (claim C24) -/

theorem runStep_noCube (P : Platform) (loc : UniformType → Int) (mesh : Shape) (D : ShapeProps)
    (s : BindStep) (st : BindState) (h : s.isCube = false) :
    (runStep P loc mesh D s st).1 = true := by
  cases s <;> first | rfl | simp [BindStep.isCube] at h

theorem runSteps_noCube (P : Platform) (loc : UniformType → Int) (mesh : Shape) (D : ShapeProps)
    (steps : List BindStep) (st : BindState) (h : steps.all (fun s => !s.isCube) = true) :
    (runSteps P loc mesh D steps st).1 = true ∧ stepsRun P loc mesh D steps st = steps := by
  induction steps generalizing st with
  | nil => exact ⟨rfl, rfl⟩
  | cons s rest ih =>
    simp only [List.all_cons, Bool.and_eq_true, Bool.not_eq_true'] at h
    have hs := runStep_noCube P loc mesh D s st h.1
    simp only [runSteps, stepsRun, hs, if_true]
    exact ⟨(ih _ h.2).1, by rw [(ih _ h.2).2]⟩

theorem stepsRun_cube (P : Platform) (loc : UniformType → Int) (mesh : Shape) (D : ShapeProps)
    (A T : List BindStep) (slot : Int) (st : BindState)
    (hA : A.all (fun s => !s.isCube) = true) (hT : T.all (fun s => !s.isCube) = true) :
    stepsRun P loc mesh D (A ++ .cubeMap slot :: T) st
      = A ++ .cubeMap slot ::
          (if (runSteps P loc mesh D (A ++ .cubeMap slot :: T) st).1 then T else []) := by
  induction A generalizing st with
  | nil =>
    simp only [List.nil_append, stepsRun, runSteps]
    split
    · rw [(runSteps_noCube P loc mesh D T _ hT).1, (runSteps_noCube P loc mesh D T _ hT).2]
      rfl
    · rfl
  | cons s rest ih =>
    simp only [List.all_cons, Bool.and_eq_true, Bool.not_eq_true'] at hA
    have hs := runStep_noCube P loc mesh D s st hA.1
    rw [List.cons_append, stepsRun, runSteps]
    simp only [hs, if_true]
    rw [ih _ hA.2]
    rfl

theorem lit_pass_steps (mesh : Shape) (D : ShapeProps) (lsp : BSLightingShaderProperty)
    (hl : D.bslsp = some lsp) (he : D.bsesp = false) :
    passSteps mesh D
      = (mapSteps mesh D ++ litHead mesh.bsVersion lsp (clampOf mesh D))
        ++ .cubeMap 4 :: litTail mesh.bsVersion (clampOf mesh D) := by
  simp [passSteps, hl, he, litSteps]

theorem mapSteps_noCube (mesh : Shape) (D : ShapeProps) :
    (mapSteps mesh D).all (fun s => !s.isCube) = true := by
  unfold mapSteps
  cases mesh.bsprop <;> cases D.bsesp <;> rfl

theorem litHead_noCube (v : Nat) (lsp : BSLightingShaderProperty) (clamp : TextureClampMode) :
    (litHead v lsp clamp).all (fun s => !s.isCube) = true := by
  unfold litHead
  simp only [List.all_append, Bool.and_eq_true]
  refine ⟨⟨⟨⟨⟨⟨⟨rfl, ?_⟩, rfl⟩, ?_⟩, ?_⟩, rfl⟩, ?_⟩, rfl⟩
  · cases lsp.hasTintColor <;> rfl
  · split
    · split <;> rfl
    · rfl
  · split <;> rfl
  · cases lsp.hasMultiLayerParallax <;> rfl

theorem litTail_noCube (v : Nat) (clamp : TextureClampMode) :
    (litTail v clamp).all (fun s => !s.isCube) = true := by
  unfold litTail
  simp only [List.all_append, Bool.and_eq_true]
  refine ⟨⟨rfl, ?_⟩, rfl⟩
  split <;> rfl

theorem lit_pass_run (P : Platform) (loc : UniformType → Int) (mesh : Shape) (D : ShapeProps)
    (lsp : BSLightingShaderProperty) (hl : D.bslsp = some lsp) (he : D.bsesp = false) :
    stepsRun P loc mesh D (passSteps mesh D) ⟨0, []⟩
      = (mapSteps mesh D ++ litHead mesh.bsVersion lsp (clampOf mesh D))
        ++ .cubeMap 4 ::
          (if (bindingPass P loc mesh D).1 then litTail mesh.bsVersion (clampOf mesh D)
            else []) := by
  unfold bindingPass
  rw [lit_pass_steps mesh D lsp hl he]
  apply stepsRun_cube
  · rw [List.all_append, mapSteps_noCube, litHead_noCube]
    rfl
  · exact litTail_noCube _ _

/-- C24, as amended: in the binding pass of a lit drawable (one with a
lighting shader property and no effect property) a specular sampler is bound
through `uniSampler` exactly when the version is at most `130`; each of the
uniforms for the double-sided flag, the palette scale, the subsurface rolloff
and the Fresnel, rim and backlight powers is set exactly when the version is
at least `130`; and `uniSampler` is called for the reflectivity and for the
precomputed-lighting sampler exactly when the version is at least `151` and
the pass has not been left at the cube-map block, which comes before them. -/
theorem lit_version_gates (P : Platform) (loc : UniformType → Int) (mesh : Shape)
    (D : ShapeProps) (lsp : BSLightingShaderProperty) (hl : D.bslsp = some lsp)
    (he : D.bsesp = false) :
    ((∃ slot alternate clamp forced, BindStep.uniSampler .SAMP_SPECULAR slot alternate clamp
        forced ∈ stepsRun P loc mesh D (passSteps mesh D) ⟨0, []⟩) ↔ mesh.bsVersion ≤ 130) ∧
    (∀ var ∈ [UniformType.DOUBLE_SIDE, .G2P_SCALE, .SS_ROLLOFF, .POW_FRESNEL, .POW_RIM,
        .POW_BACK],
      BindStep.uni var ∈ stepsRun P loc mesh D (passSteps mesh D) ⟨0, []⟩
        ↔ 130 ≤ mesh.bsVersion) ∧
    ((∃ slot alternate clamp forced, BindStep.uniSampler .SAMP_REFLECTIVITY slot alternate
        clamp forced ∈ stepsRun P loc mesh D (passSteps mesh D) ⟨0, []⟩)
      ↔ 151 ≤ mesh.bsVersion ∧ (bindingPass P loc mesh D).1 = true) ∧
    ((∃ slot alternate clamp forced, BindStep.uniSampler .SAMP_LIGHTING slot alternate clamp
        forced ∈ stepsRun P loc mesh D (passSteps mesh D) ⟨0, []⟩)
      ↔ 151 ≤ mesh.bsVersion ∧ (bindingPass P loc mesh D).1 = true) := by
  rw [lit_pass_run P loc mesh D lsp hl he]
  refine ⟨?_, ?_, ?_, ?_⟩
  · cases hb : mesh.bsprop <;>
      by_cases hc : (mesh.bsVersion = 130 ∨ lsp.hasSpecularMap = true ∧ lsp.hasBacklight = false) <;>
      simp [mapSteps, litHead, litTail, hb, he, hc]
  · intro var hvar
    simp only [List.mem_cons, List.mem_singleton, List.not_mem_nil, or_false] at hvar
    cases hb : mesh.bsprop <;>
      by_cases hc : (mesh.bsVersion = 130 ∨ lsp.hasSpecularMap = true ∧ lsp.hasBacklight = false) <;>
      rcases hvar with rfl | rfl | rfl | rfl | rfl | rfl <;>
      simp [mapSteps, litHead, litTail, hb, he, hc]
  · cases hb : mesh.bsprop <;>
      by_cases hc : (mesh.bsVersion = 130 ∨ lsp.hasSpecularMap = true ∧ lsp.hasBacklight = false) <;>
      simp [mapSteps, litHead, litTail, hb, he, hc]
    all_goals exact and_comm
  · cases hb : mesh.bsprop <;>
      by_cases hc : (mesh.bsVersion = 130 ∨ lsp.hasSpecularMap = true ∧ lsp.hasBacklight = false) <;>
      simp [mapSteps, litHead, litTail, hb, he, hc]
    all_goals exact and_comm

/-- C24, witness: at version `130` the lit drawable gets both the specular
sampler and the double-sided flag, and no reflectivity sampler. -/
theorem lit_version_gates_witness :
    (∃ slot alternate clamp forced, BindStep.uniSampler .SAMP_SPECULAR slot alternate clamp
      forced ∈ stepsRun examplePlatform allUniforms olderShape (litProps exampleShaderProperty)
        (passSteps olderShape (litProps exampleShaderProperty)) ⟨0, []⟩) ∧
    BindStep.uni .DOUBLE_SIDE ∈ stepsRun examplePlatform allUniforms olderShape
      (litProps exampleShaderProperty)
      (passSteps olderShape (litProps exampleShaderProperty)) ⟨0, []⟩ ∧
    ¬ (∃ slot alternate clamp forced, BindStep.uniSampler .SAMP_REFLECTIVITY slot alternate
      clamp forced ∈ stepsRun examplePlatform allUniforms olderShape
        (litProps exampleShaderProperty)
        (passSteps olderShape (litProps exampleShaderProperty)) ⟨0, []⟩) :=
  ⟨(lit_version_gates examplePlatform allUniforms olderShape (litProps exampleShaderProperty)
      ⟨false, true, false, false⟩ rfl rfl).1.mpr (by decide),
    ((lit_version_gates examplePlatform allUniforms olderShape (litProps exampleShaderProperty)
      ⟨false, true, false, false⟩ rfl rfl).2.1 .DOUBLE_SIDE (by simp)).mpr (by decide),
    fun h => absurd ((lit_version_gates examplePlatform allUniforms olderShape
      (litProps exampleShaderProperty) ⟨false, true, false, false⟩ rfl rfl).2.2.1.mp h).1
      (by decide)⟩

/-- C24, counterexample: a lit drawable of version `151` whose cube-map files
cannot be read, drawn with a program that has the cube, reflectivity and
precomputed-lighting samplers. The pass is left at the cube-map block with
`return false`: `uniSampler` is called neither for the reflectivity nor for
the precomputed-lighting sampler, and neither is given a unit. With files
that can be read both are. -/
theorem lit_pass_left_at_cube :
    (shapeOf 151).bsVersion ≥ 151 ∧
    envUniforms .SAMP_REFLECTIVITY ≥ 0 ∧ envUniforms .SAMP_LIGHTING ≥ 0 ∧
    (bindingPass examplePlatform envUniforms (shapeOf 151) (litProps missingFiles)).1 = false ∧
    GLCall.bindCube cube false
      ∈ (bindingPass examplePlatform envUniforms (shapeOf 151) (litProps missingFiles)).2.calls ∧
    samplerUnits (bindingPass examplePlatform envUniforms (shapeOf 151)
      (litProps missingFiles)).2.calls = [] ∧
    BindStep.uniSampler .SAMP_REFLECTIVITY 8 black .WrapS_WrapT []
      ∉ stepsRun examplePlatform envUniforms (shapeOf 151) (litProps missingFiles)
        (passSteps (shapeOf 151) (litProps missingFiles)) ⟨0, []⟩ ∧
    BindStep.uniSampler .SAMP_LIGHTING 9 lighting .WrapS_WrapT []
      ∉ stepsRun examplePlatform envUniforms (shapeOf 151) (litProps missingFiles)
        (passSteps (shapeOf 151) (litProps missingFiles)) ⟨0, []⟩ ∧
    BindStep.uniSampler .SAMP_REFLECTIVITY 8 black .WrapS_WrapT []
      ∈ stepsRun examplePlatform envUniforms (shapeOf 151) (litProps exampleShaderProperty)
        (passSteps (shapeOf 151) (litProps exampleShaderProperty)) ⟨0, []⟩ ∧
    samplerUnits (bindingPass examplePlatform envUniforms (shapeOf 151)
      (litProps exampleShaderProperty)).2.calls = [0, 1, 2] := by
  decide

end Renderer
